import Mathlib

/-!
spectralizer: band mapping, band extraction, falloff and bar shaping.

A shallow embedding of `src/util/audio/audio_processor.cpp` and
`src/util/audio/spectrum_visualizer.cpp`.

Conventions of the embedding

* `float` / `double` values are exact rationals (`ℚ`); rounding, infinities and NaN are not
  represented.  Library routines whose results are not rational functions of their arguments
  (`log10`, `pow` with a fractional exponent, `hypot`, `sqrt`) and the FFTW transform are fields
  of `Collab`; the general theorems quantify over them, and `example_collab` is a concrete
  instance on which the definitions are run.  `pow` with an integer exponent is the exact power.
  Where the rounding of `double` decides a property, the function is embedded a second time with
  binary64 rounding and NaN (the definitions named `…_binary64`).
* `int` values are integers (`ℤ`); signed overflow is undefined in the source and not represented.
  A floating value stored into an `int` is truncated toward zero (`to_int`).
* Heap buffers (`int*`, `float*`, `double*`) are index-to-value maps `ℕ → _`.  A store through a
  pointer is `Function.update`; the number of elements requested from the allocator does not
  restrict which indices the map has.
* `for` loops are `for_loop` / `for_down`, structurally recursive in the iteration count.
-/

/-- The loop `for (n = 0; n < count; n++) body(n)`: the body runs for `n = 0, 1, …, count - 1`
in this order. -/
def for_loop {σ : Type} (count : ℕ) (body : ℕ → σ → σ) (s : σ) : σ :=
  match count with
  | 0 => s
  | k + 1 => body k (for_loop k body s)

/-- The loop `for (n = count - 1; n >= 0; n--) body(n)`: the body runs for
`n = count - 1, …, 1, 0` in this order. -/
def for_down {σ : Type} (count : ℕ) (body : ℕ → σ → σ) (s : σ) : σ :=
  match count with
  | 0 => s
  | k + 1 => for_down k body (body k s)

/-- Conversion of a floating value to `int` (on assignment to an `int` object): truncation
toward zero. -/
def to_int (q : ℚ) : ℤ := Int.tdiv q.num q.den

/-- Modelled from the spec: the macro `UTIL_MAX(a, b)`, whose definition is not among the
sources: the larger of its two arguments (`a > b ? a : b`). -/
def UTIL_MAX (a b : ℚ) : ℚ := if a > b then a else b

/-- Modelled from the spec: the macro `UTIL_CLAMP(lower, x, upper)`, whose definition is not among
the sources: `x` clamped to `[lower, upper]`. -/
def UTIL_CLAMP (lower x upper : ℤ) : ℤ := min (max lower x) upper

/-- Routines the code calls but does not define, and the constant `AUDIO_SIZE`.  They are
parameters of the embedding. -/
structure Collab where
  /-- `log10` of the C math library. -/
  log10 : ℚ → ℚ
  /-- `pow(base, exponent)` of the C math library, for exponents that are not integers. -/
  pow : ℚ → ℚ → ℚ
  /-- `hypot(x, y)` of the C math library. -/
  hypot : ℚ → ℚ → ℚ
  /-- `std::sqrt`. -/
  sqrt : ℚ → ℚ
  /-- `fftw_execute` of a real-to-complex plan of the given size: from the input buffer and the
  previous contents of the output buffer to the new contents of the output buffer. -/
  fftw_execute : ℕ → (ℕ → ℚ) → (ℕ → ℚ × ℚ) → (ℕ → ℚ × ℚ)
  /-- The constant `AUDIO_SIZE`: the length of the capture buffers. -/
  AUDIO_SIZE : ℕ

namespace source

/-- The values of `cfg->filter_mode` that `audio_processor::tick` distinguishes. -/
inductive filter_kind where
  | FILTER_NONE
  | FILTER_MCAT
  | FILTER_WAVES
  deriving DecidableEq

/-- Modelled from the spec: the configuration snapshot `source::config`, whose declaration is not
among the sources.  The fields are those `audio_processor` reads.  `detail`, `buffer_size`,
`sample_rate`, `fps` and `bar_height` are unsigned integers (the code casts them to `float` where
it wants a floating division); the cut-off frequencies and the coefficients are numbers. -/
structure config where
  detail : ℕ
  stereo : Bool
  buffer_size : ℕ
  sample_rate : ℕ
  fps : ℕ
  bar_height : ℕ
  gravity : ℚ
  integral : ℚ
  sens : ℚ
  ignore : ℚ
  freq_cutoff_low : ℚ
  freq_cutoff_high : ℚ
  mcat_strength : ℚ
  filter_mode : filter_kind

end source

namespace audio

/-- The table `smoothing_values` ("EQ used to weigh frequencies"), entry for entry. -/
def smoothing_values : List ℚ :=
  [0.8, 0.8, 1, 1, 0.8, 0.8, 1, 0.8, 0.8, 1, 1, 0.8, 1, 1, 0.8, 0.6, 0.6, 0.7, 0.8, 0.8,
   0.8, 0.8, 0.8, 0.8, 0.8, 0.8, 0.8, 0.8, 0.8, 0.8, 0.8, 0.8, 0.8, 0.8, 0.8, 0.8, 0.8,
   0.8, 0.8, 0.8, 0.8, 0.8, 0.8, 0.8, 0.8, 0.7, 0.6, 0.6, 0.6, 0.6, 0.6, 0.6, 0.6, 0.6,
   0.6, 0.6, 0.6, 0.6, 0.6, 0.6, 0.6, 0.6, 0.6, 0.6]

/-- The data members of `audio::audio_processor`.  `m_audio_out_l` / `m_audio_out_r` are the
capture buffers, written by the capture collaborator between ticks. -/
structure audio_processor where
  m_buf_size : ℕ
  m_samples : ℕ
  m_channels : ℕ
  m_eq_dist : ℚ
  m_sleep_counter : ℚ
  m_current_gravity : ℚ
  m_can_draw : Bool
  log_flag : Bool
  m_fall_off : ℕ → ℤ
  m_last_freqs : ℕ → ℤ
  m_last_freqsd : ℕ → ℤ
  m_freq_mem : ℕ → ℤ
  m_freq_both : ℕ → ℤ
  m_low_freq_cut : ℕ → ℤ
  m_high_freq_cut : ℕ → ℤ
  m_freq_l : ℕ → ℤ
  m_freq_r : ℕ → ℤ
  m_freq_peak : ℕ → ℚ
  m_freq_weight : ℕ → ℚ
  m_fftw_in_l : ℕ → ℚ
  m_fftw_in_r : ℕ → ℚ
  m_fftw_out_l : ℕ → ℚ × ℚ
  m_fftw_out_r : ℕ → ℚ × ℚ
  m_audio_out_l : ℕ → ℚ
  m_audio_out_r : ℕ → ℚ

/-- Lines 84–92 of `audio_processor::update`: the stores to the two cut-off tables in iteration
`n`, where `raw` is the `int` value of `fre * (m_buf_size / 2) + 1`. -/
def cut_off_step (raw : ℤ) (n : ℕ) (low high : ℕ → ℤ) : (ℕ → ℤ) × (ℕ → ℤ) :=
  let low0 := Function.update low n raw
  if 0 < n then
    let high0 := Function.update high (n - 1) (low0 n - 1)
    let low1 := if low0 n ≤ low0 (n - 1) then Function.update low0 n (low0 (n - 1) + 1) else low0
    (low1, Function.update high0 (n - 1) (low1 n - 1))
  else
    (low0, high)

/-- The cut-off frequency `fc` of iteration `n` of `audio_processor::update`. -/
def cut_off_frequency (E : Collab) (cfg : source.config) (frequency_constant : ℚ) (n : ℕ) : ℚ :=
  let pot : ℚ := frequency_constant * (-1)
  let pot : ℚ := pot + ((n : ℚ) + 1) / ((cfg.detail : ℚ) + 1) * frequency_constant
  cfg.freq_cutoff_high * E.pow 10 pot

/-- One iteration of the loop of `audio_processor::update` (lines 77–104). -/
def update_band (E : Collab) (cfg : source.config) (frequency_constant : ℚ) (n : ℕ)
    (s : audio_processor) : audio_processor :=
  let fc : ℚ := cut_off_frequency E cfg frequency_constant n
  let fre : ℚ := fc / ((cfg.sample_rate / 2 : ℕ) : ℚ)
  let tables := cut_off_step (to_int (fre * ((s.m_buf_size / 2 : ℕ) : ℚ) + 1)) n
    s.m_low_freq_cut s.m_high_freq_cut
  let weight : ℕ → ℚ :=
    if n < cfg.detail then
      let smooth_index : ℤ := UTIL_CLAMP 0 ⌊(n : ℚ) * s.m_eq_dist⌋ 64
      Function.update s.m_freq_weight n
        (E.pow fc (85 / 100) * ((cfg.bar_height : ℚ) / 2 ^ 28)
          * smoothing_values.getD smooth_index.toNat 0)
    else s.m_freq_weight
  { s with m_low_freq_cut := tables.1, m_high_freq_cut := tables.2, m_freq_weight := weight }

/-- The function `audio_processor::update`: every buffer is released and allocated anew, zeroed
(`bzalloc`), and the cut-off tables and weights are computed. -/
def update (E : Collab) (cfg : source.config) (s : audio_processor) : audio_processor :=
  let m_buf_size := cfg.buffer_size * cfg.buffer_size
  let s0 : audio_processor :=
    { s with
      m_buf_size := m_buf_size
      m_samples := 2 * (m_buf_size / 2 + 1)
      m_channels := if cfg.stereo then 2 else 1
      m_eq_dist := 64 / (cfg.detail : ℚ)
      m_sleep_counter := 0
      m_fall_off := fun _ => 0
      m_last_freqs := fun _ => 0
      m_last_freqsd := fun _ => 0
      m_freq_mem := fun _ => 0
      m_freq_both := fun _ => 0
      m_low_freq_cut := fun _ => 0
      m_high_freq_cut := fun _ => 0
      m_freq_l := fun _ => 0
      m_freq_r := fun _ => 0
      m_freq_peak := fun _ => 0
      m_freq_weight := fun _ => 0
      m_fftw_in_l := fun _ => 0
      m_fftw_in_r := fun _ => 0
      m_fftw_out_l := fun _ => (0, 0)
      m_fftw_out_r := fun _ => (0, 0)
      m_current_gravity :=
        cfg.gravity * ((cfg.bar_height : ℚ) / 2160) * E.pow (60 / (cfg.fps : ℚ)) (5 / 2) }
  let frequency_constant : ℚ :=
    E.log10 (cfg.freq_cutoff_low / cfg.freq_cutoff_high) / (1 / ((cfg.detail : ℚ) + 1) - 1)
  for_loop (cfg.detail + 1) (update_band E cfg frequency_constant) s0

/-- The library call `memcpy(dst + offset, src, count * sizeof(int))` on `int` buffers. -/
def memcpy (dst : ℕ → ℤ) (offset : ℕ) (src : ℕ → ℤ) (count : ℕ) : ℕ → ℤ :=
  fun k => if offset ≤ k ∧ k < offset + count then src (k - offset) else dst k

/-- One iteration of the sample loop of `audio_processor::tick` (lines 162–175); the second
component is the local `silence`. -/
def tick_sample (E : Collab) (i : ℕ) (p : audio_processor × Bool) : audio_processor × Bool :=
  let s := p.1
  let silence := p.2
  if i < s.m_buf_size ∧ i < E.AUDIO_SIZE then
    let in_l := Function.update s.m_fftw_in_l i (s.m_audio_out_l i)
    let in_r :=
      if s.m_channels > 1 then Function.update s.m_fftw_in_r i (s.m_audio_out_r i)
      else s.m_fftw_in_r
    let silence := if silence = true ∧ (in_l i > 0 ∨ in_r i > 0) then false else silence
    ({ s with m_fftw_in_l := in_l, m_fftw_in_r := in_r }, silence)
  else
    let in_l := Function.update s.m_fftw_in_l i 0
    let in_r := if s.m_channels > 1 then Function.update s.m_fftw_in_r i 0 else s.m_fftw_in_r
    ({ s with m_fftw_in_l := in_l, m_fftw_in_r := in_r }, silence)

/-- The sample loop of `audio_processor::tick` (lines 161–175), started with `silence = true`. -/
def tick_samples (E : Collab) (s : audio_processor) : audio_processor × Bool :=
  for_loop s.m_samples (tick_sample E) (s, true)

/-- The sum `peak` that `separate_freq_bands` accumulates for one band (lines 275–283): the
magnitudes `hypot(out[i][0], out[i][1])` for `i = 0, …, m_samples - 1`. -/
def band_sum (E : Collab) (m_samples : ℕ) (out : ℕ → ℚ × ℚ) : ℚ :=
  for_loop m_samples (fun i peak => peak + E.hypot (out i).1 (out i).2) 0

/-- The value `tmp` of `separate_freq_bands` for band `o` before the comparison with
`cfg->ignore` (lines 275–286). -/
def band_value (E : Collab) (cfg : source.config) (left_channel : Bool) (o : ℕ)
    (s : audio_processor) : ℚ :=
  let peak : ℚ := band_sum E s.m_samples (if left_channel then s.m_fftw_out_l else s.m_fftw_out_r)
  let peak : ℚ := peak / ((s.m_high_freq_cut o - s.m_low_freq_cut o + 1 : ℤ) : ℚ)
  peak / cfg.sens * s.m_freq_weight o

/-- One iteration of the band loop of `audio_processor::separate_freq_bands` (lines 274–295). -/
def separate_freq_band (E : Collab) (cfg : source.config) (left_channel : Bool) (o : ℕ)
    (s : audio_processor) : audio_processor :=
  let tmp : ℚ := band_value E cfg left_channel o s
  let tmp : ℚ := if tmp ≤ cfg.ignore then 0 else tmp
  if left_channel then { s with m_freq_l := Function.update s.m_freq_l o (to_int tmp) }
  else { s with m_freq_r := Function.update s.m_freq_r o (to_int tmp) }

/-- The buffer `separate_freq_bands` stores into: `m_freq_l` for the left channel, `m_freq_r`
for the right one. -/
def band_store (left_channel : Bool) (s : audio_processor) : ℕ → ℤ :=
  if left_channel then s.m_freq_l else s.m_freq_r

/-- The function `audio_processor::separate_freq_bands`. -/
def separate_freq_bands (E : Collab) (cfg : source.config) (detail : ℕ) (left_channel : Bool)
    (s : audio_processor) : audio_processor :=
  for_loop detail (separate_freq_band E cfg left_channel) s

/-- The function `audio_processor::apply_monstercat_filter`. -/
def apply_monstercat_filter (cfg : source.config) (t : ℕ → ℤ) : ℕ → ℤ :=
  for_loop cfg.detail (fun z t =>
    let t := for_down z (fun m_y t =>
      let de := z - m_y
      Function.update t m_y (to_int (UTIL_MAX ((t z : ℚ) / cfg.mcat_strength ^ de) (t m_y)))) t
    for_loop (cfg.detail - (z + 1)) (fun k t =>
      let m_y := z + 1 + k
      let de := m_y - z
      Function.update t m_y (to_int (UTIL_MAX ((t z : ℚ) / cfg.mcat_strength ^ de) (t m_y)))) t) t

/-- The function `audio_processor::apply_wave_filter`. -/
def apply_wave_filter (cfg : source.config) (t : ℕ → ℤ) : ℕ → ℤ :=
  for_loop cfg.detail (fun z t =>
    let t := for_down z (fun m_y t =>
      let de := z - m_y
      Function.update t m_y (to_int (UTIL_MAX ((t z : ℚ) - 2 ^ de) (t m_y)))) t
    for_loop (cfg.detail - (z + 1)) (fun k t =>
      let m_y := z + 1 + k
      let de := m_y - z
      Function.update t m_y (to_int (UTIL_MAX ((t z : ℚ) - 2 ^ de) (t m_y)))) t) t

/-- Lines 188–196 of `audio_processor::tick`: the transforms and the band extraction. -/
def tick_extract (E : Collab) (cfg : source.config) (s : audio_processor) : audio_processor :=
  if s.m_channels > 1 then
    let s := { s with m_fftw_out_l := E.fftw_execute s.m_buf_size s.m_fftw_in_l s.m_fftw_out_l }
    let s := { s with m_fftw_out_r := E.fftw_execute s.m_buf_size s.m_fftw_in_r s.m_fftw_out_r }
    separate_freq_bands E cfg cfg.detail false (separate_freq_bands E cfg cfg.detail true s)
  else
    let s := { s with m_fftw_out_l := E.fftw_execute s.m_buf_size s.m_fftw_in_l s.m_fftw_out_l }
    separate_freq_bands E cfg cfg.detail true s

/-- Lines 212–227 of `audio_processor::tick`: the additional filtering. -/
def tick_filter (cfg : source.config) (s : audio_processor) : audio_processor :=
  match cfg.filter_mode with
  | source.filter_kind.FILTER_MCAT =>
    if s.m_channels > 1 then
      { s with m_freq_l := apply_monstercat_filter cfg s.m_freq_l
               m_freq_r := apply_monstercat_filter cfg s.m_freq_r }
    else { s with m_freq_l := apply_monstercat_filter cfg s.m_freq_l }
  | source.filter_kind.FILTER_WAVES =>
    if s.m_channels > 1 then
      { s with m_freq_l := apply_wave_filter cfg s.m_freq_l
               m_freq_r := apply_wave_filter cfg s.m_freq_r }
    else { s with m_freq_l := apply_wave_filter cfg s.m_freq_l }
  | source.filter_kind.FILTER_NONE => s

/-- Lines 229–232 of `audio_processor::tick`: "Copy frequencies over". -/
def tick_copy (cfg : source.config) (s : audio_processor) : audio_processor :=
  let both := memcpy s.m_freq_both 0 s.m_freq_l cfg.detail
  let both := if s.m_channels > 1 then memcpy both (cfg.detail / 2) s.m_freq_r cfg.detail else both
  { s with m_freq_both := both }

/-- Lines 237–248 of `audio_processor::tick`: the falloff step for index `o`. -/
def tick_falloff (o : ℕ) (s : audio_processor) : audio_processor :=
  if s.m_current_gravity > 0 then
    let s :=
      if s.m_freq_both o < s.m_last_freqs o then
        let both := Function.update s.m_freq_both o
          (to_int (s.m_freq_peak o - s.m_current_gravity * s.m_fall_off o * s.m_fall_off o))
        { s with m_freq_both := both
                 m_fall_off := Function.update s.m_fall_off o (s.m_fall_off o + 1) }
      else
        { s with m_freq_peak := Function.update s.m_freq_peak o (s.m_freq_both o)
                 m_fall_off := Function.update s.m_fall_off o 0 }
    { s with m_last_freqs := Function.update s.m_last_freqs o (s.m_freq_both o) }
  else s

/-- Lines 250–260 of `audio_processor::tick`: the integral step for index `o`. -/
def tick_integral (cfg : source.config) (o : ℕ) (s : audio_processor) : audio_processor :=
  if cfg.integral > 0 then
    let both := Function.update s.m_freq_both o
      (to_int ((s.m_freq_mem o : ℚ) * cfg.integral + s.m_freq_both o))
    let mem := Function.update s.m_freq_mem o (both o)
    let diff : ℤ := ((cfg.bar_height : ℤ) + 1) - both o
    let diff : ℤ := if diff < 0 then 0 else diff
    let diff_d : ℚ := 1 / ((diff : ℚ) + 1)
    let mem := Function.update mem o (to_int ((mem o : ℚ) * (1 - diff_d / 20)))
    { s with m_freq_both := both, m_freq_mem := mem }
  else s

/-- Lines 262–264 of `audio_processor::tick`: "Remove zero values, to prevent dividing by
zero". -/
def tick_clamp (o : ℕ) (s : audio_processor) : audio_processor :=
  if s.m_freq_both o < 1 then { s with m_freq_both := Function.update s.m_freq_both o 1 } else s

/-- One iteration of the processing loop of `audio_processor::tick` (lines 235–267). -/
def tick_band (cfg : source.config) (o : ℕ) (s : audio_processor) : audio_processor :=
  tick_clamp o (tick_integral cfg o (tick_falloff o s))

/-- Lines 156–180 of `audio_processor::tick`: the copy of the current values into
`m_last_freqsd`, the sample loop and the update of the silence counter. -/
def tick_count (E : Collab) (seconds : ℚ) (cfg : source.config) (s : audio_processor) :
    audio_processor :=
  let s := { s with m_last_freqsd := memcpy s.m_last_freqsd 0 s.m_freq_both (cfg.detail * 2) }
  let p := tick_samples E s
  let s := p.1
  let silence := p.2
  { s with m_sleep_counter := if silence then s.m_sleep_counter + seconds else 0 }

/-- The processing loop of `audio_processor::tick` (lines 235–267). -/
def tick_bands (cfg : source.config) (s : audio_processor) : audio_processor :=
  for_loop (cfg.detail * (if s.m_channels > 1 then 2 else 1)) (tick_band cfg) s

/-- The function `audio_processor::tick` (release build: the `#ifdef DEBUG` block that clears
`log_flag` is absent). -/
def tick (E : Collab) (seconds : ℚ) (cfg : source.config) (s : audio_processor) :
    audio_processor :=
  let s := tick_count E seconds cfg s
  if s.m_sleep_counter < 5 then
    let s := { s with m_can_draw := true, log_flag := true }
    let s := tick_extract E cfg s
    let s := tick_filter cfg s
    let s := tick_copy cfg s
    tick_bands cfg s
  else
    { s with m_can_draw := false }

/-- Modelled from the spec: the constants of namespace `constants` that the auto-scale code
reads, whose declarations are not among the sources: the time span of the window, the size of the
reset window as a multiple of the target size, the multiple of the standard deviation that
triggers a reset, and the fraction of the window erased on a reset. -/
structure constants where
  auto_scale_span : ℚ
  auto_scaling_reset_window : ℚ
  deviation_amount_to_reset : ℚ
  auto_scaling_erase_percent : ℚ

/-- The values of `m_smoothing`. -/
inductive smooting_mode where
  | SM_NONE
  | SM_MONSTERCAT
  | SM_SGS
  deriving DecidableEq

/-- The data members of `audio::spectrum_visualizer` that the smoothing and scaling functions
read or write.  `sample_rate` and `sample_size` are the values of `m_source->sample_rate()` and
`m_source->sample_size()`. -/
structure spectrum_visualizer where
  m_smoothing : smooting_mode
  m_sgs_passes : ℤ
  m_sgs_points : ℕ
  m_mcat_smoothing_factor : ℚ
  m_monstercat_smoothing_weights : List ℚ
  m_bar_min_height : ℚ
  m_falloff_weight : ℚ
  m_auto_scale : Bool
  m_scale_size : ℚ
  m_previous_max_heights : List ℚ
  sample_rate : ℕ
  sample_size : ℕ

/-- The call `std::vector<double>::resize(n)`: truncation, or padding with zeros. -/
def resize (v : List ℚ) (n : ℕ) : List ℚ :=
  v.take n ++ List.replicate (n - v.length) 0

/-- Lines 322–329 of `monstercat_smoothing`: the weight cache after the size check. -/
def monstercat_weights (sv : spectrum_visualizer) (bars : List ℚ) : List ℚ :=
  if sv.m_monstercat_smoothing_weights.length ≠ bars.length then
    for_loop bars.length (fun i w => w.set i (sv.m_mcat_smoothing_factor ^ i))
      (resize sv.m_monstercat_smoothing_weights bars.length)
  else sv.m_monstercat_smoothing_weights

/-- One iteration of the inner loop of `monstercat_smoothing` (lines 340–354): band `i` bleeds
onto band `j`. -/
def monstercat_inner (weights : List ℚ) (i j : ℕ) (bars : List ℚ) : List ℚ :=
  if i ≠ j then
    let weighted_value := bars.getD i 0 / weights.getD ((i : ℤ) - (j : ℤ)).natAbs 0
    if bars.getD j 0 < weighted_value then bars.set j weighted_value else bars
  else bars

/-- One iteration of the outer loop of `monstercat_smoothing` (lines 334–356), for the outer
index `i`. -/
def monstercat_outer (weights : List ℚ) (m_bar_min_height : ℚ) (bars_length : ℕ) (i : ℕ)
    (bars : List ℚ) : List ℚ :=
  if bars.getD i 0 < m_bar_min_height then bars.set i m_bar_min_height
  else for_loop bars_length (monstercat_inner weights i) bars

/-- The function `spectrum_visualizer::monstercat_smoothing`: the smoothed bars and the object
with its weight cache.  The outer loop runs for `i = 1, …, bars_length - 1`. -/
def monstercat_smoothing (sv : spectrum_visualizer) (bars : List ℚ) :
    List ℚ × spectrum_visualizer :=
  let bars_length := bars.length
  let weights := monstercat_weights sv bars
  (for_loop (bars_length - 1)
      (fun k => monstercat_outer weights sv.m_bar_min_height bars_length (k + 1)) bars,
   { sv with m_monstercat_smoothing_weights := weights })

/-- Subtraction of `std::size_t` values: modulo `2^64`. -/
def size_sub (a b : ℕ) : ℕ := (a + 2 ^ 64 - b % 2 ^ 64) % 2 ^ 64

/-- The store `v[i] = x` into a `std::vector`: `none` when `i` is not an index of `v` (the
access is then outside the array, which the language leaves undefined). -/
def vec_write (v : List ℚ) (i : ℕ) (x : ℚ) : Option (List ℚ) :=
  if i < v.length then some (v.set i x) else none

/-- One iteration of the edge loop of `sgs_smoothing` (lines 297–300); `none` once an access was
outside the array.  The read `v[i]` of a `std::vector` is `v[i]?`. -/
def sgs_edge (original_bars : List ℚ) (i : ℕ) (bars : Option (List ℚ)) : Option (List ℚ) :=
  bars.bind fun bars =>
  (original_bars[i]?).bind fun x =>
  (vec_write bars i x).bind fun bars =>
  (original_bars[size_sub (size_sub original_bars.length i) 1]?).bind fun y =>
  vec_write bars (size_sub (size_sub original_bars.length i) 1) y

/-- The local `sum` of `sgs_smoothing` for the interior band `i` (lines 304–307); `none` if a
read was outside the array. -/
def sgs_sum (pivot : ℕ) (smoothing_constant : ℚ) (original_bars : List ℚ) (i : ℕ) : Option ℚ :=
  for_loop (2 * pivot + 1)
    (fun j sum => sum.bind fun sum =>
      (original_bars[i + j - pivot]?).map fun x =>
        sum + ((smoothing_constant * x + (j : ℚ)) - (pivot : ℚ)))
    (some 0)

/-- One pass of `sgs_smoothing` (lines 295–309): the edge loop, then the interior loop, which
runs for `i = pivot, …` while `i < original_bars.size() - pivot` in `std::size_t` arithmetic. -/
def sgs_pass (pivot : ℕ) (original_bars bars : List ℚ) : Option (List ℚ) :=
  (for_loop pivot (sgs_edge original_bars) (some bars)).bind fun bars =>
  let smoothing_constant : ℚ := 1 / (2 * (pivot : ℚ) + 1)
  for_loop (size_sub original_bars.length pivot - pivot)
    (fun k bars => bars.bind fun bars =>
      (sgs_sum pivot smoothing_constant original_bars (pivot + k)).bind fun sum =>
        vec_write bars (pivot + k) sum)
    (some bars)

/-- The function `spectrum_visualizer::sgs_smoothing`: the bars it leaves, or `none` if it
accessed a vector outside its bounds.  The loop state is `(original_bars, *bars)`. -/
def sgs_smoothing (sv : spectrum_visualizer) (bars : List ℚ) : Option (List ℚ) :=
  let pivot : ℕ := sv.m_sgs_points / 2
  (for_loop sv.m_sgs_passes.toNat
    (fun pass st => st.bind fun (st : List ℚ × List ℚ) =>
      (sgs_pass pivot st.1 st.2).map fun bars =>
        (if (pass : ℤ) < sv.m_sgs_passes - 1 then bars else st.1, bars))
    (some (bars, bars))).map Prod.snd

/-- The function `spectrum_visualizer::calculate_moving_average_and_std_dev`: the window, the
moving average and the standard deviation it leaves. -/
def calculate_moving_average_and_std_dev (E : Collab) (new_value : ℚ)
    (max_number_of_elements : ℕ) (old_values : List ℚ) : List ℚ × ℚ × ℚ :=
  let old_values :=
    if old_values.length > max_number_of_elements then old_values.tail else old_values
  let old_values := old_values ++ [new_value]
  let sum : ℚ := old_values.sum
  let moving_average : ℚ := sum / (old_values.length : ℚ)
  let squared_summation : ℚ := (List.zipWith (· * ·) old_values old_values).sum
  let std_dev : ℚ := E.sqrt (squared_summation / (old_values.length : ℚ) - moving_average ^ 2)
  (old_values, moving_average, std_dev)

/-- The function `spectrum_visualizer::maybe_reset_scaling_window`: the window, the moving
average and the standard deviation it leaves. -/
def maybe_reset_scaling_window (E : Collab) (C : constants) (current_max_height : ℚ)
    (max_number_of_elements : ℕ) (values : List ℚ) (moving_average std_dev : ℚ) :
    List ℚ × ℚ × ℚ :=
  let reset_window_size : ℚ := C.auto_scaling_reset_window * (max_number_of_elements : ℚ)
  if (values.length : ℚ) > reset_window_size then
    let average_over_reset_window : ℚ :=
      (values.take (to_int reset_window_size).toNat).sum / reset_window_size
    if |average_over_reset_window - moving_average| > C.deviation_amount_to_reset * std_dev then
      let values :=
        values.drop (to_int ((values.length : ℚ) * C.auto_scaling_erase_percent)).toNat
      calculate_moving_average_and_std_dev E current_max_height max_number_of_elements values
    else (values, moving_average, std_dev)
  else (values, moving_average, std_dev)

/-- The value `*std::max_element(bars->begin(), bars->end())` of a non-empty vector. -/
def max_element (bars : List ℚ) : ℚ :=
  bars.foldl max (bars.headD 0)

/-- Lines 397–410 of `scale_bars`: the window, the moving average and the standard deviation
after the two statistics calls of the auto-scale branch. -/
def auto_scale_statistics (E : Collab) (C : constants) (sv : spectrum_visualizer)
    (bars : List ℚ) : List ℚ × ℚ × ℚ :=
  let max_height := max_element bars
  let max_number_of_elements : ℕ :=
    (to_int (((C.auto_scale_span * (sv.sample_rate : ℚ)) / (sv.sample_size : ℚ)) * 2)).toNat
  let r := calculate_moving_average_and_std_dev E max_height max_number_of_elements
    sv.m_previous_max_heights
  maybe_reset_scaling_window E C max_height max_number_of_elements r.1 r.2.1 r.2.2

/-- Lines 412–416 of `scale_bars`: the local `max_height` the bars are divided by. -/
def scale_ceiling (E : Collab) (C : constants) (sv : spectrum_visualizer) (bars : List ℚ) : ℚ :=
  let r := auto_scale_statistics E C sv bars
  max (r.2.1 + 2 * r.2.2) 1

/-- The function `spectrum_visualizer::scale_bars`: the scaled bars and the object with its
window of previous maximum heights. -/
def scale_bars (E : Collab) (C : constants) (sv : spectrum_visualizer) (height : ℤ)
    (bars : List ℚ) : List ℚ × spectrum_visualizer :=
  if bars.isEmpty then (bars, sv)
  else if sv.m_auto_scale then
    let max_height := scale_ceiling E C sv bars
    (bars.map (fun bar => min ((height - 1 : ℤ) : ℚ) ((bar / max_height) * (height : ℚ) - 1)),
     { sv with m_previous_max_heights := (auto_scale_statistics E C sv bars).1 })
  else
    (bars.map (fun bar => bar * sv.m_scale_size), sv)

/-- The state of a non-sleeping `audio_processor::tick` when it reaches the processing loop
(line 235): the values of `m_freq_both` in it are the post-smoothing, pre-falloff values of the
tick. -/
def tick_smoothed (E : Collab) (seconds : ℚ) (cfg : source.config) (s : audio_processor) :
    audio_processor :=
  tick_copy cfg (tick_filter cfg (tick_extract E cfg
    { tick_count E seconds cfg s with m_can_draw := true, log_flag := true }))

/-- The function `audio_processor::get_last_freqs`. -/
def get_last_freqs (s : audio_processor) : ℕ → ℤ := s.m_last_freqsd

/-- The function `audio_processor::get_freqs`. -/
def get_freqs (s : audio_processor) : ℕ → ℤ := s.m_freq_both

/-- The local `diff` of the integral step (lines 255–257) for the band value `value`. -/
def integral_diff (cfg : source.config) (value : ℤ) : ℤ :=
  let diff : ℤ := ((cfg.bar_height : ℤ) + 1) - value
  if diff < 0 then 0 else diff

/-- The factor `1 - diff_d / 20` with `diff_d = 1. / (diff + 1)` by which line 259 multiplies
`m_freq_mem[o]`. -/
def integral_retention (diff : ℤ) : ℚ :=
  let diff_d : ℚ := 1 / ((diff : ℚ) + 1)
  1 - diff_d / 20

/-- The states an `audio_processor` can be in: after `update` (which the constructor calls), and
from then on after a tick or after the capture collaborator has delivered a block. -/
inductive reachable (E : Collab) : audio_processor → Prop where
  | after_update (cfg : source.config) (s : audio_processor) : reachable E (update E cfg s)
  | after_tick (seconds : ℚ) (cfg : source.config) (s : audio_processor) :
      reachable E s → reachable E (tick E seconds cfg s)
  | after_block (left right : ℕ → ℚ) (s : audio_processor) :
      reachable E s → reachable E { s with m_audio_out_l := left, m_audio_out_r := right }

/-! ### Reference definitions and concrete inputs used by the theorems -/

/-- The band sum as the specification words it: the magnitudes of exactly the spectrum bins `i`
with `low_bin ≤ i ≤ high_bin` (the loop `for (i = low; i <= high; i++)`). -/
def band_sum_spec (E : Collab) (low_bin high_bin : ℤ) (out : ℕ → ℚ × ℚ) : ℚ :=
  ((List.range (high_bin + 1 - low_bin).toNat).map
    (fun k => E.hypot (out (low_bin.toNat + k)).1 (out (low_bin.toNat + k)).2)).sum

/-- The raw band value as the specification words it: the band sum over `[low_bin, high_bin]`,
divided by `high_bin - low_bin + 1`, multiplied by the weight and divided by the sensitivity. -/
def band_value_spec (E : Collab) (cfg : source.config) (left_channel : Bool) (o : ℕ)
    (s : audio_processor) : ℚ :=
  band_sum_spec E (s.m_low_freq_cut o) (s.m_high_freq_cut o)
      (if left_channel then s.m_fftw_out_l else s.m_fftw_out_r)
    / ((s.m_high_freq_cut o - s.m_low_freq_cut o + 1 : ℤ) : ℚ) * s.m_freq_weight o / cfg.sens

/-- The combined band array as the specification words it for stereo: the left channel at
`[0, detail)` followed by the right channel at `[detail, 2 * detail)`. -/
def combined_spec (detail : ℕ) (left right : ℕ → ℤ) (old : ℕ → ℤ) : ℕ → ℤ :=
  fun k => if k < detail then left k else if k < 2 * detail then right (k - detail) else old k

/-- The capture collaborator delivers a block: it fills the two capture buffers. -/
def feed (left right : ℕ → ℚ) (s : audio_processor) : audio_processor :=
  { s with m_audio_out_l := left, m_audio_out_r := right }

/-- A run of ticks, one per listed duration, each on a freshly delivered all-zero block. -/
def run_zero_blocks (E : Collab) (cfg : source.config) :
    List ℚ → audio_processor → audio_processor
  | [], s => s
  | seconds :: rest, s =>
    run_zero_blocks E cfg rest (tick E seconds cfg (feed (fun _ => 0) (fun _ => 0) s))

/-- The state `s` with other contents in the decay counters, the remembered peaks, the stored
last values and the integral memory. -/
def with_memory (s : audio_processor) (fall : ℕ → ℤ) (peak : ℕ → ℚ) (last mem : ℕ → ℤ) :
    audio_processor :=
  { s with m_fall_off := fall, m_freq_peak := peak, m_last_freqs := last, m_freq_mem := mem }

/-- The one-shot reference for monstercat smoothing as the specification words it: the value
at index `j` is the maximum of `input[j]` and of the contributions `input[i] / s^|i-j|` of the
bands `i` in `1 … n-1` other than `j` (band 0 is never a source). -/
def monstercat_reference (s : ℚ) (input : List ℚ) (j : ℕ) : ℚ :=
  (List.range input.length).foldl
    (fun acc i =>
      if 1 ≤ i ∧ i ≠ j then max acc (input.getD i 0 / s ^ ((i : ℤ) - (j : ℤ)).natAbs) else acc)
    (input.getD j 0)

/-- Consecutive calls of `scale_bars`, one per listed bar array: the object after the last
call. -/
def scale_run (E : Collab) (C : constants) (height : ℤ) :
    List (List ℚ) → spectrum_visualizer → spectrum_visualizer
  | [], sv => sv
  | bars :: rest, sv => scale_run E C height rest (scale_bars E C sv height bars).2

/-- The arithmetic mean of a window, as the specification words it: the sum of the entries
divided by their number. -/
def arithmetic_mean (w : List ℚ) : ℚ := w.sum / (w.length : ℚ)

/-- The population variance of a window, as the specification words it: the mean of the squared
deviations from the arithmetic mean. -/
def population_variance (w : List ℚ) : ℚ :=
  (w.map fun x => (x - arithmetic_mean w) ^ 2).sum / (w.length : ℚ)

/-- The target size of the auto-scale window computed in `scale_bars` (lines 400–402). -/
def auto_scale_target (C : constants) (sv : spectrum_visualizer) : ℕ :=
  (to_int (((C.auto_scale_span * (sv.sample_rate : ℚ)) / (sv.sample_size : ℚ)) * 2)).toNat

/-- The number of entries `maybe_reset_scaling_window` erases on a reset (lines 443–445): the
`int64_t` value of `values->size() * auto_scaling_erase_percent`. -/
def erase_count (C : constants) (values : List ℚ) : ℕ :=
  (to_int ((values.length : ℚ) * C.auto_scaling_erase_percent)).toNat

/-- The interior value of one smoothing pass as the specification words it: the sum over
`j = 0 … 2 * pivot` of `in[i + j - pivot] / (2 * pivot + 1) + (j - pivot)`. -/
def sgs_interior_spec (pivot : ℕ) (input : List ℚ) (i : ℕ) : ℚ :=
  ((List.range (2 * pivot + 1)).map fun j =>
    input.getD (i + j - pivot) 0 / (2 * (pivot : ℚ) + 1) + ((j : ℚ) - (pivot : ℚ))).sum

/-- The arithmetic mean of the `2 * pivot + 1` values centred on band `i`. -/
def window_mean (pivot : ℕ) (input : List ℚ) (i : ℕ) : ℚ :=
  ((List.range (2 * pivot + 1)).map fun j => input.getD (i + j - pivot) 0).sum
    / (2 * (pivot : ℚ) + 1)

/-- The one-pass map `P` as the specification words it: the first and the last `pivot` bands are
kept, every interior band becomes `sgs_interior_spec`. -/
def sgs_pass_spec (pivot : ℕ) (input : List ℚ) : List ℚ :=
  (List.range input.length).map fun i =>
    if i < pivot ∨ input.length - pivot ≤ i then input.getD i 0
    else sgs_interior_spec pivot input i

/-- The expression assigned to `frequency_constant` in `audio_processor::update` (lines 73–74),
over a field of numbers `K` with its own `log10`; over `ℚ` with `Collab.log10` it is the value
`update` passes to its loop. -/
def frequency_constant_in {K : Type} [Field K] (log10 : K → K) (cfg : source.config) : K :=
  log10 ((cfg.freq_cutoff_low : K) / (cfg.freq_cutoff_high : K))
    / (1 / ((cfg.detail : K) + 1) - 1)

/-- The cut-off frequency `fc` of iteration `n` of `audio_processor::update` (lines 78–80), over
a field of numbers `K` with its own `pow`; over `ℚ` with `Collab.pow` it is
`cut_off_frequency`. -/
def cut_off_frequency_in {K : Type} [Field K] (pow : K → K → K) (cfg : source.config)
    (frequency_constant : K) (n : ℕ) : K :=
  let pot : K := frequency_constant * (-1)
  let pot : K := pot + ((n : K) + 1) / ((cfg.detail : K) + 1) * frequency_constant
  (cfg.freq_cutoff_high : K) * pow 10 pot

/-- The numbers of elements of the per-band arrays. -/
structure band_array_sizes where
  m_fall_off : ℕ
  m_last_freqs : ℕ
  m_last_freqsd : ℕ
  m_freq_mem : ℕ
  m_freq_both : ℕ
  m_low_freq_cut : ℕ
  m_high_freq_cut : ℕ
  m_freq_l : ℕ
  m_freq_r : ℕ
  m_freq_peak : ℕ
  m_freq_weight : ℕ

/-- The numbers of elements `audio_processor::update` requests from `bzalloc` for the per-band
arrays (lines 52–64): `detail * sizeof(int) * 2` bytes are `2 * detail` elements,
`detail * sizeof(int)` bytes are `detail` elements. -/
def update_allocation (cfg : source.config) : band_array_sizes where
  m_fall_off := cfg.detail * 2
  m_last_freqs := cfg.detail * 2
  m_last_freqsd := cfg.detail * 2
  m_freq_mem := cfg.detail * 2
  m_freq_both := cfg.detail * 2
  m_low_freq_cut := cfg.detail
  m_high_freq_cut := cfg.detail
  m_freq_l := cfg.detail
  m_freq_r := cfg.detail
  m_freq_peak := cfg.detail
  m_freq_weight := cfg.detail

/-! ### The auto-scale statistics with the rounding of `double`

The definitions below embed `calculate_moving_average_and_std_dev`, `maybe_reset_scaling_window`
and `scale_bars` a second time, with every `double` operation rounded to binary64 and NaN
represented: a `double` that may be NaN is an `Option ℚ`, `none` being NaN. -/

/-- Round `q` to the nearest integer multiple of `2 ^ e`, a tie to the even multiple. -/
def round_to_even (q : ℚ) (e : ℤ) : ℚ :=
  let x : ℚ := q / (2 : ℚ) ^ e
  let n : ℤ := ⌊x⌋
  let m : ℤ :=
    if x - (n : ℚ) < 1 / 2 then n
    else if 1 / 2 < x - (n : ℚ) then n + 1
    else if n % 2 = 0 then n else n + 1
  (m : ℚ) * (2 : ℚ) ^ e

/-- The number of binary digits of `n` (0 for `n = 0`), counted by halving at most `fuel`
times; `fuel = n` is enough. -/
def bit_length (fuel n : ℕ) : ℕ :=
  match fuel with
  | 0 => 0
  | fuel + 1 => if n = 0 then 0 else bit_length fuel (n / 2) + 1

/-- The binary exponent of a nonzero rational number: the integer `e` with
`2 ^ e ≤ |q| < 2 ^ (e + 1)`, found from the bit lengths of the numerator and the denominator. -/
def binary_exponent (q : ℚ) : ℤ :=
  let e : ℤ := (bit_length q.num.natAbs q.num.natAbs : ℤ) - (bit_length q.den q.den : ℤ)
  if (2 : ℚ) ^ e ≤ |q| then e else e - 1

/-- The `double` nearest to a rational number: IEEE 754 binary64 with 53 significant bits,
rounding to nearest, ties to even.  Overflow and subnormal numbers are not represented. -/
def binary64 (q : ℚ) : ℚ :=
  if q = 0 then 0 else round_to_even q (binary_exponent q - 52)

/-- The value `std::accumulate(first, last, 0.0)`: the elements are added from the left, every
sum rounded. -/
def accumulate_binary64 (values : List ℚ) : ℚ :=
  values.foldl (fun acc x => binary64 (acc + x)) 0

/-- The value `std::inner_product(first, last, first, 0.0)`: the rounded squares are added from
the left, every sum rounded. -/
def inner_product_binary64 (values : List ℚ) : ℚ :=
  values.foldl (fun acc x => binary64 (acc + binary64 (x * x))) 0

/-- The function `spectrum_visualizer::calculate_moving_average_and_std_dev` (lines 375–389) in
`double` arithmetic.  `std::pow(x, 2)` is the rounded square; `std::sqrt` of a negative number
is NaN, of another number the rounded value of the collaborator's `sqrt`. -/
def calculate_moving_average_and_std_dev_binary64 (E : Collab) (new_value : ℚ)
    (max_number_of_elements : ℕ) (old_values : List ℚ) : List ℚ × ℚ × Option ℚ :=
  let old_values :=
    if old_values.length > max_number_of_elements then old_values.tail else old_values
  let old_values := old_values ++ [new_value]
  let sum : ℚ := accumulate_binary64 old_values
  let moving_average : ℚ := binary64 (sum / (old_values.length : ℚ))
  let squared_summation : ℚ := inner_product_binary64 old_values
  let radicand : ℚ :=
    binary64 (binary64 (squared_summation / (old_values.length : ℚ))
      - binary64 (moving_average ^ 2))
  let std_dev : Option ℚ := if radicand < 0 then none else some (binary64 (E.sqrt radicand))
  (old_values, moving_average, std_dev)

/-- The function `spectrum_visualizer::maybe_reset_scaling_window` (lines 427–451) in `double`
arithmetic.  With a NaN standard deviation the comparison of line 441 is false. -/
def maybe_reset_scaling_window_binary64 (E : Collab) (C : constants) (current_max_height : ℚ)
    (max_number_of_elements : ℕ) (values : List ℚ) (moving_average : ℚ)
    (std_dev : Option ℚ) : List ℚ × ℚ × Option ℚ :=
  let reset_window_size : ℚ :=
    binary64 (C.auto_scaling_reset_window * (max_number_of_elements : ℚ))
  if (values.length : ℚ) > reset_window_size then
    let average_over_reset_window : ℚ :=
      binary64 (accumulate_binary64 (values.take (to_int reset_window_size).toNat)
        / reset_window_size)
    match std_dev with
    | none => (values, moving_average, std_dev)
    | some sd =>
      if |binary64 (average_over_reset_window - moving_average)|
          > binary64 (C.deviation_amount_to_reset * sd) then
        let values := values.drop
          (to_int (binary64 ((values.length : ℚ) * C.auto_scaling_erase_percent))).toNat
        calculate_moving_average_and_std_dev_binary64 E current_max_height
          max_number_of_elements values
      else (values, moving_average, std_dev)
  else (values, moving_average, std_dev)

/-- Lines 397–410 of `scale_bars` in `double` arithmetic: the window, the moving average and
the standard deviation after the two statistics calls. -/
def auto_scale_statistics_binary64 (E : Collab) (C : constants) (sv : spectrum_visualizer)
    (bars : List ℚ) : List ℚ × ℚ × Option ℚ :=
  let max_height := max_element bars
  let max_number_of_elements : ℕ :=
    (to_int (binary64 (binary64 (binary64 (C.auto_scale_span * (sv.sample_rate : ℚ))
      / (sv.sample_size : ℚ)) * 2))).toNat
  let r := calculate_moving_average_and_std_dev_binary64 E max_height max_number_of_elements
    sv.m_previous_max_heights
  maybe_reset_scaling_window_binary64 E C max_height max_number_of_elements r.1 r.2.1 r.2.2

/-- The function `std::max(a, b)` on `double`: `(a < b) ? b : a`, where a comparison with NaN
is false. -/
def std_max (a b : Option ℚ) : Option ℚ :=
  match a, b with
  | some x, some y => if x < y then some y else some x
  | _, _ => a

/-- The function `std::min(a, b)` on `double`: `(b < a) ? b : a`, where a comparison with NaN
is false. -/
def std_min (a b : Option ℚ) : Option ℚ :=
  match a, b with
  | some x, some y => if y < x then some y else some x
  | _, _ => a

/-- Lines 412–416 of `scale_bars` in `double` arithmetic: the local `max_height` the bars are
divided by; a NaN standard deviation makes the sum NaN. -/
def scale_ceiling_binary64 (E : Collab) (C : constants) (sv : spectrum_visualizer)
    (bars : List ℚ) : Option ℚ :=
  let r := auto_scale_statistics_binary64 E C sv bars
  let max_height : Option ℚ := r.2.2.map fun std_dev => binary64 (r.2.1 + binary64 (2 * std_dev))
  std_max max_height (some 1)

/-- The function `spectrum_visualizer::scale_bars` in `double` arithmetic: the scaled bars and
the object with its window of previous maximum heights. -/
def scale_bars_binary64 (E : Collab) (C : constants) (sv : spectrum_visualizer) (height : ℤ)
    (bars : List ℚ) : List (Option ℚ) × spectrum_visualizer :=
  if bars.isEmpty then (bars.map some, sv)
  else if sv.m_auto_scale then
    let max_height := scale_ceiling_binary64 E C sv bars
    (bars.map (fun bar => std_min (some ((height - 1 : ℤ) : ℚ))
        (max_height.map fun m => binary64 (binary64 (binary64 (bar / m) * (height : ℚ)) - 1))),
     { sv with m_previous_max_heights := (auto_scale_statistics_binary64 E C sv bars).1 })
  else
    (bars.map (fun bar => some (binary64 (bar * sv.m_scale_size))), sv)

/-- Consecutive calls of `scale_bars` in `double` arithmetic, one per listed bar array: the
object after the last call. -/
def scale_run_binary64 (E : Collab) (C : constants) (height : ℤ) :
    List (List ℚ) → spectrum_visualizer → spectrum_visualizer
  | [], sv => sv
  | bars :: rest, sv =>
    scale_run_binary64 E C height rest (scale_bars_binary64 E C sv height bars).2

/-- An exact real-to-complex transform for the sizes whose twiddle factors are rational (1, 2
and 4): bins `0 … n/2` are written, the rest of the output buffer is left as it was.  For other
sizes the output buffer is left unchanged. -/
def small_dft (n : ℕ) (inp : ℕ → ℚ) (out : ℕ → ℚ × ℚ) : ℕ → ℚ × ℚ :=
  fun k =>
    if n = 1 then (if k = 0 then (inp 0, 0) else out k)
    else if n = 2 then
      (if k = 0 then (inp 0 + inp 1, 0) else if k = 1 then (inp 0 - inp 1, 0) else out k)
    else if n = 4 then
      (if k = 0 then (inp 0 + inp 1 + inp 2 + inp 3, 0)
       else if k = 1 then (inp 0 - inp 2, inp 3 - inp 1)
       else if k = 2 then (inp 0 - inp 1 + inp 2 - inp 3, 0)
       else out k)
    else out k

/-- A concrete collaborator on which the definitions can be run: `hypot` and `sqrt` are exact
whenever the exact result is rational and round down otherwise, `pow` uses the integer part of
the exponent, `log10` rounds down to an integer, the transform is `small_dft`. -/
def example_collab : Collab where
  log10 := fun x => if 1 ≤ x then (Nat.log 10 ⌊x⌋₊ : ℚ) else -(Nat.clog 10 ⌈x⁻¹⌉₊ : ℚ)
  pow := fun b e => b ^ ⌊e⌋
  hypot := fun x y => if y = 0 then |x| else if x = 0 then |y| else Rat.sqrt (x * x + y * y)
  sqrt := Rat.sqrt
  fftw_execute := small_dft
  AUDIO_SIZE := 1024

/-- A configuration for the examples: two bands, a 4-sample window, no filter, no gravity, no
integral, unit sensitivity. -/
def example_config (stereo : Bool) : source.config where
  detail := 2
  stereo := stereo
  buffer_size := 2
  sample_rate := 44100
  fps := 60
  bar_height := 100
  gravity := 0
  integral := 0
  sens := 1
  ignore := 0
  freq_cutoff_low := 50
  freq_cutoff_high := 10000
  mcat_strength := 2
  filter_mode := source.filter_kind.FILTER_NONE

/-- A processor state for the examples: window of 4 samples (`m_samples = 6`), bands `[1, 1]`
and `[2, 2]` with weights 1 and 2, every buffer zero, the given capture buffers. -/
def example_state (channels : ℕ) (left right : ℕ → ℚ) : audio_processor where
  m_buf_size := 4
  m_samples := 6
  m_channels := channels
  m_eq_dist := 32
  m_sleep_counter := 0
  m_current_gravity := 0
  m_can_draw := false
  log_flag := false
  m_fall_off := fun _ => 0
  m_last_freqs := fun _ => 0
  m_last_freqsd := fun _ => 0
  m_freq_mem := fun _ => 0
  m_freq_both := fun _ => 0
  m_low_freq_cut := fun k => (k : ℤ) + 1
  m_high_freq_cut := fun k => (k : ℤ) + 1
  m_freq_l := fun _ => 0
  m_freq_r := fun _ => 0
  m_freq_peak := fun _ => 0
  m_freq_weight := fun k => (k : ℚ) + 1
  m_fftw_in_l := fun _ => 0
  m_fftw_in_r := fun _ => 0
  m_fftw_out_l := fun _ => (0, 0)
  m_fftw_out_r := fun _ => (0, 0)
  m_audio_out_l := left
  m_audio_out_r := right

/-- A block whose first sample is `a` and whose other samples are 0. -/
def impulse (a : ℚ) : ℕ → ℚ := fun k => if k = 0 then a else 0

/-- The constants of the examples: a 30 second span, a reset window of a tenth of the target
size, a reset at one standard deviation, three quarters erased on a reset. -/
def example_constants : constants where
  auto_scale_span := 30
  auto_scaling_reset_window := 1 / 10
  deviation_amount_to_reset := 1
  auto_scaling_erase_percent := 3 / 4

/-- A visualizer object for the examples: monstercat factor 2, floor 1, auto-scaling on, an
empty weight cache and an empty window, 44100 Hz and 22050 samples per block. -/
def example_visualizer : spectrum_visualizer where
  m_smoothing := smooting_mode.SM_MONSTERCAT
  m_sgs_passes := 1
  m_sgs_points := 3
  m_mcat_smoothing_factor := 2
  m_monstercat_smoothing_weights := []
  m_bar_min_height := 1
  m_falloff_weight := 9 / 10
  m_auto_scale := true
  m_scale_size := 1
  m_previous_max_heights := []
  sample_rate := 44100
  sample_size := 22050

end audio
/-! ## Loop lemmas -/

theorem for_loop_succ {σ : Type} (k : ℕ) (body : ℕ → σ → σ) (s : σ) :
    for_loop (k + 1) body s = body k (for_loop k body s) := rfl

theorem for_loop_zero {σ : Type} (body : ℕ → σ → σ) (s : σ) : for_loop 0 body s = s := rfl

/-- A property kept by every iteration is kept by the loop. -/
theorem for_loop_invariant {σ : Type} (P : σ → Prop) (body : ℕ → σ → σ)
    (h : ∀ k s, P s → P (body k s)) (n : ℕ) (s : σ) (h0 : P s) : P (for_loop n body s) := by
  induction n with
  | zero => exact h0
  | succ k ih => exact h k _ ih

/-- A property kept by every iteration is kept by the downward loop. -/
theorem for_down_invariant {σ : Type} (P : σ → Prop) (body : ℕ → σ → σ)
    (h : ∀ k s, P s → P (body k s)) (n : ℕ) (s : σ) (h0 : P s) : P (for_down n body s) := by
  induction n generalizing s with
  | zero => exact h0
  | succ k ih => exact ih _ (h k s h0)

/-- Two loops whose iterations keep a relation between their states end in related states. -/
theorem for_loop_rel {σ τ : Type} (R : σ → τ → Prop) (f : ℕ → σ → σ) (g : ℕ → τ → τ)
    (h : ∀ k a b, R a b → R (f k a) (g k b)) (n : ℕ) (a : σ) (b : τ) (h0 : R a b) :
    R (for_loop n f a) (for_loop n g b) := by
  induction n with
  | zero => exact h0
  | succ k ih => exact h k _ _ ih

namespace audio

/-! ## The cut-off tables of `update` -/

theorem cut_off_step_low_of_ne (raw : ℤ) (n : ℕ) (low high : ℕ → ℤ) (j : ℕ) (hj : j ≠ n) :
    (cut_off_step raw n low high).1 j = low j := by
  unfold cut_off_step
  dsimp only
  split_ifs <;> simp [Function.update_noteq hj]

theorem cut_off_step_low_lt (raw : ℤ) (n : ℕ) (low high : ℕ → ℤ) (hn : 0 < n) :
    (cut_off_step raw n low high).1 (n - 1) < (cut_off_step raw n low high).1 n := by
  have hne : n - 1 ≠ n := by omega
  unfold cut_off_step
  by_cases hc : Function.update low n raw n ≤ Function.update low n raw (n - 1)
  · simp only [hn, hc, if_true]
    rw [Function.update_same, Function.update_noteq hne]
    omega
  · simp only [hn, hc, if_true, if_false]
    omega

theorem cut_off_step_high_self (raw : ℤ) (n : ℕ) (low high : ℕ → ℤ) (hn : 0 < n) :
    (cut_off_step raw n low high).2 (n - 1) = (cut_off_step raw n low high).1 n - 1 := by
  unfold cut_off_step
  simp only [hn, if_true, Function.update_same]

theorem cut_off_step_high_of_ne (raw : ℤ) (n : ℕ) (low high : ℕ → ℤ) (j : ℕ)
    (hj : j + 1 ≠ n) : (cut_off_step raw n low high).2 j = high j := by
  unfold cut_off_step
  by_cases hn : 0 < n
  · have hne : j ≠ n - 1 := by omega
    simp only [hn, if_true]
    rw [Function.update_noteq hne, Function.update_noteq hne]
  · simp only [hn, if_false]

/-- After `k` iterations of the loop of `update` the low indices written so far increase
strictly and every high index written so far is one below the next low index. -/
theorem update_loop_tables (E : Collab) (cfg : source.config) (fconst : ℚ)
    (s0 : audio_processor) (k : ℕ) :
    (∀ i, 0 < i → i < k →
      (for_loop k (update_band E cfg fconst) s0).m_low_freq_cut (i - 1)
        < (for_loop k (update_band E cfg fconst) s0).m_low_freq_cut i) ∧
    (∀ i, i + 1 < k →
      (for_loop k (update_band E cfg fconst) s0).m_high_freq_cut i
        = (for_loop k (update_band E cfg fconst) s0).m_low_freq_cut (i + 1) - 1) := by
  induction k with
  | zero => exact ⟨fun i _ h => absurd h (Nat.not_lt_zero i), fun i h => absurd h (Nat.not_lt_zero _)⟩
  | succ k ih =>
    obtain ⟨ih1, ih2⟩ := ih
    rw [for_loop_succ]
    generalize for_loop k (update_band E cfg fconst) s0 = t at ih1 ih2
    constructor
    · intro i h0 hi
      show (cut_off_step _ k t.m_low_freq_cut t.m_high_freq_cut).1 (i - 1)
        < (cut_off_step _ k t.m_low_freq_cut t.m_high_freq_cut).1 i
      by_cases hik : i = k
      · subst hik
        exact cut_off_step_low_lt _ _ _ _ h0
      · rw [cut_off_step_low_of_ne _ _ _ _ _ hik,
          cut_off_step_low_of_ne _ _ _ _ _ (by omega : i - 1 ≠ k)]
        exact ih1 i h0 (by omega)
    · intro i hi
      show (cut_off_step _ k t.m_low_freq_cut t.m_high_freq_cut).2 i
        = (cut_off_step _ k t.m_low_freq_cut t.m_high_freq_cut).1 (i + 1) - 1
      by_cases hik : i + 1 = k
      · subst hik
        exact cut_off_step_high_self _ _ _ _ (Nat.succ_pos i)
      · rw [cut_off_step_high_of_ne _ _ _ _ _ hik, cut_off_step_low_of_ne _ _ _ _ _ hik]
        exact ih2 i (by omega)

/-- C1. For every configuration with `detail > 0` (implied by `0 < i ≤ detail`), the band table
built by `audio_processor::update` has strictly increasing low bin indices:
`low_bin[i] > low_bin[i-1]` for every `i` with `0 < i ≤ detail`, whatever the library routines
(and so the logarithmic formula) returned and whatever the state before the call. -/
theorem update_low_bins_strictly_increasing (E : Collab) (cfg : source.config)
    (s : audio_processor) (i : ℕ) (h0 : 0 < i) (hi : i ≤ cfg.detail) :
    (update E cfg s).m_low_freq_cut i > (update E cfg s).m_low_freq_cut (i - 1) :=
  (update_loop_tables E cfg _ _ (cfg.detail + 1)).1 i h0 (Nat.lt_succ_of_le hi)

/-- Witness for C1: the example configuration (two bands), band index 1. -/
theorem update_low_bins_strictly_increasing_witness :
    (0 < 1 ∧ 1 ≤ (example_config false).detail) ∧
    (update example_collab (example_config false)
        (example_state 1 (impulse 0) (impulse 0))).m_low_freq_cut 1
      > (update example_collab (example_config false)
          (example_state 1 (impulse 0) (impulse 0))).m_low_freq_cut (1 - 1) :=
  ⟨by decide, update_low_bins_strictly_increasing example_collab (example_config false)
    (example_state 1 (impulse 0) (impulse 0)) 1 (by decide) (by decide)⟩

/-- C2. For every configuration with `detail > 0` and every band `i < detail`, after
`audio_processor::update` the table satisfies `high_bin[i] = low_bin[i+1] - 1 ≥ low_bin[i]`, so
the averaging divisor `high_bin[i] - low_bin[i] + 1` that `separate_freq_bands` divides by is at
least 1, and as a floating value it is not zero. -/
theorem update_averaging_divisor_positive (E : Collab) (cfg : source.config)
    (s : audio_processor) (i : ℕ) (hi : i < cfg.detail) :
    (update E cfg s).m_high_freq_cut i = (update E cfg s).m_low_freq_cut (i + 1) - 1 ∧
    (update E cfg s).m_high_freq_cut i ≥ (update E cfg s).m_low_freq_cut i ∧
    (update E cfg s).m_high_freq_cut i - (update E cfg s).m_low_freq_cut i + 1 ≥ 1 ∧
    (((update E cfg s).m_high_freq_cut i - (update E cfg s).m_low_freq_cut i + 1 : ℤ) : ℚ)
      ≠ 0 := by
  have h1 : (update E cfg s).m_high_freq_cut i = (update E cfg s).m_low_freq_cut (i + 1) - 1 :=
    (update_loop_tables E cfg _ _ (cfg.detail + 1)).2 i (Nat.succ_lt_succ hi)
  have h2 : (update E cfg s).m_low_freq_cut (i + 1 - 1) < (update E cfg s).m_low_freq_cut (i + 1) :=
    (update_loop_tables E cfg _ _ (cfg.detail + 1)).1 (i + 1) (Nat.succ_pos i)
      (Nat.succ_lt_succ hi)
  rw [Nat.add_sub_cancel] at h2
  refine ⟨h1, by omega, by omega, ?_⟩
  have h3 : (0 : ℤ)
      < (update E cfg s).m_high_freq_cut i - (update E cfg s).m_low_freq_cut i + 1 := by
    omega
  exact_mod_cast h3.ne'

/-- Witness for C2: the example configuration (two bands), band 0. -/
theorem update_averaging_divisor_positive_witness :
    0 < (example_config false).detail ∧
    (update example_collab (example_config false)
        (example_state 1 (impulse 0) (impulse 0))).m_high_freq_cut 0
      ≥ (update example_collab (example_config false)
          (example_state 1 (impulse 0) (impulse 0))).m_low_freq_cut 0 :=
  ⟨by decide, (update_averaging_divisor_positive example_collab (example_config false)
    (example_state 1 (impulse 0) (impulse 0)) 0 (by decide)).2.1⟩

end audio

namespace audio

/-! ## Band extraction -/

/-- The band loop of `separate_freq_bands` writes `m_freq_l` and `m_freq_r` only. -/
theorem separate_freq_bands_shape (E : Collab) (cfg : source.config) (detail : ℕ)
    (left_channel : Bool) (s : audio_processor) :
    ∃ fl fr, separate_freq_bands E cfg detail left_channel s
      = { s with m_freq_l := fl, m_freq_r := fr } := by
  unfold separate_freq_bands
  refine for_loop_invariant (fun t => ∃ fl fr, t = { s with m_freq_l := fl, m_freq_r := fr })
    _ ?_ detail s ⟨s.m_freq_l, s.m_freq_r, rfl⟩
  rintro k t ⟨fl, fr, rfl⟩
  unfold separate_freq_band
  cases left_channel
  · exact ⟨_, _, rfl⟩
  · exact ⟨_, _, rfl⟩

/-- The value `separate_freq_bands` leaves at index `o` of the buffer it stores into: the gated
band value of the state it was called on for `o < detail`, the old contents otherwise. -/
theorem separate_freq_bands_store (E : Collab) (cfg : source.config) (detail : ℕ)
    (left_channel : Bool) (s : audio_processor) (o : ℕ) :
    band_store left_channel (separate_freq_bands E cfg detail left_channel s) o
      = if o < detail then
          to_int (if band_value E cfg left_channel o s ≤ cfg.ignore then 0
                  else band_value E cfg left_channel o s)
        else band_store left_channel s o := by
  induction detail with
  | zero => simp [separate_freq_bands, for_loop]
  | succ n ih =>
    have hstep : separate_freq_bands E cfg (n + 1) left_channel s
        = separate_freq_band E cfg left_channel n
            (separate_freq_bands E cfg n left_channel s) := rfl
    obtain ⟨fl, fr, hshape⟩ := separate_freq_bands_shape E cfg n left_channel s
    have hval : band_value E cfg left_channel n (separate_freq_bands E cfg n left_channel s)
        = band_value E cfg left_channel n s := by rw [hshape]; rfl
    rw [hstep]
    by_cases hon : o = n
    · subst hon
      have : band_store left_channel (separate_freq_band E cfg left_channel o
            (separate_freq_bands E cfg o left_channel s)) o
          = to_int (if band_value E cfg left_channel o
                (separate_freq_bands E cfg o left_channel s) ≤ cfg.ignore then 0
              else band_value E cfg left_channel o
                (separate_freq_bands E cfg o left_channel s)) := by
        unfold separate_freq_band band_store
        cases left_channel <;> simp
      rw [this, hval, if_pos (Nat.lt_succ_self o)]
    · have : band_store left_channel (separate_freq_band E cfg left_channel n
            (separate_freq_bands E cfg n left_channel s)) o
          = band_store left_channel (separate_freq_bands E cfg n left_channel s) o := by
        unfold separate_freq_band band_store
        cases left_channel <;> simp [Function.update_noteq hon]
      rw [this, ih]
      by_cases h1 : o < n
      · rw [if_pos h1, if_pos (Nat.lt_succ_of_lt h1)]
      · rw [if_neg h1, if_neg (by omega)]

/-- C3 (the code at the failing input). Mono, window of 4 samples, band 0 mapped to bin 1 only
(`low_bin = high_bin = 1`, weight 1, sensitivity 1), capture block `10, 0, 0, 0`: the spectrum
has magnitude 10 in bins 0, 1 and 2.  `separate_freq_bands` computes 30 for band 0 (the sum over
all bins divided by the band width 1) where the band average of bin 1 alone is 10, and stores
30. -/
theorem separate_freq_bands_sums_every_bin :
    band_value example_collab (example_config false) true 0
        (tick example_collab 1 (example_config false) (example_state 1 (impulse 10) (impulse 0)))
      = 30 ∧
    band_value_spec example_collab (example_config false) true 0
        (tick example_collab 1 (example_config false) (example_state 1 (impulse 10) (impulse 0)))
      = 10 ∧
    (tick example_collab 1 (example_config false)
        (example_state 1 (impulse 10) (impulse 0))).m_freq_l 0 = 30 := by
  decide!

/-- C4. For every band `o < detail`: if the weighted, sensitivity-divided magnitude computed by
`separate_freq_bands` is at most the ignore threshold, the value stored for the band is exactly
0; extraction from a second state with the same spectrum, tables and weights stores the same
values whatever the buffers held before; and extracting a second time stores the same values
again (a band that was 0 stays 0). -/
theorem noise_gate_zero_and_repeatable (E : Collab) (cfg : source.config) (detail : ℕ)
    (left_channel : Bool) (s s2 : audio_processor) (o : ℕ) (ho : o < detail)
    (hsamples : s2.m_samples = s.m_samples)
    (hout_l : s2.m_fftw_out_l = s.m_fftw_out_l) (hout_r : s2.m_fftw_out_r = s.m_fftw_out_r)
    (hlow : s2.m_low_freq_cut = s.m_low_freq_cut) (hhigh : s2.m_high_freq_cut = s.m_high_freq_cut)
    (hweight : s2.m_freq_weight = s.m_freq_weight) :
    (band_value E cfg left_channel o s ≤ cfg.ignore →
      band_store left_channel (separate_freq_bands E cfg detail left_channel s) o = 0) ∧
    band_store left_channel (separate_freq_bands E cfg detail left_channel s2) o
      = band_store left_channel (separate_freq_bands E cfg detail left_channel s) o ∧
    band_store left_channel (separate_freq_bands E cfg detail left_channel
        (separate_freq_bands E cfg detail left_channel s)) o
      = band_store left_channel (separate_freq_bands E cfg detail left_channel s) o := by
  have h2 : band_value E cfg left_channel o s2 = band_value E cfg left_channel o s := by
    unfold band_value
    rw [hsamples, hout_l, hout_r, hlow, hhigh, hweight]
  obtain ⟨fl, fr, hshape⟩ := separate_freq_bands_shape E cfg detail left_channel s
  have h3 : band_value E cfg left_channel o (separate_freq_bands E cfg detail left_channel s)
      = band_value E cfg left_channel o s := by rw [hshape]; rfl
  refine ⟨?_, ?_, ?_⟩
  · intro hle
    rw [separate_freq_bands_store, if_pos ho, if_pos hle]
    rfl
  · rw [separate_freq_bands_store, separate_freq_bands_store, if_pos ho, if_pos ho, h2]
  · rw [separate_freq_bands_store E cfg detail left_channel
      (separate_freq_bands E cfg detail left_channel s), if_pos ho, h3,
      separate_freq_bands_store, if_pos ho]

/-- Witness for C4: the state after a tick on the block `10, 0, 0, 0` (band value 30), band 0,
with the ignore threshold raised to 100; the second state differs in the buffer the values are
stored into. -/
theorem noise_gate_zero_and_repeatable_witness :
    band_value example_collab { example_config false with ignore := 100 } true 0
        (tick example_collab 1 (example_config false)
          (example_state 1 (impulse 10) (impulse 0))) ≤ 100 ∧
    band_store true (separate_freq_bands example_collab
        { example_config false with ignore := 100 } 2 true
        (tick example_collab 1 (example_config false)
          (example_state 1 (impulse 10) (impulse 0)))) 0 = 0 :=
  ⟨by decide!,
   (noise_gate_zero_and_repeatable example_collab { example_config false with ignore := 100 } 2
      true (tick example_collab 1 (example_config false)
        (example_state 1 (impulse 10) (impulse 0)))
      { tick example_collab 1 (example_config false)
          (example_state 1 (impulse 10) (impulse 0)) with m_freq_l := fun _ => 7 }
      0 (by decide) rfl rfl rfl rfl rfl rfl).1 (by decide!)⟩

end audio

namespace audio

/-! ## The sample loop and the silence counter -/

/-- The sample loop after `n` iterations: it has written the two transform input buffers only
(the right one only in stereo), and `silence` is still set exactly when no examined sample was
positive. -/
theorem tick_sample_loop (E : Collab) (s : audio_processor) (n : ℕ) :
    (∃ l r, (for_loop n (tick_sample E) (s, true)).1
          = { s with m_fftw_in_l := l, m_fftw_in_r := r }
        ∧ (¬ s.m_channels > 1 → r = s.m_fftw_in_r)) ∧
    ((for_loop n (tick_sample E) (s, true)).2 = true ↔
      ∀ i, i < n → i < s.m_buf_size → i < E.AUDIO_SIZE →
        s.m_audio_out_l i ≤ 0 ∧
        (if s.m_channels > 1 then s.m_audio_out_r i else s.m_fftw_in_r i) ≤ 0) := by
  induction n with
  | zero =>
    refine ⟨⟨s.m_fftw_in_l, s.m_fftw_in_r, rfl, fun _ => rfl⟩, ?_⟩
    simp [for_loop]
  | succ n ih =>
    obtain ⟨⟨l, r, hp, hr⟩, hs⟩ := ih
    rw [for_loop_succ]
    rcases hpq : for_loop n (tick_sample E) (s, true) with ⟨t, b⟩
    rw [hpq] at hp hs
    simp only at hp hs
    subst hp
    rw [Nat.forall_lt_succ, ← hs]
    by_cases hc : n < s.m_buf_size ∧ n < E.AUDIO_SIZE
    · by_cases hch : s.m_channels > 1
      · refine ⟨⟨_, _, by simp only [tick_sample, hc, hch, and_self, if_true]; rfl,
          fun h => absurd hch h⟩, ?_⟩
        simp only [tick_sample, hc, hch, and_self, if_true, Function.update_same, gt_iff_lt,
          true_implies]
        by_cases hb : b = true <;> by_cases h1 : 0 < s.m_audio_out_l n <;>
          by_cases h2 : 0 < s.m_audio_out_r n <;> simp [hb, h1, h2, not_lt.mp, le_of_lt]
      · have hr2 := hr hch
        subst hr2
        refine ⟨⟨_, _, by simp only [tick_sample, hc, hch, and_self, if_true, if_false]; rfl,
          fun _ => rfl⟩, ?_⟩
        simp only [tick_sample, hc, hch, and_self, if_true, if_false, Function.update_same,
          gt_iff_lt, true_implies]
        by_cases hb : b = true <;> by_cases h1 : 0 < s.m_audio_out_l n <;>
          by_cases h2 : 0 < s.m_fftw_in_r n <;> simp [hb, h1, h2, not_lt.mp, le_of_lt]
    · have himp : (n < s.m_buf_size → n < E.AUDIO_SIZE →
          s.m_audio_out_l n ≤ 0 ∧
          (if s.m_channels > 1 then s.m_audio_out_r n else s.m_fftw_in_r n) ≤ 0) :=
        fun h1 h2 => absurd ⟨h1, h2⟩ hc
      by_cases hch : s.m_channels > 1
      · refine ⟨⟨_, _, by simp only [tick_sample, hc, hch, if_true, if_false]; rfl,
          fun h => absurd hch h⟩, ?_⟩
        simp only [tick_sample, hc, if_false]
        exact ⟨fun h => ⟨h, himp⟩, fun h => h.1⟩
      · have hr2 := hr hch
        subst hr2
        refine ⟨⟨_, _, by simp only [tick_sample, hc, hch, if_false]; rfl, fun _ => rfl⟩, ?_⟩
        simp only [tick_sample, hc, if_false]
        exact ⟨fun h => ⟨h, himp⟩, fun h => h.1⟩

/-- The local `silence` after the sample loop does not depend on `m_last_freqsd`. -/
theorem tick_samples_silence_frame (E : Collab) (s : audio_processor) (d : ℕ → ℤ) :
    (tick_samples E { s with m_last_freqsd := d }).2 = (tick_samples E s).2 := by
  have h1 := (tick_sample_loop E { s with m_last_freqsd := d } s.m_samples).2
  have h2 := (tick_sample_loop E s s.m_samples).2
  have h3 : (tick_samples E { s with m_last_freqsd := d }).2 = true
      ↔ (tick_samples E s).2 = true := h1.trans h2.symm
  cases ha : (tick_samples E { s with m_last_freqsd := d }).2 <;>
    cases hb : (tick_samples E s).2 <;> simp_all

/-- What lines 156–180 of `tick` change: `m_last_freqsd`, the transform input buffers (the right
one only in stereo) and the silence counter. -/
theorem tick_count_shape (E : Collab) (seconds : ℚ) (cfg : source.config)
    (s : audio_processor) :
    ∃ l r, tick_count E seconds cfg s
        = { s with
            m_last_freqsd := memcpy s.m_last_freqsd 0 s.m_freq_both (cfg.detail * 2)
            m_fftw_in_l := l
            m_fftw_in_r := r
            m_sleep_counter :=
              if (tick_samples E s).2 then s.m_sleep_counter + seconds else 0 }
      ∧ (¬ s.m_channels > 1 → r = s.m_fftw_in_r) := by
  obtain ⟨l, r, hp, hr⟩ := (tick_sample_loop E
    { s with m_last_freqsd := memcpy s.m_last_freqsd 0 s.m_freq_both (cfg.detail * 2) }
    s.m_samples).1
  refine ⟨l, r, ?_, hr⟩
  have hp2 : (tick_samples E
      { s with m_last_freqsd := memcpy s.m_last_freqsd 0 s.m_freq_both (cfg.detail * 2) }).1
      = { s with
          m_last_freqsd := memcpy s.m_last_freqsd 0 s.m_freq_both (cfg.detail * 2)
          m_fftw_in_l := l
          m_fftw_in_r := r } := hp
  unfold tick_count
  simp only [hp2, tick_samples_silence_frame]

/-- What one iteration of the processing loop changes. -/
theorem tick_band_shape (cfg : source.config) (o : ℕ) (s : audio_processor) :
    ∃ both fall peak last mem, tick_band cfg o s
      = { s with m_freq_both := both, m_fall_off := fall, m_freq_peak := peak,
                 m_last_freqs := last, m_freq_mem := mem } := by
  unfold tick_band tick_clamp tick_integral tick_falloff
  dsimp only
  split_ifs <;> exact ⟨_, _, _, _, _, rfl⟩

/-- What the processing loop changes. -/
theorem tick_bands_shape (cfg : source.config) (s : audio_processor) :
    ∃ both fall peak last mem, tick_bands cfg s
      = { s with m_freq_both := both, m_fall_off := fall, m_freq_peak := peak,
                 m_last_freqs := last, m_freq_mem := mem } := by
  unfold tick_bands
  refine for_loop_invariant (fun t => ∃ both fall peak last mem, t
      = { s with m_freq_both := both, m_fall_off := fall, m_freq_peak := peak,
                 m_last_freqs := last, m_freq_mem := mem }) _ ?_ _ s
    ⟨_, _, _, _, _, rfl⟩
  rintro k t ⟨both, fall, peak, last, mem, rfl⟩
  obtain ⟨both2, fall2, peak2, last2, mem2, h⟩ := tick_band_shape cfg k
    { s with m_freq_both := both, m_fall_off := fall, m_freq_peak := peak,
             m_last_freqs := last, m_freq_mem := mem }
  exact ⟨both2, fall2, peak2, last2, mem2, h⟩

/-- What the transforms and the band extraction change. -/
theorem tick_extract_shape (E : Collab) (cfg : source.config) (s : audio_processor) :
    ∃ ol outr fl fr, tick_extract E cfg s
      = { s with m_fftw_out_l := ol, m_fftw_out_r := outr, m_freq_l := fl, m_freq_r := fr } := by
  unfold tick_extract
  split_ifs
  · obtain ⟨fl, fr, h1⟩ := separate_freq_bands_shape E cfg cfg.detail true
      { s with m_fftw_out_l := E.fftw_execute s.m_buf_size s.m_fftw_in_l s.m_fftw_out_l,
               m_fftw_out_r := E.fftw_execute s.m_buf_size s.m_fftw_in_r s.m_fftw_out_r }
    obtain ⟨fl2, fr2, h2⟩ := separate_freq_bands_shape E cfg cfg.detail false
      (separate_freq_bands E cfg cfg.detail true
        { s with m_fftw_out_l := E.fftw_execute s.m_buf_size s.m_fftw_in_l s.m_fftw_out_l,
                 m_fftw_out_r := E.fftw_execute s.m_buf_size s.m_fftw_in_r s.m_fftw_out_r })
    refine ⟨E.fftw_execute s.m_buf_size s.m_fftw_in_l s.m_fftw_out_l,
      E.fftw_execute s.m_buf_size s.m_fftw_in_r s.m_fftw_out_r, fl2, fr2, ?_⟩
    dsimp only
    rw [h2, h1]
  · obtain ⟨fl, fr, h1⟩ := separate_freq_bands_shape E cfg cfg.detail true
      { s with m_fftw_out_l := E.fftw_execute s.m_buf_size s.m_fftw_in_l s.m_fftw_out_l }
    refine ⟨E.fftw_execute s.m_buf_size s.m_fftw_in_l s.m_fftw_out_l, s.m_fftw_out_r,
      fl, fr, ?_⟩
    dsimp only
    rw [h1]

/-- What the additional filtering changes. -/
theorem tick_filter_shape (cfg : source.config) (s : audio_processor) :
    ∃ fl fr, tick_filter cfg s = { s with m_freq_l := fl, m_freq_r := fr } := by
  unfold tick_filter
  split
  · split_ifs
    · exact ⟨_, _, rfl⟩
    · exact ⟨_, s.m_freq_r, rfl⟩
  · split_ifs
    · exact ⟨_, _, rfl⟩
    · exact ⟨_, s.m_freq_r, rfl⟩
  · exact ⟨s.m_freq_l, s.m_freq_r, rfl⟩

/-- What `tick` changes, and what it leaves: the silence counter follows the local `silence`,
"can draw" is the comparison of the updated counter with 5, and the configuration-derived
members, the capture buffers and (in mono) the right transform input are as before. -/
theorem tick_shape (E : Collab) (seconds : ℚ) (cfg : source.config) (s : audio_processor) :
    ∃ l r ol outr fl fr both fall peak last mem lf, tick E seconds cfg s
        = { s with
            m_last_freqsd := memcpy s.m_last_freqsd 0 s.m_freq_both (cfg.detail * 2)
            m_fftw_in_l := l
            m_fftw_in_r := r
            m_sleep_counter :=
              if (tick_samples E s).2 then s.m_sleep_counter + seconds else 0
            m_can_draw :=
              decide ((if (tick_samples E s).2 then s.m_sleep_counter + seconds else 0) < 5)
            log_flag := lf
            m_fftw_out_l := ol, m_fftw_out_r := outr, m_freq_l := fl, m_freq_r := fr
            m_freq_both := both, m_fall_off := fall, m_freq_peak := peak
            m_last_freqs := last, m_freq_mem := mem }
      ∧ (¬ s.m_channels > 1 → r = s.m_fftw_in_r) := by
  obtain ⟨l, r, hc, hr⟩ := tick_count_shape E seconds cfg s
  have hcnt : (tick_count E seconds cfg s).m_sleep_counter
      = if (tick_samples E s).2 then s.m_sleep_counter + seconds else 0 := by rw [hc]
  by_cases hlt : (tick_count E seconds cfg s).m_sleep_counter < 5
  · have htick : tick E seconds cfg s = tick_bands cfg (tick_copy cfg (tick_filter cfg
        (tick_extract E cfg
          { tick_count E seconds cfg s with m_can_draw := true, log_flag := true }))) := by
      unfold tick
      simp only [hlt, if_true]
    obtain ⟨ol, outr, fl, fr, h1⟩ := tick_extract_shape E cfg
      { tick_count E seconds cfg s with m_can_draw := true, log_flag := true }
    obtain ⟨fl2, fr2, h2⟩ := tick_filter_shape cfg (tick_extract E cfg
      { tick_count E seconds cfg s with m_can_draw := true, log_flag := true })
    obtain ⟨both, fall, peak, last, mem, h3⟩ := tick_bands_shape cfg (tick_copy cfg
      (tick_filter cfg (tick_extract E cfg
        { tick_count E seconds cfg s with m_can_draw := true, log_flag := true })))
    refine ⟨l, r, ol, outr, fl2, fr2, both, fall, peak, last, mem, true, ?_, hr⟩
    rw [hcnt] at hlt
    rw [decide_eq_true hlt, htick, h3]
    unfold tick_copy
    rw [h2, h1, hc]
  · have htick : tick E seconds cfg s
        = { tick_count E seconds cfg s with m_can_draw := false } := by
      unfold tick
      simp only [hlt, if_false]
    refine ⟨l, r, s.m_fftw_out_l, s.m_fftw_out_r, s.m_freq_l, s.m_freq_r, s.m_freq_both,
      s.m_fall_off, s.m_freq_peak, s.m_last_freqs, s.m_freq_mem, s.log_flag, ?_, hr⟩
    rw [hcnt] at hlt
    rw [decide_eq_false hlt, htick, hc]

end audio

namespace audio

/-! ## The processing loop -/

theorem tick_band_both_of_ne (cfg : source.config) (o j : ℕ) (s : audio_processor)
    (hj : j ≠ o) : (tick_band cfg o s).m_freq_both j = s.m_freq_both j := by
  unfold tick_band tick_clamp tick_integral tick_falloff
  dsimp only
  split_ifs <;> simp [Function.update_noteq hj]

theorem tick_band_both_ge_one (cfg : source.config) (o : ℕ) (s : audio_processor) :
    (tick_band cfg o s).m_freq_both o ≥ 1 := by
  unfold tick_band tick_clamp
  split_ifs with h
  · simp
  · exact not_lt.mp h

/-- After `n` iterations of the processing loop every value at an index below `n` is at least
1. -/
theorem tick_band_loop_ge_one (cfg : source.config) (s : audio_processor) (n o : ℕ)
    (ho : o < n) : (for_loop n (tick_band cfg) s).m_freq_both o ≥ 1 := by
  induction n with
  | zero => exact absurd ho (Nat.not_lt_zero o)
  | succ k ih =>
    rw [for_loop_succ]
    by_cases hok : o = k
    · subst hok
      exact tick_band_both_ge_one cfg o _
    · rw [tick_band_both_of_ne cfg k o _ hok]
      exact ih (by omega)

/-- A tick that leaves "can draw" set has run the processing loop, on a state with the channel
count of the state before the tick. -/
theorem tick_awake (E : Collab) (seconds : ℚ) (cfg : source.config) (s : audio_processor)
    (hawake : (tick E seconds cfg s).m_can_draw = true) :
    ∃ t, t.m_channels = s.m_channels ∧ tick E seconds cfg s = tick_bands cfg t := by
  by_cases hlt : (tick_count E seconds cfg s).m_sleep_counter < 5
  · refine ⟨tick_copy cfg (tick_filter cfg (tick_extract E cfg
        { tick_count E seconds cfg s with m_can_draw := true, log_flag := true })), ?_, ?_⟩
    · obtain ⟨l, r, hc, -⟩ := tick_count_shape E seconds cfg s
      obtain ⟨ol, outr, fl, fr, h1⟩ := tick_extract_shape E cfg
        { tick_count E seconds cfg s with m_can_draw := true, log_flag := true }
      obtain ⟨fl2, fr2, h2⟩ := tick_filter_shape cfg (tick_extract E cfg
        { tick_count E seconds cfg s with m_can_draw := true, log_flag := true })
      unfold tick_copy
      rw [h2, h1, hc]
    · unfold tick
      simp only [hlt, if_true]
  · exfalso
    have htick : tick E seconds cfg s
        = { tick_count E seconds cfg s with m_can_draw := false } := by
      unfold tick
      simp only [hlt, if_false]
    rw [htick] at hawake
    exact Bool.false_ne_true hawake

/-- C5. After every non-sleeping `audio_processor::tick` (one that leaves "can draw" set), for
any gravity, integral coefficient and prior state, every value of the output band array at an
index `o < detail * channels` is at least 1 (`channels` being 1 or 2, as `update` sets it). -/
theorem tick_output_at_least_one (E : Collab) (seconds : ℚ) (cfg : source.config)
    (s : audio_processor) (o : ℕ)
    (hawake : (tick E seconds cfg s).m_can_draw = true)
    (hch : s.m_channels = 1 ∨ s.m_channels = 2)
    (ho : o < cfg.detail * s.m_channels) :
    (tick E seconds cfg s).m_freq_both o ≥ 1 := by
  obtain ⟨t, ht, htick⟩ := tick_awake E seconds cfg s hawake
  rw [htick]
  unfold tick_bands
  apply tick_band_loop_ge_one
  rw [ht]
  rcases hch with h | h <;> rw [h] at ho ⊢ <;> simpa using ho

/-- Witness for C5: a stereo tick on the blocks `10, 0, 0, 0` and `30, 0, 0, 0`, index 3. -/
theorem tick_output_at_least_one_witness :
    (tick example_collab 1 (example_config true)
        (example_state 2 (impulse 10) (impulse 30))).m_can_draw = true ∧
    (tick example_collab 1 (example_config true)
        (example_state 2 (impulse 10) (impulse 30))).m_freq_both 3 ≥ 1 :=
  ⟨by decide!,
   tick_output_at_least_one example_collab 1 (example_config true)
     (example_state 2 (impulse 10) (impulse 30)) 3 (by decide!) (Or.inr rfl) (by decide)⟩

end audio

namespace audio

/-! ## Silence detection -/

/-- The silence counter after a tick. -/
theorem tick_sleep_counter (E : Collab) (seconds : ℚ) (cfg : source.config)
    (s : audio_processor) :
    (tick E seconds cfg s).m_sleep_counter
      = if (tick_samples E s).2 then s.m_sleep_counter + seconds else 0 := by
  obtain ⟨l, r, ol, outr, fl, fr, both, fall, peak, last, mem, lf, h, -⟩ :=
    tick_shape E seconds cfg s
  rw [h]

/-- "Can draw" after a tick is the comparison of the updated counter with 5. -/
theorem tick_can_draw (E : Collab) (seconds : ℚ) (cfg : source.config) (s : audio_processor) :
    (tick E seconds cfg s).m_can_draw = decide ((tick E seconds cfg s).m_sleep_counter < 5) := by
  obtain ⟨l, r, ol, outr, fl, fr, both, fall, peak, last, mem, lf, h, -⟩ :=
    tick_shape E seconds cfg s
  rw [h]

/-- A tick leaves the channel count, and in mono the right transform input buffer. -/
theorem tick_channels (E : Collab) (seconds : ℚ) (cfg : source.config) (s : audio_processor) :
    (tick E seconds cfg s).m_channels = s.m_channels ∧
    (¬ s.m_channels > 1 → (tick E seconds cfg s).m_fftw_in_r = s.m_fftw_in_r) := by
  obtain ⟨l, r, ol, outr, fl, fr, both, fall, peak, last, mem, lf, h, hr⟩ :=
    tick_shape E seconds cfg s
  rw [h]
  exact ⟨rfl, hr⟩

/-- The local `silence` after the sample loop, when in mono the right transform input buffer
holds no positive value: it is set exactly when no examined sample is positive. -/
theorem tick_samples_silence (E : Collab) (s : audio_processor)
    (hr : ¬ s.m_channels > 1 → ∀ i, s.m_fftw_in_r i ≤ 0) :
    (tick_samples E s).2 = true ↔
      ∀ i, i < s.m_samples → i < s.m_buf_size → i < E.AUDIO_SIZE →
        s.m_audio_out_l i ≤ 0 ∧ (s.m_channels > 1 → s.m_audio_out_r i ≤ 0) := by
  have h := (tick_sample_loop E s s.m_samples).2
  unfold tick_samples
  rw [h]
  by_cases hch : s.m_channels > 1
  · simp only [hch, if_true, true_implies]
  · simp only [hch, if_false, false_implies, and_true]
    constructor
    · intro h2 i h3 h4 h5
      exact (h2 i h3 h4 h5).1
    · intro h2 i h3 h4 h5
      exact ⟨h2 i h3 h4 h5, hr hch i⟩

/-- An all-zero block is silent. -/
theorem tick_samples_zero_block (E : Collab) (s : audio_processor)
    (hr : ¬ s.m_channels > 1 → ∀ i, s.m_fftw_in_r i ≤ 0) :
    (tick_samples E (feed (fun _ => 0) (fun _ => 0) s)).2 = true := by
  rw [tick_samples_silence E (feed (fun _ => 0) (fun _ => 0) s) hr]
  intro i _ _ _
  exact ⟨le_refl _, fun _ => le_refl _⟩

/-- A run of ticks on all-zero blocks adds the durations to the silence counter, and "can draw"
after the last tick is the comparison of that sum with 5. -/
theorem run_zero_blocks_counter (E : Collab) (cfg : source.config) (durations : List ℚ) :
    ∀ s : audio_processor, (¬ s.m_channels > 1 → ∀ i, s.m_fftw_in_r i ≤ 0) →
      (run_zero_blocks E cfg durations s).m_sleep_counter = s.m_sleep_counter + durations.sum ∧
      (durations ≠ [] → (run_zero_blocks E cfg durations s).m_can_draw
        = decide (s.m_sleep_counter + durations.sum < 5)) := by
  induction durations with
  | nil => intro s _; exact ⟨by simp [run_zero_blocks], fun h => absurd rfl h⟩
  | cons d ds ih =>
    intro s hr
    have hsil := tick_samples_zero_block E s hr
    have hcnt : (tick E d cfg (feed (fun _ => 0) (fun _ => 0) s)).m_sleep_counter
        = s.m_sleep_counter + d := by
      rw [tick_sleep_counter, hsil]
      rfl
    obtain ⟨hch, hinr⟩ := tick_channels E d cfg (feed (fun _ => 0) (fun _ => 0) s)
    have hr2 : ¬ (tick E d cfg (feed (fun _ => 0) (fun _ => 0) s)).m_channels > 1 →
        ∀ i, (tick E d cfg (feed (fun _ => 0) (fun _ => 0) s)).m_fftw_in_r i ≤ 0 := by
      intro h i
      rw [hch] at h
      rw [hinr h]
      exact hr h i
    obtain ⟨ih1, ih2⟩ := ih (tick E d cfg (feed (fun _ => 0) (fun _ => 0) s)) hr2
    have hrun : run_zero_blocks E cfg (d :: ds) s
        = run_zero_blocks E cfg ds (tick E d cfg (feed (fun _ => 0) (fun _ => 0) s)) := rfl
    rw [hrun, List.sum_cons, ← add_assoc, ← hcnt]
    refine ⟨ih1, fun _ => ?_⟩
    by_cases hds : ds = []
    · subst hds
      simp only [run_zero_blocks, List.sum_nil, add_zero]
      exact tick_can_draw E d cfg _
    · exact ih2 hds

/-- C7. In `audio_processor::tick` the silence counter after a tick is 0 if the tick was detected
as carrying signal (the local `silence` cleared) and the previous counter plus the tick's seconds
otherwise, and "can draw" after the tick is true exactly when that updated counter is below 5;
hence feeding all-zero sample blocks whose durations total more than 5 seconds (from a counter
that is not negative; in mono with the right transform input as `update` zeroed it) leaves "can
draw" false, and a following tick detected as carrying signal sets it back to true at once. -/
theorem tick_silence_transition (E : Collab) (cfg : source.config) (s : audio_processor)
    (seconds : ℚ) (durations : List ℚ)
    (hcounter : 0 ≤ s.m_sleep_counter)
    (hr : ¬ s.m_channels > 1 → ∀ i, s.m_fftw_in_r i ≤ 0)
    (htotal : durations.sum > 5) :
    (tick E seconds cfg s).m_sleep_counter
        = (if (tick_samples E s).2 then s.m_sleep_counter + seconds else 0) ∧
    ((tick E seconds cfg s).m_can_draw = true ↔ (tick E seconds cfg s).m_sleep_counter < 5) ∧
    (run_zero_blocks E cfg durations s).m_can_draw = false ∧
    (∀ left right : ℕ → ℚ,
      (tick_samples E (feed left right (run_zero_blocks E cfg durations s))).2 = false →
      (tick E seconds cfg (feed left right (run_zero_blocks E cfg durations s))).m_can_draw
        = true) := by
  refine ⟨tick_sleep_counter E seconds cfg s, ?_, ?_, ?_⟩
  · rw [tick_can_draw]
    exact decide_eq_true_iff
  · have hne : durations ≠ [] := by
      rintro rfl
      norm_num at htotal
    rw [(run_zero_blocks_counter E cfg durations s hr).2 hne]
    apply decide_eq_false
    linarith
  · intro left right hsig
    rw [tick_can_draw, tick_sleep_counter, hsig]
    simp

/-- Witness for C7: mono, two all-zero blocks of 3 seconds each. -/
theorem tick_silence_transition_witness :
    (0 ≤ (example_state 1 (impulse 0) (impulse 0)).m_sleep_counter ∧ ([3, 3] : List ℚ).sum > 5) ∧
    (run_zero_blocks example_collab (example_config false) [3, 3]
        (example_state 1 (impulse 0) (impulse 0))).m_can_draw = false :=
  ⟨⟨le_refl _, by norm_num⟩,
   (tick_silence_transition example_collab (example_config false)
      (example_state 1 (impulse 0) (impulse 0)) 1 [3, 3] (le_refl _)
      (fun _ _ => le_refl _) (by norm_num)).2.2.1⟩

/-- C8 (counterexample). Mono, the block `-10, 0, 0, 0`: it contains a sample that is not 0, yet
the tick is treated as silent and the silence counter goes from 0 to 1 (the tick's seconds)
instead of being reset. -/
theorem tick_negative_sample_is_silent :
    (example_state 1 (impulse (-10)) (impulse 0)).m_audio_out_l 0 ≠ 0 ∧
    (tick_samples example_collab (example_state 1 (impulse (-10)) (impulse 0))).2 = true ∧
    (tick example_collab 1 (example_config false)
        (example_state 1 (impulse (-10)) (impulse 0))).m_sleep_counter = 1 := by
  decide!

/-- C8 (amended). `audio_processor::tick` treats a tick as silent if and only if no examined
sample (index below `m_samples`, `m_buf_size` and `AUDIO_SIZE`; left channel, and right channel
in stereo) is strictly positive, the right transform input being in mono as `update` zeroed it:
a block with a positive examined sample resets the silence counter to 0, a block without one
adds the tick's seconds to it. -/
theorem tick_silent_iff_no_positive_sample (E : Collab) (seconds : ℚ) (cfg : source.config)
    (s : audio_processor) (hr : ¬ s.m_channels > 1 → ∀ i, s.m_fftw_in_r i ≤ 0) :
    ((tick_samples E s).2 = true ↔
      ∀ i, i < s.m_samples → i < s.m_buf_size → i < E.AUDIO_SIZE →
        s.m_audio_out_l i ≤ 0 ∧ (s.m_channels > 1 → s.m_audio_out_r i ≤ 0)) ∧
    ((∃ i, i < s.m_samples ∧ i < s.m_buf_size ∧ i < E.AUDIO_SIZE ∧
        (s.m_audio_out_l i > 0 ∨ (s.m_channels > 1 ∧ s.m_audio_out_r i > 0))) →
      (tick E seconds cfg s).m_sleep_counter = 0) ∧
    ((∀ i, i < s.m_samples → i < s.m_buf_size → i < E.AUDIO_SIZE →
        s.m_audio_out_l i ≤ 0 ∧ (s.m_channels > 1 → s.m_audio_out_r i ≤ 0)) →
      (tick E seconds cfg s).m_sleep_counter = s.m_sleep_counter + seconds) := by
  have hiff := tick_samples_silence E s hr
  refine ⟨hiff, ?_, ?_⟩
  · rintro ⟨i, h1, h2, h3, h4⟩
    have hns : (tick_samples E s).2 = false := by
      cases hb : (tick_samples E s).2
      · rfl
      · exfalso
        have h5 := hiff.mp hb i h1 h2 h3
        rcases h4 with h4 | ⟨h4, h6⟩
        · exact absurd h5.1 (not_le.mpr h4)
        · exact absurd (h5.2 h4) (not_le.mpr h6)
    rw [tick_sleep_counter, hns]
    simp
  · intro h
    rw [tick_sleep_counter, hiff.mpr h]
    simp

/-- Witness for C8 (amended): mono, the block `10, 0, 0, 0`: the counter is reset. -/
theorem tick_silent_iff_no_positive_sample_witness :
    (∃ i, i < (example_state 1 (impulse 10) (impulse 0)).m_samples ∧
      (example_state 1 (impulse 10) (impulse 0)).m_audio_out_l i > 0) ∧
    (tick example_collab 1 (example_config false)
        (example_state 1 (impulse 10) (impulse 0))).m_sleep_counter = 0 :=
  ⟨⟨0, by decide, by decide!⟩,
   (tick_silent_iff_no_positive_sample example_collab 1 (example_config false)
      (example_state 1 (impulse 10) (impulse 0)) (fun _ _ => le_refl _)).2.1
      ⟨0, by decide, by decide, by decide, Or.inl (by decide!)⟩⟩

/-! ## The combined band array -/

/-- C9 (the code at the failing input). Stereo, two bands, blocks `10, 0, 0, 0` (left) and
`30, 0, 0, 0` (right): the left channel's values are 30 and 60, the right channel's 90 and 180;
the combined array after the tick is 30, 90, 180, 1: the right channel starts at index
`detail / 2 = 1`, the left value 60 is overwritten, and index 3 keeps an old value (clamped to
1).  The concatenation would be 30, 60, 90, 180. -/
theorem tick_stereo_copy_overlaps :
    (tick example_collab 1 (example_config true)
        (example_state 2 (impulse 10) (impulse 30))).m_freq_l 0 = 30 ∧
    (tick example_collab 1 (example_config true)
        (example_state 2 (impulse 10) (impulse 30))).m_freq_l 1 = 60 ∧
    (tick example_collab 1 (example_config true)
        (example_state 2 (impulse 10) (impulse 30))).m_freq_r 0 = 90 ∧
    (tick example_collab 1 (example_config true)
        (example_state 2 (impulse 10) (impulse 30))).m_freq_r 1 = 180 ∧
    (tick example_collab 1 (example_config true)
        (example_state 2 (impulse 10) (impulse 30))).m_freq_both 0 = 30 ∧
    (tick example_collab 1 (example_config true)
        (example_state 2 (impulse 10) (impulse 30))).m_freq_both 1 = 90 ∧
    (tick example_collab 1 (example_config true)
        (example_state 2 (impulse 10) (impulse 30))).m_freq_both 2 = 180 ∧
    (tick example_collab 1 (example_config true)
        (example_state 2 (impulse 10) (impulse 30))).m_freq_both 3 = 1 ∧
    combined_spec 2 (fun k => if k = 0 then 30 else 60) (fun k => if k = 0 then 90 else 180)
        (fun _ => 0) 1 = 60 := by
  decide!

end audio

namespace audio

/-! ## Monstercat smoothing -/

/-- Overwriting an element with a value that is not smaller keeps the length and lowers no
element. -/
theorem set_raises (l : List ℚ) (j : ℕ) (v : ℚ) (hv : l.getD j 0 ≤ v) (i : ℕ) :
    l.getD i 0 ≤ (l.set j v).getD i 0 := by
  simp only [List.getD_eq_getElem?_getD, List.getElem?_set] at hv ⊢
  by_cases hji : j = i
  · subst hji
    by_cases hlt : j < l.length
    · simpa [hlt] using hv
    · simp [hlt, List.getElem?_eq_none (not_lt.mp hlt)]
  · simp [hji]

theorem monstercat_inner_raises (weights : List ℚ) (i j : ℕ) (bars : List ℚ) :
    (monstercat_inner weights i j bars).length = bars.length ∧
    ∀ k, bars.getD k 0 ≤ (monstercat_inner weights i j bars).getD k 0 := by
  unfold monstercat_inner
  dsimp only
  split_ifs with h1 h2
  · exact ⟨List.length_set _ _ _, set_raises bars j _ (le_of_lt h2)⟩
  · exact ⟨rfl, fun _ => le_refl _⟩
  · exact ⟨rfl, fun _ => le_refl _⟩

theorem monstercat_outer_raises (weights : List ℚ) (m_bar_min_height : ℚ) (bars_length i : ℕ)
    (bars : List ℚ) :
    (monstercat_outer weights m_bar_min_height bars_length i bars).length = bars.length ∧
    ∀ k, bars.getD k 0 ≤ (monstercat_outer weights m_bar_min_height bars_length i bars).getD k 0 := by
  unfold monstercat_outer
  split_ifs with h1
  · exact ⟨List.length_set _ _ _, set_raises bars i _ (le_of_lt h1)⟩
  · refine for_loop_invariant
      (fun t => t.length = bars.length ∧ ∀ k, bars.getD k 0 ≤ t.getD k 0) _ ?_ _ bars
      ⟨rfl, fun _ => le_refl _⟩
    rintro j t ⟨hlen, hle⟩
    obtain ⟨h2, h3⟩ := monstercat_inner_raises weights i j t
    exact ⟨h2.trans hlen, fun k => (hle k).trans (h3 k)⟩

/-- C6. For every input band array, smoothing factor, weight cache and minimum floor, after
`monstercat_smoothing` the array has its length and no band's value is less than its value
before the call: `output[i] ≥ input[i]` for every index `i`. -/
theorem monstercat_smoothing_never_lowers (sv : spectrum_visualizer) (bars : List ℚ) (i : ℕ) :
    (monstercat_smoothing sv bars).1.length = bars.length ∧
    (monstercat_smoothing sv bars).1.getD i 0 ≥ bars.getD i 0 := by
  have h : (monstercat_smoothing sv bars).1.length = bars.length ∧
      ∀ k, bars.getD k 0 ≤ (monstercat_smoothing sv bars).1.getD k 0 := by
    unfold monstercat_smoothing
    dsimp only
    refine for_loop_invariant
      (fun t => t.length = bars.length ∧ ∀ k, bars.getD k 0 ≤ t.getD k 0) _ ?_ _ bars
      ⟨rfl, fun _ => le_refl _⟩
    rintro j t ⟨hlen, hle⟩
    obtain ⟨h2, h3⟩ := monstercat_outer_raises (monstercat_weights sv bars)
      sv.m_bar_min_height bars.length (j + 1) t
    exact ⟨h2.trans hlen, fun k => (hle k).trans (h3 k)⟩
  exact ⟨h.1, h.2 i⟩

/-! ## Auto-scaling -/

/-- Over exact arithmetic (rounding and NaN are not represented; for `double` arithmetic see
`scale_bars_binary64`): for every non-empty bar array in auto-scale mode, `scale_bars` uses the
ceiling `max(moving_average + 2*std_dev, 1)`, which is at least 1, and replaces every bar by
`min(height - 1, (bar / ceiling) * height - 1)`; consequently every output is at most
`height - 1`, and when every bar is `≥ 0` and `height ≥ 0` every output lies in
`[-1, height - 1]`. -/
theorem scale_bars_auto_range (E : Collab) (C : constants) (sv : spectrum_visualizer)
    (height : ℤ) (bars : List ℚ) (hne : bars ≠ []) (hauto : sv.m_auto_scale = true) :
    scale_ceiling E C sv bars
        = max ((auto_scale_statistics E C sv bars).2.1
            + 2 * (auto_scale_statistics E C sv bars).2.2) 1 ∧
    scale_ceiling E C sv bars ≥ 1 ∧
    (scale_bars E C sv height bars).1
        = bars.map (fun bar => min ((height : ℚ) - 1)
            ((bar / scale_ceiling E C sv bars) * (height : ℚ) - 1)) ∧
    (∀ x ∈ (scale_bars E C sv height bars).1, x ≤ (height : ℚ) - 1) ∧
    (0 ≤ height → (∀ b ∈ bars, 0 ≤ b) →
      ∀ x ∈ (scale_bars E C sv height bars).1, -1 ≤ x ∧ x ≤ (height : ℚ) - 1) := by
  have hceil : scale_ceiling E C sv bars ≥ 1 := le_max_right _ _
  have hmap : (scale_bars E C sv height bars).1
      = bars.map (fun bar => min ((height : ℚ) - 1)
          ((bar / scale_ceiling E C sv bars) * (height : ℚ) - 1)) := by
    unfold scale_bars
    have hemp : bars.isEmpty = false := by
      cases bars with
      | nil => exact absurd rfl hne
      | cons a l => rfl
    simp only [hemp, hauto, if_true, Bool.false_eq_true, if_false]
    push_cast
    rfl
  refine ⟨rfl, hceil, hmap, ?_, ?_⟩
  · intro x hx
    rw [hmap, List.mem_map] at hx
    obtain ⟨b, -, rfl⟩ := hx
    exact min_le_left _ _
  · intro hh hb x hx
    rw [hmap, List.mem_map] at hx
    obtain ⟨b, hbm, rfl⟩ := hx
    refine ⟨le_min ?_ ?_, min_le_left _ _⟩
    · have : (0 : ℚ) ≤ (height : ℚ) := by exact_mod_cast hh
      linarith
    · have h1 : (0 : ℚ) ≤ (height : ℚ) := by exact_mod_cast hh
      have h2 : (0 : ℚ) ≤ b / scale_ceiling E C sv bars :=
        div_nonneg (hb b hbm) (le_trans zero_le_one hceil)
      have h3 := mul_nonneg h2 h1
      linarith

/-- An instance of `scale_bars_auto_range`: the bars `8, 0, 4, 16, 3` at height 100 with an empty window (ceiling 16):
the outputs are `49, -1, 24, 99, 71/4`. -/
theorem scale_bars_auto_range_witness :
    (([8, 0, 4, 16, 3] : List ℚ) ≠ [] ∧ example_visualizer.m_auto_scale = true) ∧
    (scale_bars example_collab example_constants example_visualizer 100 [8, 0, 4, 16, 3]).1
      = [49, -1, 24, 99, 71 / 4] ∧
    ∀ x ∈ (scale_bars example_collab example_constants example_visualizer 100
        [8, 0, 4, 16, 3]).1, -1 ≤ x ∧ x ≤ ((100 : ℤ) : ℚ) - 1 :=
  ⟨⟨by decide, rfl⟩, by decide!,
   (scale_bars_auto_range example_collab example_constants example_visualizer 100
      [8, 0, 4, 16, 3] (by decide) rfl).2.2.2.2 (by decide)
      (by intro b hb; simp at hb; rcases hb with h | h | h | h | h <;> rw [h] <;> norm_num)⟩

end audio

namespace audio

/-! ## The sleeping tick and the exposed last values -/

/-- A tick whose updated silence counter is not below 5 only clears "can draw" after lines
156–180. -/
theorem tick_asleep (E : Collab) (seconds : ℚ) (cfg : source.config) (s : audio_processor)
    (h : ¬ (tick_count E seconds cfg s).m_sleep_counter < 5) :
    tick E seconds cfg s = { tick_count E seconds cfg s with m_can_draw := false } := by
  unfold tick
  simp only [h, if_false]

/-- A tick whose updated silence counter is below 5 runs the processing loop on the smoothed
state. -/
theorem tick_awake_eq (E : Collab) (seconds : ℚ) (cfg : source.config) (s : audio_processor)
    (h : (tick_count E seconds cfg s).m_sleep_counter < 5) :
    tick E seconds cfg s = tick_bands cfg (tick_smoothed E seconds cfg s) := by
  unfold tick tick_smoothed
  simp only [h, if_true]

theorem tick_count_sleep_counter (E : Collab) (seconds : ℚ) (cfg : source.config)
    (s : audio_processor) :
    (tick_count E seconds cfg s).m_sleep_counter = (tick E seconds cfg s).m_sleep_counter := by
  obtain ⟨l, r, hc, -⟩ := tick_count_shape E seconds cfg s
  rw [tick_sleep_counter, hc]

/-- C14. On a tick where the updated silence counter is 5 or more, `audio_processor::tick` sets
"can draw" to false and returns without any downstream processing: the spectra, the per-channel
band values, the combined output array, the decay counters, the remembered peaks, the stored
last values (`m_last_freqs`) and the integral memory are exactly what they were before the
tick. -/
theorem tick_sleeping_changes_nothing (E : Collab) (seconds : ℚ) (cfg : source.config)
    (s : audio_processor) (hsleep : 5 ≤ (tick E seconds cfg s).m_sleep_counter) :
    (tick E seconds cfg s).m_can_draw = false ∧
    (tick E seconds cfg s).m_fftw_out_l = s.m_fftw_out_l ∧
    (tick E seconds cfg s).m_fftw_out_r = s.m_fftw_out_r ∧
    (tick E seconds cfg s).m_freq_l = s.m_freq_l ∧
    (tick E seconds cfg s).m_freq_r = s.m_freq_r ∧
    (tick E seconds cfg s).m_freq_both = s.m_freq_both ∧
    (tick E seconds cfg s).m_fall_off = s.m_fall_off ∧
    (tick E seconds cfg s).m_freq_peak = s.m_freq_peak ∧
    (tick E seconds cfg s).m_last_freqs = s.m_last_freqs ∧
    (tick E seconds cfg s).m_freq_mem = s.m_freq_mem := by
  have h : ¬ (tick_count E seconds cfg s).m_sleep_counter < 5 := by
    rw [tick_count_sleep_counter]
    exact not_lt.mpr hsleep
  obtain ⟨l, r, hc, -⟩ := tick_count_shape E seconds cfg s
  rw [tick_asleep E seconds cfg s h, hc]
  exact ⟨rfl, rfl, rfl, rfl, rfl, rfl, rfl, rfl, rfl, rfl⟩

/-- Witness for C14: an all-zero block of 1 second on a state whose silence counter is 10. -/
theorem tick_sleeping_changes_nothing_witness :
    5 ≤ (tick example_collab 1 (example_config false)
        { example_state 1 (impulse 0) (impulse 0) with m_sleep_counter := 10 }).m_sleep_counter ∧
    (tick example_collab 1 (example_config false)
        { example_state 1 (impulse 0) (impulse 0) with m_sleep_counter := 10 }).m_can_draw
      = false :=
  ⟨by decide!,
   (tick_sleeping_changes_nothing example_collab 1 (example_config false)
      { example_state 1 (impulse 0) (impulse 0) with m_sleep_counter := 10 } (by decide!)).1⟩

/-- C15 (counterexample). Two non-sleeping mono ticks on all-zero blocks: the pre-falloff
(post-smoothing) value of band 0 in the first tick is 0, the first tick's output for the band is
1 (the clamp), and `get_last_freqs` after the second tick gives 1, not 0. -/
theorem get_last_freqs_is_not_pre_falloff :
    (tick example_collab 1 (example_config false)
        (example_state 1 (impulse 0) (impulse 0))).m_can_draw = true ∧
    (tick example_collab 1 (example_config false)
        (tick example_collab 1 (example_config false)
          (example_state 1 (impulse 0) (impulse 0)))).m_can_draw = true ∧
    (tick_smoothed example_collab 1 (example_config false)
        (example_state 1 (impulse 0) (impulse 0))).m_freq_both 0 = 0 ∧
    get_freqs (tick example_collab 1 (example_config false)
        (example_state 1 (impulse 0) (impulse 0))) 0 = 1 ∧
    get_last_freqs (tick example_collab 1 (example_config false)
        (tick example_collab 1 (example_config false)
          (example_state 1 (impulse 0) (impulse 0)))) 0 = 1 := by
  decide!

/-- C15 (amended). After a tick `t` that follows a tick `t-1` (sleeping or not, whatever block
was delivered in between), the array returned by `get_last_freqs` holds, at every index below
`2 * detail`, the value `get_freqs` returned after tick `t-1`: the band's final output of that
tick, after falloff, integration and the clamp. -/
theorem get_last_freqs_is_previous_output (E : Collab) (seconds1 seconds2 : ℚ)
    (cfg : source.config) (s : audio_processor) (left right : ℕ → ℚ) (k : ℕ)
    (hk : k < cfg.detail * 2) :
    get_last_freqs (tick E seconds2 cfg (feed left right (tick E seconds1 cfg s))) k
      = get_freqs (tick E seconds1 cfg s) k := by
  obtain ⟨l, r, ol, outr, fl, fr, both, fall, peak, last, mem, lf, h, -⟩ :=
    tick_shape E seconds2 cfg (feed left right (tick E seconds1 cfg s))
  rw [h]
  simp only [get_last_freqs, get_freqs, memcpy, feed, Nat.zero_le, true_and, zero_add, hk,
    if_true, Nat.sub_zero]

/-- Witness for C15 (amended): the two mono ticks on all-zero blocks, index 0. -/
theorem get_last_freqs_is_previous_output_witness :
    0 < (example_config false).detail * 2 ∧
    get_last_freqs (tick example_collab 1 (example_config false)
        (feed (impulse 0) (impulse 0) (tick example_collab 1 (example_config false)
          (example_state 1 (impulse 0) (impulse 0))))) 0
      = get_freqs (tick example_collab 1 (example_config false)
          (example_state 1 (impulse 0) (impulse 0))) 0 :=
  ⟨by decide, get_last_freqs_is_previous_output example_collab 1 1 (example_config false)
    (example_state 1 (impulse 0) (impulse 0)) (impulse 0) (impulse 0) 0 (by decide)⟩

end audio

namespace audio

/-! ## Falloff and the leaky integral -/

/-- What a non-sleeping tick has changed when it reaches the processing loop. -/
theorem tick_smoothed_shape (E : Collab) (seconds : ℚ) (cfg : source.config)
    (s : audio_processor) :
    ∃ l r ol outr fl fr both d cnt, tick_smoothed E seconds cfg s
        = { s with
            m_last_freqsd := d
            m_fftw_in_l := l
            m_fftw_in_r := r
            m_sleep_counter := cnt
            m_can_draw := true
            log_flag := true
            m_fftw_out_l := ol, m_fftw_out_r := outr, m_freq_l := fl, m_freq_r := fr
            m_freq_both := both } := by
  obtain ⟨l, r, hc, -⟩ := tick_count_shape E seconds cfg s
  obtain ⟨ol, outr, fl, fr, h1⟩ := tick_extract_shape E cfg
    { tick_count E seconds cfg s with m_can_draw := true, log_flag := true }
  obtain ⟨fl2, fr2, h2⟩ := tick_filter_shape cfg (tick_extract E cfg
    { tick_count E seconds cfg s with m_can_draw := true, log_flag := true })
  refine ⟨l, r, ol, outr, fl2, fr2,
    (tick_smoothed E seconds cfg s).m_freq_both,
    memcpy s.m_last_freqsd 0 s.m_freq_both (cfg.detail * 2),
    if (tick_samples E s).2 then s.m_sleep_counter + seconds else 0, ?_⟩
  unfold tick_smoothed tick_copy
  rw [h2, h1, hc]

theorem tick_band_fall_off_nonneg (cfg : source.config) (o : ℕ) (s : audio_processor)
    (h : ∀ k, 0 ≤ s.m_fall_off k) : ∀ k, 0 ≤ (tick_band cfg o s).m_fall_off k := by
  intro k
  have hk := h k
  have ho := h o
  unfold tick_band tick_clamp tick_integral tick_falloff
  dsimp only
  by_cases hko : k = o
  · subst hko
    split_ifs <;> simp <;> omega
  · split_ifs <;> simp [Function.update_noteq hko] <;> exact hk

/-- A tick keeps the decay counters non-negative. -/
theorem tick_fall_off_nonneg (E : Collab) (seconds : ℚ) (cfg : source.config)
    (s : audio_processor) (h : ∀ k, 0 ≤ s.m_fall_off k) :
    ∀ k, 0 ≤ (tick E seconds cfg s).m_fall_off k := by
  by_cases hlt : (tick_count E seconds cfg s).m_sleep_counter < 5
  · rw [tick_awake_eq E seconds cfg s hlt]
    unfold tick_bands
    refine for_loop_invariant (fun t : audio_processor => ∀ k, 0 ≤ t.m_fall_off k) _ ?_ _ _ ?_
    · intro o t ht
      exact tick_band_fall_off_nonneg cfg o t ht
    · obtain ⟨l, r, ol, outr, fl, fr, both, d, cnt, hs⟩ := tick_smoothed_shape E seconds cfg s
      rw [hs]
      exact h
  · obtain ⟨l, r, hc, -⟩ := tick_count_shape E seconds cfg s
    rw [tick_asleep E seconds cfg s hlt, hc]
    exact h

/-- The loop of `update` writes the cut-off tables and the weights only. -/
theorem update_loop_shape (E : Collab) (cfg : source.config) (fconst : ℚ)
    (s0 : audio_processor) (n : ℕ) :
    ∃ low high w, for_loop n (update_band E cfg fconst) s0
      = { s0 with m_low_freq_cut := low, m_high_freq_cut := high, m_freq_weight := w } := by
  refine for_loop_invariant (fun t => ∃ low high w, t
    = { s0 with m_low_freq_cut := low, m_high_freq_cut := high, m_freq_weight := w }) _ ?_ n s0
    ⟨_, _, _, rfl⟩
  rintro k t ⟨low, high, w, rfl⟩
  exact ⟨_, _, _, rfl⟩

/-- In every reachable state the decay counters are non-negative. -/
theorem reachable_fall_off_nonneg (E : Collab) (s : audio_processor) (h : reachable E s) :
    ∀ k, 0 ≤ s.m_fall_off k := by
  induction h with
  | after_update cfg s =>
    obtain ⟨low, high, w, hs⟩ := update_loop_shape E cfg
      (E.log10 (cfg.freq_cutoff_low / cfg.freq_cutoff_high) / (1 / ((cfg.detail : ℚ) + 1) - 1))
      { s with
        m_buf_size := cfg.buffer_size * cfg.buffer_size
        m_samples := 2 * (cfg.buffer_size * cfg.buffer_size / 2 + 1)
        m_channels := if cfg.stereo then 2 else 1
        m_eq_dist := 64 / (cfg.detail : ℚ)
        m_sleep_counter := 0
        m_fall_off := fun _ => 0
        m_last_freqs := fun _ => 0
        m_last_freqsd := fun _ => 0
        m_freq_mem := fun _ => 0
        m_freq_both := fun _ => 0
        m_low_freq_cut := fun _ => 0
        m_high_freq_cut := fun _ => 0
        m_freq_l := fun _ => 0
        m_freq_r := fun _ => 0
        m_freq_peak := fun _ => 0
        m_freq_weight := fun _ => 0
        m_fftw_in_l := fun _ => 0
        m_fftw_in_r := fun _ => 0
        m_fftw_out_l := fun _ => (0, 0)
        m_fftw_out_r := fun _ => (0, 0)
        m_current_gravity :=
          cfg.gravity * ((cfg.bar_height : ℚ) / 2160) * E.pow (60 / (cfg.fps : ℚ)) (5 / 2) }
      (cfg.detail + 1)
    intro k
    unfold update
    dsimp only
    rw [hs]
  | after_tick seconds cfg s _ ih => exact tick_fall_off_nonneg E seconds cfg s ih
  | after_block left right s _ ih => exact ih

/-- C17. With gravity > 0, the falloff step of `audio_processor::tick` is, for every band `o`:
if the current value is less than the stored last value, the value becomes
`peak[o] - gravity * counter[o]^2` (with the counter's value before the step, stored as an
integer), `counter[o]` increases by exactly 1 and `peak[o]` is unchanged; otherwise `peak[o]`
becomes the current value, `counter[o]` becomes 0 and the value is unchanged.  In every
reachable state `counter[o] ≥ 0`. -/
theorem falloff_step (E : Collab) (s : audio_processor) (o : ℕ)
    (hg : s.m_current_gravity > 0) :
    (s.m_freq_both o < s.m_last_freqs o →
      (tick_falloff o s).m_freq_both o
          = to_int (s.m_freq_peak o - s.m_current_gravity * s.m_fall_off o * s.m_fall_off o) ∧
      (tick_falloff o s).m_fall_off o = s.m_fall_off o + 1 ∧
      (tick_falloff o s).m_freq_peak o = s.m_freq_peak o) ∧
    (¬ s.m_freq_both o < s.m_last_freqs o →
      (tick_falloff o s).m_freq_peak o = (s.m_freq_both o : ℚ) ∧
      (tick_falloff o s).m_fall_off o = 0 ∧
      (tick_falloff o s).m_freq_both o = s.m_freq_both o) ∧
    (∀ t, reachable E t → 0 ≤ t.m_fall_off o) := by
  refine ⟨?_, ?_, fun t ht => reachable_fall_off_nonneg E t ht o⟩
  · intro hlt
    unfold tick_falloff
    simp only [hg, hlt, if_true, Function.update_same, and_self]
  · intro hge
    unfold tick_falloff
    simp only [hg, hge, if_true, if_false, Function.update_same, and_self]

/-- Witness for C17: gravity 1, peak 10, counter 1, current value 3 below the last value 8: the
value becomes 9 and the counter 2. -/
theorem falloff_step_witness :
    ({ example_state 1 (impulse 0) (impulse 0) with
        m_current_gravity := 1, m_freq_both := fun _ => 3, m_last_freqs := fun _ => 8,
        m_freq_peak := fun _ => 10, m_fall_off := fun _ => 1 } : audio_processor).m_current_gravity
      > 0 ∧
    (tick_falloff 0 { example_state 1 (impulse 0) (impulse 0) with
        m_current_gravity := 1, m_freq_both := fun _ => 3, m_last_freqs := fun _ => 8,
        m_freq_peak := fun _ => 10, m_fall_off := fun _ => 1 }).m_fall_off 0 = 1 + 1 :=
  ⟨by decide!,
   ((falloff_step example_collab { example_state 1 (impulse 0) (impulse 0) with
        m_current_gravity := 1, m_freq_both := fun _ => 3, m_last_freqs := fun _ => 8,
        m_freq_peak := fun _ => 10, m_fall_off := fun _ => 1 } 0 (by decide!)).1
      (by decide)).2.1⟩

/-- C18 (counterexample). Gravity 1, peak 10, counter 1, post-smoothing value 3 below the last
value 8 (the decaying case): the falloff step overwrites the value with 9 and stores 9 as the
last value for the next tick, not the post-smoothing value 3. -/
theorem last_value_is_stored_after_falloff :
    (tick_falloff 0 { example_state 1 (impulse 0) (impulse 0) with
        m_current_gravity := 1, m_freq_both := fun _ => 3, m_last_freqs := fun _ => 8,
        m_freq_peak := fun _ => 10, m_fall_off := fun _ => 1 }).m_freq_both 0 = 9 ∧
    (tick_falloff 0 { example_state 1 (impulse 0) (impulse 0) with
        m_current_gravity := 1, m_freq_both := fun _ => 3, m_last_freqs := fun _ => 8,
        m_freq_peak := fun _ => 10, m_fall_off := fun _ => 1 }).m_last_freqs 0 = 9 ∧
    (tick_band (example_config false) 0 { example_state 1 (impulse 0) (impulse 0) with
        m_current_gravity := 1, m_freq_both := fun _ => 3, m_last_freqs := fun _ => 8,
        m_freq_peak := fun _ => 10, m_fall_off := fun _ => 1 }).m_last_freqs 0 = 9 := by
  decide!

/-- C18 (amended). With gravity > 0, the "last value" that `audio_processor::tick` stores for a
band for use by the next tick is the band's value after the falloff branch and before the
integral and the clamp: in the non-decaying case the post-smoothing value of this tick, in the
decaying case the decayed value `peak - gravity * counter^2` that overwrote it. -/
theorem last_value_stored (cfg : source.config) (s : audio_processor) (o : ℕ)
    (hg : s.m_current_gravity > 0) :
    (tick_band cfg o s).m_last_freqs o = (tick_falloff o s).m_freq_both o ∧
    (¬ s.m_freq_both o < s.m_last_freqs o →
      (tick_band cfg o s).m_last_freqs o = s.m_freq_both o) ∧
    (s.m_freq_both o < s.m_last_freqs o →
      (tick_band cfg o s).m_last_freqs o
        = to_int (s.m_freq_peak o - s.m_current_gravity * s.m_fall_off o * s.m_fall_off o)) := by
  have h1 : (tick_band cfg o s).m_last_freqs o = (tick_falloff o s).m_last_freqs o := by
    unfold tick_band tick_clamp tick_integral
    dsimp only
    split_ifs <;> rfl
  have h2 : (tick_falloff o s).m_last_freqs o = (tick_falloff o s).m_freq_both o := by
    unfold tick_falloff
    simp only [hg, if_true, Function.update_same]
  refine ⟨h1.trans h2, ?_, ?_⟩
  · intro hge
    rw [h1, h2]
    unfold tick_falloff
    simp only [hg, hge, if_true, if_false]
  · intro hlt
    rw [h1, h2]
    unfold tick_falloff
    simp only [hg, hlt, if_true, Function.update_same]

/-- Witness for C18 (amended): the state of the counterexample. -/
theorem last_value_stored_witness :
    ({ example_state 1 (impulse 0) (impulse 0) with
        m_current_gravity := 1, m_freq_both := fun _ => 3, m_last_freqs := fun _ => 8,
        m_freq_peak := fun _ => 10, m_fall_off := fun _ => 1 } : audio_processor).m_current_gravity
      > 0 ∧
    (tick_band (example_config false) 0 { example_state 1 (impulse 0) (impulse 0) with
        m_current_gravity := 1, m_freq_both := fun _ => 3, m_last_freqs := fun _ => 8,
        m_freq_peak := fun _ => 10, m_fall_off := fun _ => 1 }).m_last_freqs 0
      = (tick_falloff 0 { example_state 1 (impulse 0) (impulse 0) with
        m_current_gravity := 1, m_freq_both := fun _ => 3, m_last_freqs := fun _ => 8,
        m_freq_peak := fun _ => 10, m_fall_off := fun _ => 1 }).m_freq_both 0 :=
  ⟨by decide!,
   (last_value_stored (example_config false) { example_state 1 (impulse 0) (impulse 0) with
        m_current_gravity := 1, m_freq_both := fun _ => 3, m_last_freqs := fun _ => 8,
        m_freq_peak := fun _ => 10, m_fall_off := fun _ => 1 } 0 (by decide!)).1⟩

end audio

namespace audio

theorem integral_diff_nonneg (cfg : source.config) (value : ℤ) : 0 ≤ integral_diff cfg value := by
  unfold integral_diff
  dsimp only
  split_ifs with h
  · exact le_refl 0
  · exact not_lt.mp h

theorem integral_retention_lt (d1 d2 : ℤ) (h0 : 0 ≤ d1) (h : d1 < d2) :
    integral_retention d1 < integral_retention d2 := by
  unfold integral_retention
  dsimp only
  have h1 : (0 : ℚ) < (d1 : ℚ) + 1 := by
    have : (0 : ℚ) ≤ (d1 : ℚ) := by exact_mod_cast h0
    linarith
  have h2 : (d1 : ℚ) + 1 < (d2 : ℚ) + 1 := by
    have : (d1 : ℚ) < (d2 : ℚ) := by exact_mod_cast h
    linarith
  have h3 : 1 / ((d2 : ℚ) + 1) < 1 / ((d1 : ℚ) + 1) := one_div_lt_one_div_of_lt h1 h2
  linarith

/-- C19 (counterexample). Bar height 100: a value at the ceiling 101 has `diff = 0` and
retention factor 19/20, a value 9 below it has `diff = 9` and retention factor 199/200: the
smaller `diff` has the smaller retention factor, so the memory decays faster, not more
slowly. -/
theorem integral_retention_smaller_near_ceiling :
    integral_diff (example_config false) 101 = 0 ∧
    integral_diff (example_config false) 92 = 9 ∧
    integral_retention 0 = 19 / 20 ∧
    integral_retention 9 = 199 / 200 ∧
    integral_retention 0 < integral_retention 9 := by
  decide!

/-- C19 (amended). In the leaky-integral step of `audio_processor::tick` (integral > 0) the value
becomes `memory * integral + value`, and the memory becomes that value multiplied by the
retention factor `1 - 1/(20*(diff + 1))` with `diff = max(0, bar_height + 1 - value)` (stored as
an integer); a value closer to the ceiling `bar_height + 1` (smaller `diff`) makes the memory
decay faster: the retention factor is strictly smaller for smaller `diff`. -/
theorem integral_retention_increasing (cfg : source.config) (s : audio_processor) (o : ℕ)
    (value1 value2 : ℤ) (hi : cfg.integral > 0)
    (hcloser : integral_diff cfg value1 < integral_diff cfg value2) :
    (tick_integral cfg o s).m_freq_both o
        = to_int ((s.m_freq_mem o : ℚ) * cfg.integral + s.m_freq_both o) ∧
    (tick_integral cfg o s).m_freq_mem o
        = to_int (((tick_integral cfg o s).m_freq_both o : ℚ)
            * integral_retention (integral_diff cfg ((tick_integral cfg o s).m_freq_both o))) ∧
    integral_retention (integral_diff cfg value1)
        < integral_retention (integral_diff cfg value2) := by
  refine ⟨?_, ?_, integral_retention_lt _ _ (integral_diff_nonneg cfg value1) hcloser⟩
  · unfold tick_integral
    simp only [hi, if_true, Function.update_same]
  · unfold tick_integral integral_retention integral_diff
    simp only [hi, if_true, Function.update_same, Function.update_idem]

/-- Witness for C19 (amended): integral coefficient 1/2, bar height 100, the values 101 and
92. -/
theorem integral_retention_increasing_witness :
    (({ example_config false with integral := 1 / 2 } : source.config).integral > 0 ∧
      integral_diff { example_config false with integral := 1 / 2 } 101
        < integral_diff { example_config false with integral := 1 / 2 } 92) ∧
    integral_retention (integral_diff { example_config false with integral := 1 / 2 } 101)
      < integral_retention (integral_diff { example_config false with integral := 1 / 2 } 92) :=
  ⟨⟨by decide!, by decide!⟩,
   (integral_retention_increasing { example_config false with integral := 1 / 2 }
      (example_state 1 (impulse 0) (impulse 0)) 0 101 92 (by decide!) (by decide!)).2.2⟩

end audio

namespace audio

/-! ## Auto-scaling on a constant signal -/

theorem sum_of_constant (l : List ℚ) (a : ℚ) (h : ∀ x ∈ l, x = a) :
    l.sum = (l.length : ℚ) * a := by
  induction l with
  | nil => simp
  | cons x t ih =>
    have hx : x = a := h x (List.mem_cons_self x t)
    have ht : ∀ y ∈ t, y = a := fun y hy => h y (List.mem_cons_of_mem x hy)
    rw [List.sum_cons, ih ht, hx, List.length_cons]
    push_cast
    ring

theorem sum_squares_of_constant (l : List ℚ) (a : ℚ) (h : ∀ x ∈ l, x = a) :
    (List.zipWith (· * ·) l l).sum = (l.length : ℚ) * (a * a) := by
  induction l with
  | nil => simp
  | cons x t ih =>
    have hx : x = a := h x (List.mem_cons_self x t)
    have ht : ∀ y ∈ t, y = a := fun y hy => h y (List.mem_cons_of_mem x hy)
    rw [List.zipWith_cons_cons, List.sum_cons, ih ht, hx, List.length_cons]
    push_cast
    ring

/-- On a window of equal values `a`, pushing `a` leaves a window of equal values `a`, moving
average `a` and standard deviation `sqrt 0`. -/
theorem calculate_of_constant (E : Collab) (a : ℚ) (n : ℕ) (w : List ℚ)
    (hw : ∀ x ∈ w, x = a) :
    (∀ x ∈ (calculate_moving_average_and_std_dev E a n w).1, x = a) ∧
    (calculate_moving_average_and_std_dev E a n w).2.1 = a ∧
    (calculate_moving_average_and_std_dev E a n w).2.2 = E.sqrt 0 := by
  have hall : ∀ x ∈ (if w.length > n then w.tail else w) ++ [a], x = a := by
    intro x hx
    rw [List.mem_append] at hx
    rcases hx with hx | hx
    · split_ifs at hx
      · exact hw x (List.mem_of_mem_tail hx)
      · exact hw x hx
    · simpa using hx
  have hlen : (((if w.length > n then w.tail else w) ++ [a]).length : ℚ) ≠ 0 := by
    rw [List.length_append, List.length_singleton]
    push_cast
    positivity
  unfold calculate_moving_average_and_std_dev
  dsimp only
  rw [sum_of_constant _ a hall, sum_squares_of_constant _ a hall]
  refine ⟨hall, ?_, ?_⟩
  · field_simp
  · congr 1
    field_simp
    ring

/-- The reset check keeps a window of equal values `a` with statistics `(a, sqrt 0)` in that
shape. -/
theorem maybe_reset_of_constant (E : Collab) (C : constants) (a : ℚ) (n : ℕ) (w : List ℚ)
    (hw : ∀ x ∈ w, x = a) :
    (∀ x ∈ (maybe_reset_scaling_window E C a n w a (E.sqrt 0)).1, x = a) ∧
    (maybe_reset_scaling_window E C a n w a (E.sqrt 0)).2.1 = a ∧
    (maybe_reset_scaling_window E C a n w a (E.sqrt 0)).2.2 = E.sqrt 0 := by
  unfold maybe_reset_scaling_window
  dsimp only
  split_ifs
  · exact calculate_of_constant E a n _ (fun x hx => hw x (List.mem_of_mem_drop hx))
  · exact ⟨hw, rfl, rfl⟩
  · exact ⟨hw, rfl, rfl⟩

/-- The statistics of the auto-scale branch when the window holds only the value `a` and the
maximum bar is `a`. -/
theorem auto_scale_statistics_of_constant (E : Collab) (C : constants)
    (sv : spectrum_visualizer) (bars : List ℚ) (a : ℚ)
    (hw : ∀ x ∈ sv.m_previous_max_heights, x = a) (hmax : max_element bars = a) :
    (∀ x ∈ (auto_scale_statistics E C sv bars).1, x = a) ∧
    (auto_scale_statistics E C sv bars).2.1 = a ∧
    (auto_scale_statistics E C sv bars).2.2 = E.sqrt 0 := by
  unfold auto_scale_statistics
  dsimp only
  rw [hmax]
  obtain ⟨h1, h2, h3⟩ := calculate_of_constant E a
    (to_int (((C.auto_scale_span * (sv.sample_rate : ℚ)) / (sv.sample_size : ℚ)) * 2)).toNat
    sv.m_previous_max_heights hw
  rw [h2, h3]
  exact maybe_reset_of_constant E C a _ _ h1

/-- One call of `scale_bars` on bars with maximum `a` keeps the mode and a window of equal
values `a`. -/
theorem scale_bars_of_constant (E : Collab) (C : constants) (sv : spectrum_visualizer)
    (height : ℤ) (bars : List ℚ) (a : ℚ)
    (hw : ∀ x ∈ sv.m_previous_max_heights, x = a) (hmax : max_element bars = a) :
    (scale_bars E C sv height bars).2.m_auto_scale = sv.m_auto_scale ∧
    (scale_bars E C sv height bars).2.sample_rate = sv.sample_rate ∧
    (scale_bars E C sv height bars).2.sample_size = sv.sample_size ∧
    ∀ x ∈ (scale_bars E C sv height bars).2.m_previous_max_heights, x = a := by
  unfold scale_bars
  split_ifs
  · exact ⟨rfl, rfl, rfl, hw⟩
  · exact ⟨rfl, rfl, rfl, (auto_scale_statistics_of_constant E C sv bars a hw hmax).1⟩
  · exact ⟨rfl, rfl, rfl, hw⟩

/-- A run of `scale_bars` calls on bars with maximum `a` keeps a window of equal values `a`. -/
theorem scale_run_of_constant (E : Collab) (C : constants) (height : ℤ) (a : ℚ)
    (ticks : List (List ℚ)) :
    ∀ sv : spectrum_visualizer, (∀ x ∈ sv.m_previous_max_heights, x = a) →
      (∀ b ∈ ticks, max_element b = a) →
      ∀ x ∈ (scale_run E C height ticks sv).m_previous_max_heights, x = a := by
  induction ticks with
  | nil => intro sv hw _; exact hw
  | cons b rest ih =>
    intro sv hw hticks
    exact ih _ (scale_bars_of_constant E C sv height b a hw
        (hticks b (List.mem_cons_self b rest))).2.2.2
      (fun c hc => hticks c (List.mem_cons_of_mem b hc))

/-- C11 (counterexample). Target window size 2 (a 30 second span at 1 Hz with 30 samples per
block), empty window, the bars `8, 0, 4, 16, 3` (maximum 16) on three consecutive ticks: the
ceiling used by the fourth tick is 16, not `3 * 16 = 48`. -/
theorem scale_ceiling_is_not_three_times_amplitude :
    (to_int (((example_constants.auto_scale_span * (1 : ℚ)) / (30 : ℚ)) * 2)).toNat = 2 ∧
    max_element [8, 0, 4, 16, 3] = 16 ∧
    scale_ceiling example_collab example_constants
        (scale_run example_collab example_constants 100
          [[8, 0, 4, 16, 3], [8, 0, 4, 16, 3], [8, 0, 4, 16, 3]]
          { example_visualizer with sample_rate := 1, sample_size := 30 })
        [8, 0, 4, 16, 3] = 16 := by
  decide!

/-- C11 (amended). When `scale_bars` runs in auto-scale mode, starting from an empty window, on
any number of consecutive ticks (in particular on more than the window's target size), and the
maximum bar is the same amplitude `a ≥ 1` on every tick, the scale ceiling
(`moving_average + 2*std_dev`, floored at 1) is `a` on every tick: the moving average is `a`
and the standard deviation is `sqrt 0 = 0`. -/
theorem scale_ceiling_constant_signal (E : Collab) (C : constants) (sv : spectrum_visualizer)
    (height : ℤ) (ticks : List (List ℚ)) (bars : List ℚ) (a : ℚ)
    (hsqrt : E.sqrt 0 = 0)
    (hempty : sv.m_previous_max_heights = [])
    (hticks : ∀ b ∈ ticks, max_element b = a)
    (hbars : max_element bars = a)
    (ha : 1 ≤ a) :
    (auto_scale_statistics E C (scale_run E C height ticks sv) bars).2.1 = a ∧
    (auto_scale_statistics E C (scale_run E C height ticks sv) bars).2.2 = 0 ∧
    scale_ceiling E C (scale_run E C height ticks sv) bars = a := by
  have hw : ∀ x ∈ (scale_run E C height ticks sv).m_previous_max_heights, x = a :=
    scale_run_of_constant E C height a ticks sv (by rw [hempty]; simp) hticks
  obtain ⟨-, h2, h3⟩ := auto_scale_statistics_of_constant E C
    (scale_run E C height ticks sv) bars a hw hbars
  refine ⟨h2, h3.trans hsqrt, ?_⟩
  unfold scale_ceiling
  dsimp only
  rw [h2, h3, hsqrt]
  simpa using ha

/-- Witness for C11 (amended): the run of the counterexample. -/
theorem scale_ceiling_constant_signal_witness :
    (example_collab.sqrt 0 = 0 ∧ max_element [8, 0, 4, 16, 3] = 16 ∧ (1 : ℚ) ≤ 16) ∧
    scale_ceiling example_collab example_constants
        (scale_run example_collab example_constants 100
          [[8, 0, 4, 16, 3], [8, 0, 4, 16, 3], [8, 0, 4, 16, 3]]
          { example_visualizer with sample_rate := 1, sample_size := 30 })
        [8, 0, 4, 16, 3] = 16 :=
  ⟨⟨by decide!, by decide!, by norm_num⟩,
   (scale_ceiling_constant_signal example_collab example_constants
      { example_visualizer with sample_rate := 1, sample_size := 30 } 100
      [[8, 0, 4, 16, 3], [8, 0, 4, 16, 3], [8, 0, 4, 16, 3]] [8, 0, 4, 16, 3] 16
      (by decide!) rfl
      (by intro b hb; simp at hb; rw [hb]; decide!)
      (by decide!) (by norm_num)).2.2⟩

end audio

namespace audio

/-! ## The stateless configuration -/

theorem tick_samples_with_memory (E : Collab) (s : audio_processor) (fall : ℕ → ℤ)
    (peak : ℕ → ℚ) (last mem : ℕ → ℤ) :
    tick_samples E (with_memory s fall peak last mem)
      = (with_memory (tick_samples E s).1 fall peak last mem, (tick_samples E s).2) := by
  unfold tick_samples
  have h := for_loop_rel
    (fun (p q : audio_processor × Bool) => q = (with_memory p.1 fall peak last mem, p.2))
    (tick_sample E) (tick_sample E)
    (by
      rintro k ⟨t, b⟩ q rfl
      unfold tick_sample with_memory
      dsimp only
      split_ifs <;> rfl)
    s.m_samples (s, true) (with_memory s fall peak last mem, true) rfl
  exact h

theorem tick_count_with_memory (E : Collab) (seconds : ℚ) (cfg : source.config)
    (s : audio_processor) (fall : ℕ → ℤ) (peak : ℕ → ℚ) (last mem : ℕ → ℤ) :
    tick_count E seconds cfg (with_memory s fall peak last mem)
      = with_memory (tick_count E seconds cfg s) fall peak last mem := by
  have h := tick_samples_with_memory E
    { s with m_last_freqsd := memcpy s.m_last_freqsd 0 s.m_freq_both (cfg.detail * 2) }
    fall peak last mem
  have hs : ({ with_memory s fall peak last mem with
        m_last_freqsd := memcpy (with_memory s fall peak last mem).m_last_freqsd 0
          (with_memory s fall peak last mem).m_freq_both (cfg.detail * 2) } : audio_processor)
      = with_memory
        { s with m_last_freqsd := memcpy s.m_last_freqsd 0 s.m_freq_both (cfg.detail * 2) }
        fall peak last mem := rfl
  unfold tick_count
  dsimp only
  rw [hs, h]
  rfl

theorem separate_freq_bands_with_memory (E : Collab) (cfg : source.config) (detail : ℕ)
    (left_channel : Bool) (s : audio_processor) (fall : ℕ → ℤ) (peak : ℕ → ℚ)
    (last mem : ℕ → ℤ) :
    separate_freq_bands E cfg detail left_channel (with_memory s fall peak last mem)
      = with_memory (separate_freq_bands E cfg detail left_channel s) fall peak last mem := by
  unfold separate_freq_bands
  exact (for_loop_rel
    (fun (p q : audio_processor) => q = with_memory p fall peak last mem)
    (separate_freq_band E cfg left_channel) (separate_freq_band E cfg left_channel)
    (by
      rintro k t q rfl
      unfold separate_freq_band with_memory
      cases left_channel <;> rfl)
    detail s (with_memory s fall peak last mem) rfl)

theorem tick_smoothed_with_memory (E : Collab) (seconds : ℚ) (cfg : source.config)
    (s : audio_processor) (fall : ℕ → ℤ) (peak : ℕ → ℚ) (last mem : ℕ → ℤ) :
    tick_smoothed E seconds cfg (with_memory s fall peak last mem)
      = with_memory (tick_smoothed E seconds cfg s) fall peak last mem := by
  unfold tick_smoothed
  rw [tick_count_with_memory]
  have hext : ∀ t : audio_processor,
      tick_extract E cfg (with_memory t fall peak last mem)
        = with_memory (tick_extract E cfg t) fall peak last mem := by
    intro t
    unfold tick_extract
    by_cases hch : t.m_channels > 1
    · have hch2 : (with_memory t fall peak last mem).m_channels > 1 := hch
      simp only [hch, hch2, if_true]
      rw [← separate_freq_bands_with_memory, ← separate_freq_bands_with_memory]
      rfl
    · have hch2 : ¬ (with_memory t fall peak last mem).m_channels > 1 := hch
      simp only [hch, hch2, if_false]
      rw [← separate_freq_bands_with_memory]
      rfl
  have hfil : ∀ t : audio_processor,
      tick_filter cfg (with_memory t fall peak last mem)
        = with_memory (tick_filter cfg t) fall peak last mem := by
    intro t
    unfold tick_filter
    split
    · by_cases hch : t.m_channels > 1
      · have hch2 : (with_memory t fall peak last mem).m_channels > 1 := hch
        simp only [hch, hch2, if_true]
        rfl
      · have hch2 : ¬ (with_memory t fall peak last mem).m_channels > 1 := hch
        simp only [hch, hch2, if_false]
        rfl
    · by_cases hch : t.m_channels > 1
      · have hch2 : (with_memory t fall peak last mem).m_channels > 1 := hch
        simp only [hch, hch2, if_true]
        rfl
      · have hch2 : ¬ (with_memory t fall peak last mem).m_channels > 1 := hch
        simp only [hch, hch2, if_false]
        rfl
    · rfl
  have hcopy : ∀ t : audio_processor,
      tick_copy cfg (with_memory t fall peak last mem)
        = with_memory (tick_copy cfg t) fall peak last mem := fun t => rfl
  have hflag : ({ with_memory (tick_count E seconds cfg s) fall peak last mem with
        m_can_draw := true, log_flag := true } : audio_processor)
      = with_memory { tick_count E seconds cfg s with m_can_draw := true, log_flag := true }
          fall peak last mem := rfl
  rw [hflag, hext, hfil, hcopy]

/-- Without gravity and without integral an iteration of the processing loop is the clamp. -/
theorem tick_band_stateless (cfg : source.config) (o : ℕ) (s : audio_processor)
    (hg : s.m_current_gravity = 0) (hi : cfg.integral = 0) :
    tick_band cfg o s = tick_clamp o s := by
  unfold tick_band tick_integral tick_falloff
  simp [hg, hi]

theorem tick_bands_with_memory (cfg : source.config) (s : audio_processor) (fall : ℕ → ℤ)
    (peak : ℕ → ℚ) (last mem : ℕ → ℤ) (hg : s.m_current_gravity = 0)
    (hi : cfg.integral = 0) :
    tick_bands cfg (with_memory s fall peak last mem)
      = with_memory (tick_bands cfg s) fall peak last mem := by
  unfold tick_bands
  exact (for_loop_rel
    (fun (p q : audio_processor) =>
      p.m_current_gravity = 0 ∧ q = with_memory p fall peak last mem)
    (tick_band cfg) (tick_band cfg)
    (by
      rintro k t q ⟨htg, rfl⟩
      have hqg : (with_memory t fall peak last mem).m_current_gravity = 0 := htg
      rw [tick_band_stateless cfg k t htg hi, tick_band_stateless cfg k _ hqg hi]
      unfold tick_clamp with_memory
      dsimp only
      refine ⟨?_, ?_⟩
      · split_ifs <;> exact htg
      · split_ifs <;> rfl)
    _ s (with_memory s fall peak last mem) ⟨hg, rfl⟩).2

/-- Gravity 0 in the configuration gives gravity 0 in the processor. -/
theorem update_gravity_zero (E : Collab) (cfg : source.config) (s : audio_processor)
    (hg : cfg.gravity = 0) : (update E cfg s).m_current_gravity = 0 := by
  obtain ⟨low, high, w, hs⟩ := update_loop_shape E cfg
    (E.log10 (cfg.freq_cutoff_low / cfg.freq_cutoff_high) / (1 / ((cfg.detail : ℚ) + 1) - 1))
    { s with
      m_buf_size := cfg.buffer_size * cfg.buffer_size
      m_samples := 2 * (cfg.buffer_size * cfg.buffer_size / 2 + 1)
      m_channels := if cfg.stereo then 2 else 1
      m_eq_dist := 64 / (cfg.detail : ℚ)
      m_sleep_counter := 0
      m_fall_off := fun _ => 0
      m_last_freqs := fun _ => 0
      m_last_freqsd := fun _ => 0
      m_freq_mem := fun _ => 0
      m_freq_both := fun _ => 0
      m_low_freq_cut := fun _ => 0
      m_high_freq_cut := fun _ => 0
      m_freq_l := fun _ => 0
      m_freq_r := fun _ => 0
      m_freq_peak := fun _ => 0
      m_freq_weight := fun _ => 0
      m_fftw_in_l := fun _ => 0
      m_fftw_in_r := fun _ => 0
      m_fftw_out_l := fun _ => (0, 0)
      m_fftw_out_r := fun _ => (0, 0)
      m_current_gravity :=
        cfg.gravity * ((cfg.bar_height : ℚ) / 2160) * E.pow (60 / (cfg.fps : ℚ)) (5 / 2) }
    (cfg.detail + 1)
  unfold update
  dsimp only
  rw [hs, hg]
  simp

/-- With gravity = 0 and integral = 0 (and any filter mode, in particular none), the output
band array of an `audio_processor::tick` does not depend on the decay counters, the remembered
peaks, the stored last values or the integral memory that preceded it: two ticks given identical
input, spectrum buffers and configuration produce identical output arrays at every index, and
the tick leaves those four arrays as it found them.  Gravity 0 in the configuration is gravity 0
in the processor after `update`. -/
theorem tick_stateless (E : Collab) (seconds : ℚ) (cfg cfg0 : source.config)
    (s s0 : audio_processor) (fall : ℕ → ℤ) (peak : ℕ → ℚ) (last mem : ℕ → ℤ) (o : ℕ)
    (hg : s.m_current_gravity = 0) (hi : cfg.integral = 0) (hg0 : cfg0.gravity = 0) :
    (tick E seconds cfg (with_memory s fall peak last mem)).m_freq_both o
        = (tick E seconds cfg s).m_freq_both o ∧
    (tick E seconds cfg (with_memory s fall peak last mem)).m_can_draw
        = (tick E seconds cfg s).m_can_draw ∧
    tick E seconds cfg (with_memory s fall peak last mem)
        = with_memory (tick E seconds cfg s) fall peak last mem ∧
    (update E cfg0 s0).m_current_gravity = 0 := by
  have hcomm : tick E seconds cfg (with_memory s fall peak last mem)
      = with_memory (tick E seconds cfg s) fall peak last mem := by
    have hcnt : (tick_count E seconds cfg (with_memory s fall peak last mem)).m_sleep_counter
        = (tick_count E seconds cfg s).m_sleep_counter := by
      rw [tick_count_with_memory]
      rfl
    by_cases hlt : (tick_count E seconds cfg s).m_sleep_counter < 5
    · rw [tick_awake_eq E seconds cfg s hlt,
        tick_awake_eq E seconds cfg _ (by rw [hcnt]; exact hlt), tick_smoothed_with_memory]
      apply tick_bands_with_memory cfg _ fall peak last mem _ hi
      obtain ⟨l, r, ol, outr, fl, fr, both, d, cnt, hs⟩ := tick_smoothed_shape E seconds cfg s
      rw [hs]
      exact hg
    · rw [tick_asleep E seconds cfg s hlt,
        tick_asleep E seconds cfg _ (by rw [hcnt]; exact hlt), tick_count_with_memory]
      rfl
  refine ⟨?_, ?_, hcomm, update_gravity_zero E cfg0 s0 hg0⟩
  · rw [hcomm]
    rfl
  · rw [hcomm]
    rfl

/-- An instance of `tick_stateless`: a stereo tick on the blocks `10, 0, 0, 0` and `30, 0, 0, 0`, once from
zeroed memory and once from counters 4, peaks 50, last values 70 and memory 90: index 1 of the
output is 90 both times. -/
theorem tick_stateless_witness :
    ((example_state 2 (impulse 10) (impulse 30)).m_current_gravity = 0 ∧
      (example_config true).integral = 0 ∧ (example_config true).gravity = 0) ∧
    (tick example_collab 1 (example_config true)
        (with_memory (example_state 2 (impulse 10) (impulse 30))
          (fun _ => 4) (fun _ => 50) (fun _ => 70) (fun _ => 90))).m_freq_both 1
      = (tick example_collab 1 (example_config true)
          (example_state 2 (impulse 10) (impulse 30))).m_freq_both 1 ∧
    (tick example_collab 1 (example_config true)
        (example_state 2 (impulse 10) (impulse 30))).m_freq_both 1 = 90 :=
  ⟨⟨rfl, rfl, rfl⟩,
   (tick_stateless example_collab 1 (example_config true) (example_config true)
      (example_state 2 (impulse 10) (impulse 30)) (example_state 2 (impulse 10) (impulse 30))
      (fun _ => 4) (fun _ => 50) (fun _ => 70) (fun _ => 90) 1 rfl rfl rfl).1,
   by decide!⟩

end audio

namespace audio

/-! ## SGS smoothing on short arrays -/

theorem size_sub_of_le (a b : ℕ) (hb : b ≤ a) (ha : a < 2 ^ 64) : size_sub a b = a - b := by
  unfold size_sub
  have hb2 : b % 2 ^ 64 = b := Nat.mod_eq_of_lt (lt_of_le_of_lt hb ha)
  rw [hb2]
  have h : a + 2 ^ 64 - b = (a - b) + 2 ^ 64 := by omega
  rw [h, Nat.add_mod_right]
  exact Nat.mod_eq_of_lt (lt_of_le_of_lt (Nat.sub_le a b) ha)

theorem set_same (l : List ℚ) (i : ℕ) (hi : i < l.length) : l.set i (l[i]) = l := by
  induction l generalizing i with
  | nil => exact absurd hi (Nat.not_lt_zero i)
  | cons x t ih =>
    cases i with
    | zero => rfl
    | succ k =>
      simp only [List.set_cons_succ, List.getElem_cons_succ]
      rw [ih k (Nat.lt_of_succ_lt_succ hi)]

theorem vec_write_self (bars : List ℚ) (i : ℕ) (hi : i < bars.length) :
    vec_write bars i (bars[i]) = some bars := by
  unfold vec_write
  rw [if_pos hi, set_same bars i hi]

theorem sgs_edge_unchanged (bars : List ℚ) (i : ℕ) (hi : i < bars.length)
    (h64 : bars.length < 2 ^ 64) : sgs_edge bars i (some bars) = some bars := by
  have hk : size_sub (size_sub bars.length i) 1 = bars.length - i - 1 := by
    rw [size_sub_of_le _ _ (le_of_lt hi) h64,
      size_sub_of_le _ _ (by omega) (lt_of_le_of_lt (Nat.sub_le _ _) h64)]
  have hk2 : bars.length - i - 1 < bars.length := by omega
  unfold sgs_edge
  rw [hk]
  simp only [Option.some_bind, List.getElem?_eq_getElem hi, List.getElem?_eq_getElem hk2,
    vec_write_self bars i hi, vec_write_self bars _ hk2]

/-- A pass of `sgs_smoothing` over an array of at least `pivot` and at most `2 * pivot`
elements stays inside the array and leaves it unchanged. -/
theorem sgs_pass_short (pivot : ℕ) (bars : List ℚ) (h1 : pivot ≤ bars.length)
    (h2 : bars.length < 2 * pivot + 1) (h64 : bars.length < 2 ^ 64) :
    sgs_pass pivot bars bars = some bars := by
  have hedge : ∀ k, k ≤ pivot → for_loop k (sgs_edge bars) (some bars) = some bars := by
    intro k
    induction k with
    | zero => intro _; rfl
    | succ k ih =>
      intro hk
      rw [for_loop_succ, ih (by omega)]
      exact sgs_edge_unchanged bars k (by omega) h64
  have hcount : size_sub bars.length pivot - pivot = 0 := by
    rw [size_sub_of_le _ _ h1 h64]
    omega
  unfold sgs_pass
  rw [hedge pivot (le_refl _), hcount]
  rfl

/-- For `pivot ≤ length < 2 * pivot + 1` the function `sgs_smoothing` stays inside the array and
leaves all bands unchanged, for every number of passes. -/
theorem sgs_smoothing_short_in_range (sv : spectrum_visualizer) (bars : List ℚ)
    (h1 : sv.m_sgs_points / 2 ≤ bars.length)
    (h2 : bars.length < 2 * (sv.m_sgs_points / 2) + 1) (h64 : bars.length < 2 ^ 64) :
    sgs_smoothing sv bars = some bars := by
  unfold sgs_smoothing
  dsimp only
  have hloop : for_loop sv.m_sgs_passes.toNat
      (fun pass st => st.bind fun (st : List ℚ × List ℚ) =>
        (sgs_pass (sv.m_sgs_points / 2) st.1 st.2).map fun bars =>
          (if (pass : ℤ) < sv.m_sgs_passes - 1 then bars else st.1, bars))
      (some (bars, bars)) = some (bars, bars) := by
    refine for_loop_invariant (fun st => st = some (bars, bars)) _ ?_ _ _ rfl
    rintro k st rfl
    simp only [Option.some_bind, sgs_pass_short _ bars h1 h2 h64, Option.map_some', ite_self]
  rw [hloop]
  rfl

/-- C13 (the code at the failing input). With 3 points (`pivot = 1`) and one pass, on the empty
array the edge loop reads `original_bars[0]`, an index outside the array; with 4 points
(`pivot = 2`), on the one-element array `5` it reads `original_bars[1]`.  On the two-element
array `5, 7` with `pivot = 1` every access is inside and the array is unchanged. -/
theorem sgs_smoothing_reads_outside_short_array :
    example_visualizer.m_sgs_points / 2 = 1 ∧
    sgs_smoothing example_visualizer [] = none ∧
    sgs_edge [] 0 (some []) = none ∧
    sgs_smoothing { example_visualizer with m_sgs_points := 4 } [5] = none ∧
    sgs_smoothing example_visualizer [5, 7] = some [5, 7] := by
  decide!

end audio

namespace audio

/-! ## The range of the band table -/

/-- On non-negative values the conversion to `int` is the floor. -/
theorem to_int_of_nonneg (q : ℚ) (hq : 0 ≤ q) : to_int q = ⌊q⌋ := by
  unfold to_int
  rw [Int.tdiv_eq_ediv (Rat.num_nonneg.mpr hq) (Int.natCast_nonneg _), ← Rat.floor_def']
  rfl

theorem to_int_succ_ge_one (q : ℚ) (hq : 0 ≤ q) : 1 ≤ to_int (q + 1) := by
  rw [to_int_of_nonneg _ (by linarith), Int.floor_add_one]
  have : 0 ≤ ⌊q⌋ := Int.floor_nonneg.mpr hq
  omega

theorem to_int_succ_le (q : ℚ) (m : ℤ) (hq : 0 ≤ q) (hm : q ≤ (m : ℚ)) :
    to_int (q + 1) ≤ m + 1 := by
  rw [to_int_of_nonneg _ (by linarith), Int.floor_add_one]
  have : ⌊q⌋ ≤ m := by
    have h := Int.floor_le_floor hm
    rwa [Int.floor_intCast] at h
  omega

theorem cut_off_step_high_le (raw : ℤ) (n : ℕ) (low high : ℕ → ℤ) (hn : 0 < n) :
    (cut_off_step raw n low high).2 (n - 1) ≤ max (raw - 1) (low (n - 1)) := by
  have hne : n - 1 ≠ n := by omega
  unfold cut_off_step
  simp only [hn, if_true, Function.update_same, Function.update_noteq hne]
  split_ifs with hc
  · rw [Function.update_same]
    exact le_max_of_le_right (by omega)
  · rw [Function.update_same]
    exact le_max_of_le_left (le_refl _)

/-- The cut-off frequency of the last iteration is the high cut-off when `pow(10, 0) = 1`. -/
theorem cut_off_frequency_last (E : Collab) (cfg : source.config) (fconst : ℚ)
    (hpow0 : E.pow 10 0 = 1) :
    cut_off_frequency E cfg fconst cfg.detail = cfg.freq_cutoff_high := by
  unfold cut_off_frequency
  dsimp only
  have h : ((cfg.detail : ℚ) + 1) ≠ 0 := by positivity
  have hpot : fconst * (-1) + ((cfg.detail : ℚ) + 1) / ((cfg.detail : ℚ) + 1) * fconst = 0 := by
    rw [div_self h]
    ring
  rw [hpot, hpow0, mul_one]

/-- After at least one iteration of the loop of `update`, `low_bin[0]` is the value the first
iteration computed. -/
theorem update_loop_low_zero (E : Collab) (cfg : source.config) (fconst : ℚ)
    (s0 : audio_processor) (k : ℕ) :
    (for_loop (k + 1) (update_band E cfg fconst) s0).m_low_freq_cut 0
      = to_int (cut_off_frequency E cfg fconst 0 / ((cfg.sample_rate / 2 : ℕ) : ℚ)
          * ((s0.m_buf_size / 2 : ℕ) : ℚ) + 1) := by
  induction k with
  | zero =>
    show (cut_off_step _ 0 s0.m_low_freq_cut s0.m_high_freq_cut).1 0 = _
    unfold cut_off_step
    simp [for_loop]
  | succ k ih =>
    rw [for_loop_succ]
    show (cut_off_step _ (k + 1) _ _).1 0 = _
    rw [cut_off_step_low_of_ne _ _ _ _ _ (by omega : 0 ≠ k + 1)]
    exact ih

/-- The first low bin and the last high bin after the loop of `update`. -/
theorem update_loop_range (E : Collab) (cfg : source.config) (fconst : ℚ)
    (s0 : audio_processor) (hd : 0 < cfg.detail)
    (hpow0 : E.pow 10 0 = 1) (hpow : ∀ x, 0 ≤ E.pow 10 x)
    (hhigh : 0 ≤ cfg.freq_cutoff_high)
    (hnyq : cfg.freq_cutoff_high ≤ ((cfg.sample_rate / 2 : ℕ) : ℚ)) :
    1 ≤ (for_loop (cfg.detail + 1) (update_band E cfg fconst) s0).m_low_freq_cut 0 ∧
    (for_loop (cfg.detail + 1) (update_band E cfg fconst) s0).m_high_freq_cut (cfg.detail - 1)
      ≤ max (((s0.m_buf_size / 2 : ℕ) : ℤ))
          ((for_loop (cfg.detail + 1) (update_band E cfg fconst) s0).m_low_freq_cut
            (cfg.detail - 1)) := by
  constructor
  · rw [update_loop_low_zero]
    apply to_int_succ_ge_one
    apply mul_nonneg
    · apply div_nonneg
      · unfold cut_off_frequency
        exact mul_nonneg hhigh (hpow _)
      · exact Nat.cast_nonneg _
    · exact Nat.cast_nonneg _
  · obtain ⟨low, high, w, hs⟩ := update_loop_shape E cfg fconst s0 cfg.detail
    have hbuf : (for_loop cfg.detail (update_band E cfg fconst) s0).m_buf_size
        = s0.m_buf_size := by rw [hs]
    rw [for_loop_succ]
    generalize for_loop cfg.detail (update_band E cfg fconst) s0 = t at hbuf
    show (cut_off_step _ cfg.detail t.m_low_freq_cut t.m_high_freq_cut).2 (cfg.detail - 1)
      ≤ max _ ((cut_off_step _ cfg.detail t.m_low_freq_cut t.m_high_freq_cut).1
          (cfg.detail - 1))
    rw [cut_off_step_low_of_ne _ _ _ _ _ (by omega : cfg.detail - 1 ≠ cfg.detail)]
    refine le_trans (cut_off_step_high_le _ _ _ _ hd) (max_le_max ?_ (le_refl _))
    rw [cut_off_frequency_last E cfg fconst hpow0, hbuf]
    have hfre0 : 0 ≤ cfg.freq_cutoff_high / ((cfg.sample_rate / 2 : ℕ) : ℚ) :=
      div_nonneg hhigh (Nat.cast_nonneg _)
    have hfre1 : cfg.freq_cutoff_high / ((cfg.sample_rate / 2 : ℕ) : ℚ) ≤ 1 := by
      rcases eq_or_lt_of_le (Nat.cast_nonneg (cfg.sample_rate / 2) : (0 : ℚ) ≤ _) with h | h
      · rw [← h, div_zero]
        exact zero_le_one
      · exact (div_le_one h).mpr hnyq
    have hhalf : (0 : ℚ) ≤ ((s0.m_buf_size / 2 : ℕ) : ℚ) := Nat.cast_nonneg _
    have h1 := to_int_succ_le
      (cfg.freq_cutoff_high / ((cfg.sample_rate / 2 : ℕ) : ℚ) * ((s0.m_buf_size / 2 : ℕ) : ℚ))
      ((s0.m_buf_size / 2 : ℕ) : ℤ) (mul_nonneg hfre0 hhalf)
      (by
        push_cast
        exact mul_le_of_le_one_left hhalf hfre1)
    omega

/-- C16 (counterexample). The scenario `detail = 20`, `sample_rate = 44100`, `low_cutoff = 50`,
`high_cutoff = 10000`, mono, with a window of 4 samples (`window_size/2 = 2`): the 21 low bins
must increase strictly, so the last band's `high_bin` is 20, above `window_size/2`. -/
theorem update_last_high_bin_exceeds_half_window :
    (update example_collab { example_config false with detail := 20 }
        (example_state 1 (impulse 0) (impulse 0))).m_buf_size / 2 = 2 ∧
    (update example_collab { example_config false with detail := 20 }
        (example_state 1 (impulse 0) (impulse 0))).m_low_freq_cut 0 = 1 ∧
    (update example_collab { example_config false with detail := 20 }
        (example_state 1 (impulse 0) (impulse 0))).m_high_freq_cut 19 = 20 := by
  decide!

/-- C16 (amended). For every configuration with `detail > 0` and `0 ≤ high_cutoff ≤
sample_rate / 2` and every window size (library routines with `pow(10, 0) = 1` and
`pow(10, x) ≥ 0`), the band table built by `audio_processor::update` has `low_bin[0] ≥ 1`, and
the last band's `high_bin` (index `detail - 1`) does not exceed the larger of `window_size / 2`
and `low_bin[detail - 1]`: it stays within `window_size / 2` whenever the low bins do. -/
theorem update_first_low_and_last_high (E : Collab) (cfg : source.config)
    (s : audio_processor) (hd : 0 < cfg.detail)
    (hpow0 : E.pow 10 0 = 1) (hpow : ∀ x, 0 ≤ E.pow 10 x)
    (hhigh : 0 ≤ cfg.freq_cutoff_high)
    (hnyq : cfg.freq_cutoff_high ≤ ((cfg.sample_rate / 2 : ℕ) : ℚ)) :
    (update E cfg s).m_low_freq_cut 0 ≥ 1 ∧
    (update E cfg s).m_high_freq_cut (cfg.detail - 1)
      ≤ max (((cfg.buffer_size * cfg.buffer_size / 2 : ℕ) : ℤ))
          ((update E cfg s).m_low_freq_cut (cfg.detail - 1)) ∧
    ((update E cfg s).m_low_freq_cut (cfg.detail - 1)
        ≤ ((cfg.buffer_size * cfg.buffer_size / 2 : ℕ) : ℤ) →
      (update E cfg s).m_high_freq_cut (cfg.detail - 1)
        ≤ ((cfg.buffer_size * cfg.buffer_size / 2 : ℕ) : ℤ)) := by
  have h := update_loop_range E cfg
    (E.log10 (cfg.freq_cutoff_low / cfg.freq_cutoff_high) / (1 / ((cfg.detail : ℚ) + 1) - 1))
    { s with
      m_buf_size := cfg.buffer_size * cfg.buffer_size
      m_samples := 2 * (cfg.buffer_size * cfg.buffer_size / 2 + 1)
      m_channels := if cfg.stereo then 2 else 1
      m_eq_dist := 64 / (cfg.detail : ℚ)
      m_sleep_counter := 0
      m_fall_off := fun _ => 0
      m_last_freqs := fun _ => 0
      m_last_freqsd := fun _ => 0
      m_freq_mem := fun _ => 0
      m_freq_both := fun _ => 0
      m_low_freq_cut := fun _ => 0
      m_high_freq_cut := fun _ => 0
      m_freq_l := fun _ => 0
      m_freq_r := fun _ => 0
      m_freq_peak := fun _ => 0
      m_freq_weight := fun _ => 0
      m_fftw_in_l := fun _ => 0
      m_fftw_in_r := fun _ => 0
      m_fftw_out_l := fun _ => (0, 0)
      m_fftw_out_r := fun _ => (0, 0)
      m_current_gravity :=
        cfg.gravity * ((cfg.bar_height : ℚ) / 2160) * E.pow (60 / (cfg.fps : ℚ)) (5 / 2) }
    hd hpow0 hpow hhigh hnyq
  have h1 : (update E cfg s).m_low_freq_cut 0 ≥ 1 := h.1
  have h2 : (update E cfg s).m_high_freq_cut (cfg.detail - 1)
      ≤ max (((cfg.buffer_size * cfg.buffer_size / 2 : ℕ) : ℤ))
          ((update E cfg s).m_low_freq_cut (cfg.detail - 1)) := h.2
  exact ⟨h1, h2, fun hlow => le_trans h2 (max_le (le_refl _) hlow)⟩

/-- Witness for C16 (amended): the scenario `detail = 20`, `sample_rate = 44100`,
`low_cutoff = 50`, `high_cutoff = 10000`, mono, with a window of 1024 samples: the last band's
`high_bin` does not exceed 512. -/
theorem update_first_low_and_last_high_witness :
    (0 < ({ example_config false with detail := 20, buffer_size := 32 } : source.config).detail ∧
      example_collab.pow 10 0 = 1 ∧
      ({ example_config false with detail := 20, buffer_size := 32 }
        : source.config).freq_cutoff_high ≤ ((44100 / 2 : ℕ) : ℚ)) ∧
    (update example_collab { example_config false with detail := 20, buffer_size := 32 }
        (example_state 1 (impulse 0) (impulse 0))).m_low_freq_cut 0 ≥ 1 ∧
    (update example_collab { example_config false with detail := 20, buffer_size := 32 }
        (example_state 1 (impulse 0) (impulse 0))).m_high_freq_cut (20 - 1)
      ≤ (((32 * 32 / 2 : ℕ)) : ℤ) :=
  ⟨⟨by decide, by decide!, by decide!⟩,
   (update_first_low_and_last_high example_collab
      { example_config false with detail := 20, buffer_size := 32 }
      (example_state 1 (impulse 0) (impulse 0)) (by decide) (by decide!)
      (fun x => zpow_nonneg (by norm_num) _) (by decide!) (by decide!)).1,
   (update_first_low_and_last_high example_collab
      { example_config false with detail := 20, buffer_size := 32 }
      (example_state 1 (impulse 0) (impulse 0)) (by decide) (by decide!)
      (fun x => zpow_nonneg (by norm_num) _) (by decide!) (by decide!)).2.2 (by decide!)⟩

end audio

namespace audio

/-! ## Monstercat smoothing against the one-shot reference -/

/-- A guarded running maximum is below a bound exactly when its start value and every guarded
term are. -/
theorem foldl_max_le_iff (p : ℕ → Prop) [DecidablePred p] (g : ℕ → ℚ) (l : List ℕ) (a X : ℚ) :
    l.foldl (fun acc i => if p i then max acc (g i) else acc) a ≤ X
      ↔ a ≤ X ∧ ∀ i ∈ l, p i → g i ≤ X := by
  induction l generalizing a with
  | nil => simp
  | cons x t ih =>
    rw [List.foldl_cons, ih]
    by_cases hp : p x
    · simp only [hp, if_true, max_le_iff, List.mem_cons, forall_eq_or_imp, true_implies]
      tauto
    · simp only [hp, if_false, List.mem_cons, forall_eq_or_imp, false_implies, true_and]

theorem monstercat_reference_le_iff (s : ℚ) (input : List ℚ) (j : ℕ) (X : ℚ) :
    monstercat_reference s input j ≤ X
      ↔ input.getD j 0 ≤ X ∧
        ∀ i, i < input.length → 1 ≤ i → i ≠ j →
          input.getD i 0 / s ^ ((i : ℤ) - (j : ℤ)).natAbs ≤ X := by
  unfold monstercat_reference
  rw [foldl_max_le_iff (fun i => 1 ≤ i ∧ i ≠ j)]
  constructor
  · rintro ⟨h1, h2⟩
    exact ⟨h1, fun i hi h3 h4 => h2 i (List.mem_range.mpr hi) ⟨h3, h4⟩⟩
  · rintro ⟨h1, h2⟩
    exact ⟨h1, fun i hi h3 => h2 i (List.mem_range.mp hi) h3.1 h3.2⟩

theorem getD_set (l : List ℚ) (j k : ℕ) (v : ℚ) :
    (l.set j v).getD k 0 = if j = k ∧ j < l.length then v else l.getD k 0 := by
  simp only [List.getD_eq_getElem?_getD, List.getElem?_set]
  by_cases hjk : j = k
  · subst hjk
    by_cases hlt : j < l.length
    · simp [hlt]
    · simp [hlt, List.getElem?_eq_none (not_lt.mp hlt)]
  · simp [hjk]

/-- Filling a vector position by position: what the loop of lines 326–328 leaves. -/
theorem fill_loop (f : ℕ → ℚ) (w0 : List ℚ) (k : ℕ) :
    (for_loop k (fun i w => w.set i (f i)) w0).length = w0.length ∧
    ∀ d, (for_loop k (fun i w => w.set i (f i)) w0).getD d 0
      = if d < k ∧ d < w0.length then f d else w0.getD d 0 := by
  induction k with
  | zero => exact ⟨rfl, fun d => by simp [for_loop]⟩
  | succ k ih =>
    obtain ⟨hlen, hget⟩ := ih
    rw [for_loop_succ]
    refine ⟨by rw [List.length_set, hlen], fun d => ?_⟩
    rw [getD_set, hget, hlen]
    by_cases hkd : k = d
    · subst hkd
      by_cases hlt : k < w0.length
      · simp [hlt]
      · simp [hlt]
    · have h1 : (d < k + 1) ↔ (d < k) := by omega
      simp only [hkd, false_and, if_false, h1]

/-- With an empty cache the weight of distance `d` below the array length is `factor ^ d`. -/
theorem monstercat_weights_fresh (sv : spectrum_visualizer) (bars : List ℚ)
    (hfresh : sv.m_monstercat_smoothing_weights = []) (d : ℕ) (hd : d < bars.length) :
    (monstercat_weights sv bars).getD d 0 = sv.m_mcat_smoothing_factor ^ d := by
  unfold monstercat_weights
  have hne : sv.m_monstercat_smoothing_weights.length ≠ bars.length := by
    rw [hfresh, List.length_nil]
    omega
  rw [if_pos hne, (fill_loop _ _ _).2]
  have hlen : (resize sv.m_monstercat_smoothing_weights bars.length).length = bars.length := by
    unfold resize
    rw [hfresh]
    simp
  rw [hlen, if_pos ⟨hd, hd⟩]

end audio

namespace audio

theorem dist_lt (n i j : ℕ) (hi : i < n) (hj : j < n) : ((i : ℤ) - (j : ℤ)).natAbs < n := by
  omega

/-- The effect of one iteration of the inner loop when the weights are the powers of `s`. -/
theorem monstercat_inner_getD (s : ℚ) (w : List ℚ) (n i j : ℕ) (t : List ℚ)
    (hlen : t.length = n) (hw : ∀ d, d < n → w.getD d 0 = s ^ d) (hi : i < n) (hj : j < n)
    (k : ℕ) :
    (monstercat_inner w i j t).getD k 0
      = if k = j ∧ i ≠ j then
          max (t.getD j 0) (t.getD i 0 / s ^ ((i : ℤ) - (j : ℤ)).natAbs)
        else t.getD k 0 := by
  unfold monstercat_inner
  dsimp only
  rw [hw _ (dist_lt n i j hi hj)]
  by_cases hij : i = j
  · simp [hij]
  · simp only [ne_eq, hij, not_false_eq_true, if_true, and_true]
    by_cases hlt : t.getD j 0 < t.getD i 0 / s ^ ((i : ℤ) - (j : ℤ)).natAbs
    · rw [if_pos hlt, getD_set, hlen]
      by_cases hkj : k = j
      · subst hkj
        simp only [hj, and_self, if_true]
        exact (max_eq_right (le_of_lt hlt)).symm
      · have hjk : ¬ j = k := fun h => hkj h.symm
        simp only [hjk, hkj, false_and, if_false]
    · rw [if_neg hlt]
      by_cases hkj : k = j
      · subst hkj
        simp only [if_true]
        exact (max_eq_left (not_lt.mp hlt)).symm
      · simp only [hkj, if_false]

/-- The inner loop after `m` iterations. -/
theorem monstercat_inner_loop (s : ℚ) (w : List ℚ) (n i : ℕ) (t : List ℚ)
    (hlen : t.length = n) (hw : ∀ d, d < n → w.getD d 0 = s ^ d) (hi : i < n) (m : ℕ)
    (hm : m ≤ n) :
    (for_loop m (monstercat_inner w i) t).length = n ∧
    ∀ k, (for_loop m (monstercat_inner w i) t).getD k 0
      = if k < m ∧ k ≠ i then
          max (t.getD k 0) (t.getD i 0 / s ^ ((i : ℤ) - (k : ℤ)).natAbs)
        else t.getD k 0 := by
  induction m with
  | zero => exact ⟨hlen, fun k => by simp [for_loop]⟩
  | succ m ih =>
    obtain ⟨hl, hg⟩ := ih (by omega)
    rw [for_loop_succ]
    refine ⟨by rw [(monstercat_inner_raises w i m _).1, hl], fun k => ?_⟩
    rw [monstercat_inner_getD s w n i m _ hl hw hi (by omega) k, hg m, hg i, hg k]
    have hii : ¬ (i < m ∧ i ≠ i) := fun h => h.2 rfl
    have hmm : ¬ (m < m ∧ m ≠ i) := fun h => absurd h.1 (lt_irrefl m)
    rw [if_neg hii, if_neg hmm]
    by_cases hkm : k = m
    · subst hkm
      by_cases hik : i = k
      · subst hik
        simp
      · have hki : k ≠ i := fun h => hik h.symm
        simp [hik, hki]
    · have h1 : (k < m + 1) ↔ (k < m) := by omega
      simp only [hkm, false_and, if_false, h1]

/-- The effect of one iteration of the outer loop on a band that is not below the floor. -/
theorem monstercat_outer_getD (s : ℚ) (w : List ℚ) (minimum : ℚ) (n i : ℕ) (t : List ℚ)
    (hlen : t.length = n) (hw : ∀ d, d < n → w.getD d 0 = s ^ d) (hi : i < n)
    (hfloor : minimum ≤ t.getD i 0) :
    (monstercat_outer w minimum n i t).length = n ∧
    ∀ k, k < n → (monstercat_outer w minimum n i t).getD k 0
      = if k ≠ i then max (t.getD k 0) (t.getD i 0 / s ^ ((i : ℤ) - (k : ℤ)).natAbs)
        else t.getD k 0 := by
  unfold monstercat_outer
  rw [if_neg (not_lt.mpr hfloor)]
  obtain ⟨hl, hg⟩ := monstercat_inner_loop s w n i t hlen hw hi n (le_refl n)
  refine ⟨hl, fun k hk => ?_⟩
  rw [hg k]
  simp only [hk, true_and]

end audio

namespace audio

/-- The reference value of a source band, attenuated over the distance to band `k`, is at most
the reference value of band `k` (the triangle inequality on the distances). -/
theorem monstercat_reference_attenuated (s : ℚ) (input : List ℚ) (hs : 1 ≤ s)
    (hnonneg : ∀ k, k < input.length → 0 ≤ input.getD k 0) (i k : ℕ) (hi : i < input.length)
    (hk : k < input.length) (h1 : 1 ≤ i) (hik : i ≠ k) :
    monstercat_reference s input i / s ^ ((i : ℤ) - (k : ℤ)).natAbs
      ≤ monstercat_reference s input k := by
  have hs0 : (0 : ℚ) < s := lt_of_lt_of_le zero_lt_one hs
  have hpos : ∀ d : ℕ, (0 : ℚ) < s ^ d := fun d => pow_pos hs0 d
  have hone : ∀ d : ℕ, (1 : ℚ) ≤ s ^ d := fun d => one_le_pow₀ hs
  have hMk := (monstercat_reference_le_iff s input k (monstercat_reference s input k)).mp
    (le_refl _)
  have hMk0 : 0 ≤ monstercat_reference s input k := le_trans (hnonneg k hk) hMk.1
  rw [div_le_iff₀ (hpos _), monstercat_reference_le_iff]
  constructor
  · exact (div_le_iff₀ (hpos _)).mp (hMk.2 i hi h1 hik)
  · intro i2 hi2 h12 hne
    rw [div_le_iff₀ (hpos _)]
    by_cases h2k : i2 = k
    · subst h2k
      calc input.getD i2 0 ≤ monstercat_reference s input i2 := hMk.1
        _ = monstercat_reference s input i2 * 1 := (mul_one _).symm
        _ ≤ monstercat_reference s input i2
              * (s ^ ((i : ℤ) - (i2 : ℤ)).natAbs * s ^ ((i2 : ℤ) - (i : ℤ)).natAbs) :=
            mul_le_mul_of_nonneg_left (one_le_mul_of_one_le_of_one_le (hone _) (hone _)) hMk0
        _ = monstercat_reference s input i2 * s ^ ((i : ℤ) - (i2 : ℤ)).natAbs
              * s ^ ((i2 : ℤ) - (i : ℤ)).natAbs := (mul_assoc _ _ _).symm
    · have hc := (div_le_iff₀ (hpos _)).mp (hMk.2 i2 hi2 h12 h2k)
      have htri : ((i2 : ℤ) - (k : ℤ)).natAbs
          ≤ ((i : ℤ) - (k : ℤ)).natAbs + ((i2 : ℤ) - (i : ℤ)).natAbs := by omega
      calc input.getD i2 0
          ≤ monstercat_reference s input k * s ^ ((i2 : ℤ) - (k : ℤ)).natAbs := hc
        _ ≤ monstercat_reference s input k
              * s ^ (((i : ℤ) - (k : ℤ)).natAbs + ((i2 : ℤ) - (i : ℤ)).natAbs) :=
            mul_le_mul_of_nonneg_left (pow_le_pow_right₀ hs htri) hMk0
        _ = monstercat_reference s input k * s ^ ((i : ℤ) - (k : ℤ)).natAbs
              * s ^ ((i2 : ℤ) - (i : ℤ)).natAbs := by rw [pow_add, mul_assoc]

/-- After the outer loop has processed the bands `1 … m`, every band lies between its input and
its reference value and is at least the contribution of every processed band. -/
theorem monstercat_outer_loop (s : ℚ) (w : List ℚ) (minimum : ℚ) (input : List ℚ) (hs : 1 ≤ s)
    (hw : ∀ d, d < input.length → w.getD d 0 = s ^ d)
    (hnonneg : ∀ k, k < input.length → 0 ≤ input.getD k 0)
    (hfloor : ∀ k, k < input.length → minimum ≤ input.getD k 0) (m : ℕ)
    (hm : m + 1 ≤ input.length) :
    (for_loop m (fun k => monstercat_outer w minimum input.length (k + 1)) input).length
        = input.length ∧
    ∀ k, k < input.length →
      input.getD k 0
        ≤ (for_loop m (fun k => monstercat_outer w minimum input.length (k + 1)) input).getD k 0
      ∧ (for_loop m (fun k => monstercat_outer w minimum input.length (k + 1)) input).getD k 0
        ≤ monstercat_reference s input k
      ∧ ∀ i, 1 ≤ i → i ≤ m → i ≠ k →
        input.getD i 0 / s ^ ((i : ℤ) - (k : ℤ)).natAbs
          ≤ (for_loop m (fun k => monstercat_outer w minimum input.length (k + 1))
              input).getD k 0 := by
  have hs0 : (0 : ℚ) < s := lt_of_lt_of_le zero_lt_one hs
  have hpos : ∀ d : ℕ, (0 : ℚ) < s ^ d := fun d => pow_pos hs0 d
  induction m with
  | zero =>
    refine ⟨rfl, fun k hk => ⟨le_refl _, ?_, fun i h1 h0 _ => absurd h0 (by omega)⟩⟩
    exact ((monstercat_reference_le_iff s input k _).mp (le_refl _)).1
  | succ m ih =>
    obtain ⟨hlen, hinv⟩ := ih (by omega)
    rw [for_loop_succ]
    generalize for_loop m (fun k => monstercat_outer w minimum input.length (k + 1)) input
      = t at hlen hinv
    have hi : m + 1 < input.length := by omega
    obtain ⟨hl2, hg⟩ := monstercat_outer_getD s w minimum input.length (m + 1) t hlen hw hi
      (le_trans (hfloor (m + 1) hi) (hinv (m + 1) hi).1)
    refine ⟨hl2, fun k hk => ?_⟩
    obtain ⟨hk1, hk2, hk3⟩ := hinv k hk
    obtain ⟨hi1, hi2, -⟩ := hinv (m + 1) hi
    rw [hg k hk]
    by_cases hki : k = m + 1
    · rw [if_neg (not_not.mpr hki)]
      refine ⟨hk1, hk2, fun i h1 hle hne => hk3 i h1 ?_ hne⟩
      omega
    · rw [if_pos hki]
      refine ⟨le_trans hk1 (le_max_left _ _), max_le hk2 ?_, fun i h1 hle hne => ?_⟩
      · refine le_trans (div_le_div_of_nonneg_right hi2 (le_of_lt (hpos _))) ?_
        have h := monstercat_reference_attenuated s input hs hnonneg (m + 1) k hi hk
          (by omega) (fun h => hki h.symm)
        exact_mod_cast h
      · by_cases him : i = m + 1
        · subst him
          refine le_trans ?_ (le_max_right _ _)
          have h := div_le_div_of_nonneg_right hi1 (le_of_lt (hpos ((((m + 1 : ℕ) : ℤ))
            - (k : ℤ)).natAbs))
          exact h
        · exact le_trans (hk3 i h1 (by omega) hne) (le_max_left _ _)

/-- C20. For every band array of length `n` whose values are all non-negative and at least the
minimum floor, and every smoothing factor `s ≥ 1` with a fresh (empty) weight cache, the
in-place sequential `monstercat_smoothing` equals the one-shot reference:
`final[j] = max(input[j], max over i in 1..n-1, i ≠ j, of input[i] / s^|i-j|)` for every `j`
(band 0 is never a source of propagation). -/
theorem monstercat_smoothing_eq_reference (sv : spectrum_visualizer) (bars : List ℚ) (j : ℕ)
    (hs : 1 ≤ sv.m_mcat_smoothing_factor)
    (hfresh : sv.m_monstercat_smoothing_weights = [])
    (hnonneg : ∀ k, k < bars.length → 0 ≤ bars.getD k 0)
    (hfloor : ∀ k, k < bars.length → sv.m_bar_min_height ≤ bars.getD k 0)
    (hj : j < bars.length) :
    (monstercat_smoothing sv bars).1.getD j 0
      = monstercat_reference sv.m_mcat_smoothing_factor bars j := by
  obtain ⟨-, hinv⟩ := monstercat_outer_loop sv.m_mcat_smoothing_factor
    (monstercat_weights sv bars) sv.m_bar_min_height bars hs
    (fun d hd => monstercat_weights_fresh sv bars hfresh d hd) hnonneg hfloor
    (bars.length - 1) (by omega)
  obtain ⟨h1, h2, h3⟩ := hinv j hj
  have heq : (monstercat_smoothing sv bars).1
      = for_loop (bars.length - 1)
          (fun k => monstercat_outer (monstercat_weights sv bars) sv.m_bar_min_height
            bars.length (k + 1)) bars := rfl
  rw [heq]
  refine le_antisymm h2 ?_
  rw [monstercat_reference_le_iff]
  exact ⟨h1, fun i hi h1i hij => h3 i h1i (by omega) hij⟩

/-- Witness for C20: the bars `8, 1, 4, 16, 3` with factor 2 and floor 1: band 1 ends at 4, the
contribution `16 / 2^2` of band 3. -/
theorem monstercat_smoothing_eq_reference_witness :
    ((1 : ℚ) ≤ example_visualizer.m_mcat_smoothing_factor ∧
      example_visualizer.m_monstercat_smoothing_weights = []) ∧
    (monstercat_smoothing example_visualizer [8, 1, 4, 16, 3]).1.getD 1 0
      = monstercat_reference example_visualizer.m_mcat_smoothing_factor [8, 1, 4, 16, 3] 1 ∧
    (monstercat_smoothing example_visualizer [8, 1, 4, 16, 3]).1 = [8, 4, 8, 16, 8] :=
  ⟨⟨by decide!, rfl⟩,
   monstercat_smoothing_eq_reference example_visualizer [8, 1, 4, 16, 3] 1 (by decide!) rfl
     (by decide!) (by decide!) (by decide),
   by decide!⟩

end audio

namespace audio

/-! ## The smoothing-correction index -/

/-- Iteration `n` of the loop of `update` leaves the weights of the other bands alone. -/
theorem update_band_weight_of_ne (E : Collab) (cfg : source.config) (fconst : ℚ) (n j : ℕ)
    (s : audio_processor) (hj : j ≠ n) :
    (update_band E cfg fconst n s).m_freq_weight j = s.m_freq_weight j := by
  unfold update_band
  dsimp only
  split_ifs
  · exact Function.update_noteq hj _ _
  · rfl

/-- After `m` iterations of the loop of `update`, the weight of a band `n < m`, `n < detail` is
the product computed in iteration `n`, read from the table at the clamped index. -/
theorem update_loop_weight (E : Collab) (cfg : source.config) (fconst : ℚ)
    (s0 : audio_processor) (m n : ℕ) (hm : n < m) (hn : n < cfg.detail) :
    (for_loop m (update_band E cfg fconst) s0).m_freq_weight n
      = E.pow (cut_off_frequency E cfg fconst n) (85 / 100) * ((cfg.bar_height : ℚ) / 2 ^ 28)
        * smoothing_values.getD (UTIL_CLAMP 0 ⌊(n : ℚ) * s0.m_eq_dist⌋ 64).toNat 0 := by
  induction m with
  | zero => exact absurd hm (Nat.not_lt_zero n)
  | succ k ih =>
    rw [for_loop_succ]
    rcases Nat.lt_succ_iff_lt_or_eq.mp hm with hlt | heq
    · rw [update_band_weight_of_ne E cfg fconst k n _ (Nat.ne_of_lt hlt), ih hlt]
    · subst heq
      obtain ⟨low, high, w, hs⟩ := update_loop_shape E cfg fconst s0 n
      rw [hs]
      unfold update_band
      dsimp only
      rw [if_pos hn, Function.update_same]

/-- For a band `n < detail` the floor of `n * (64 / detail)` lies in `[0, 63]`. -/
theorem smooth_index_range (detail n : ℕ) (hn : n < detail) :
    0 ≤ ⌊(n : ℚ) * (64 / (detail : ℚ))⌋ ∧ ⌊(n : ℚ) * (64 / (detail : ℚ))⌋ ≤ 63 := by
  have hd : (0 : ℚ) < (detail : ℚ) := by exact_mod_cast Nat.lt_of_le_of_lt (Nat.zero_le n) hn
  constructor
  · apply Int.floor_nonneg.mpr
    positivity
  · have hlt : (n : ℚ) * (64 / (detail : ℚ)) < 64 := by
      rw [← mul_div_assoc, div_lt_iff₀ hd]
      have : (n : ℚ) < (detail : ℚ) := by exact_mod_cast hn
      linarith
    have h := Int.floor_lt.mpr (by exact_mod_cast hlt : (n : ℚ) * (64 / (detail : ℚ)) < ((64 : ℤ) : ℚ))
    omega

theorem update_eq_dist (E : Collab) (cfg : source.config) (s : audio_processor) :
    (update E cfg s).m_eq_dist = 64 / (cfg.detail : ℚ) := by
  unfold update
  dsimp only
  obtain ⟨low, high, w, hs⟩ := update_loop_shape E cfg
    (E.log10 (cfg.freq_cutoff_low / cfg.freq_cutoff_high) / (1 / ((cfg.detail : ℚ) + 1) - 1))
    { s with
      m_buf_size := cfg.buffer_size * cfg.buffer_size
      m_samples := 2 * (cfg.buffer_size * cfg.buffer_size / 2 + 1)
      m_channels := if cfg.stereo then 2 else 1
      m_eq_dist := 64 / (cfg.detail : ℚ)
      m_sleep_counter := 0
      m_fall_off := fun _ => 0
      m_last_freqs := fun _ => 0
      m_last_freqsd := fun _ => 0
      m_freq_mem := fun _ => 0
      m_freq_both := fun _ => 0
      m_low_freq_cut := fun _ => 0
      m_high_freq_cut := fun _ => 0
      m_freq_l := fun _ => 0
      m_freq_r := fun _ => 0
      m_freq_peak := fun _ => 0
      m_freq_weight := fun _ => 0
      m_fftw_in_l := fun _ => 0
      m_fftw_in_r := fun _ => 0
      m_fftw_out_l := fun _ => (0, 0)
      m_fftw_out_r := fun _ => (0, 0)
      m_current_gravity :=
        cfg.gravity * ((cfg.bar_height : ℚ) / 2160) * E.pow (60 / (cfg.fps : ℚ)) (5 / 2) }
    (cfg.detail + 1)
  rw [hs]

/-- C26. For every band `n < detail` (so `detail > 0`), the smoothing-correction index of
`update`, the floor of `n * (64 / detail)` clamped to `[0, 64]`, is the floor itself, is at most
63, and is smaller than the number of entries of `smoothing_values` (64); the weight stored for
band `n` is the product with the table entry at that index. -/
theorem update_smooth_index_in_table (E : Collab) (cfg : source.config) (s : audio_processor)
    (n : ℕ) (hn : n < cfg.detail) :
    UTIL_CLAMP 0 ⌊(n : ℚ) * (update E cfg s).m_eq_dist⌋ 64 = ⌊(n : ℚ) * 64 / (cfg.detail : ℚ)⌋ ∧
    0 ≤ UTIL_CLAMP 0 ⌊(n : ℚ) * (update E cfg s).m_eq_dist⌋ 64 ∧
    ∃ h : (UTIL_CLAMP 0 ⌊(n : ℚ) * (update E cfg s).m_eq_dist⌋ 64).toNat < smoothing_values.length,
      (update E cfg s).m_freq_weight n
        = E.pow (cut_off_frequency E cfg
            (E.log10 (cfg.freq_cutoff_low / cfg.freq_cutoff_high)
              / (1 / ((cfg.detail : ℚ) + 1) - 1)) n) (85 / 100)
          * ((cfg.bar_height : ℚ) / 2 ^ 28)
          * smoothing_values.get
              ⟨(UTIL_CLAMP 0 ⌊(n : ℚ) * (update E cfg s).m_eq_dist⌋ 64).toNat, h⟩ := by
  obtain ⟨h0, h63⟩ := smooth_index_range cfg.detail n hn
  have hclamp : UTIL_CLAMP 0 ⌊(n : ℚ) * (64 / (cfg.detail : ℚ))⌋ 64
      = ⌊(n : ℚ) * (64 / (cfg.detail : ℚ))⌋ := by
    unfold UTIL_CLAMP
    rw [max_eq_right h0, min_eq_left (by omega)]
  have hlen : smoothing_values.length = 64 := rfl
  rw [update_eq_dist, hclamp]
  have hidx : (⌊(n : ℚ) * (64 / (cfg.detail : ℚ))⌋).toNat < smoothing_values.length := by
    rw [hlen]; omega
  refine ⟨by rw [mul_div_assoc], h0, hidx, ?_⟩
  have hw := update_loop_weight E cfg
    (E.log10 (cfg.freq_cutoff_low / cfg.freq_cutoff_high) / (1 / ((cfg.detail : ℚ) + 1) - 1))
    { s with
      m_buf_size := cfg.buffer_size * cfg.buffer_size
      m_samples := 2 * (cfg.buffer_size * cfg.buffer_size / 2 + 1)
      m_channels := if cfg.stereo then 2 else 1
      m_eq_dist := 64 / (cfg.detail : ℚ)
      m_sleep_counter := 0
      m_fall_off := fun _ => 0
      m_last_freqs := fun _ => 0
      m_last_freqsd := fun _ => 0
      m_freq_mem := fun _ => 0
      m_freq_both := fun _ => 0
      m_low_freq_cut := fun _ => 0
      m_high_freq_cut := fun _ => 0
      m_freq_l := fun _ => 0
      m_freq_r := fun _ => 0
      m_freq_peak := fun _ => 0
      m_freq_weight := fun _ => 0
      m_fftw_in_l := fun _ => 0
      m_fftw_in_r := fun _ => 0
      m_fftw_out_l := fun _ => (0, 0)
      m_fftw_out_r := fun _ => (0, 0)
      m_current_gravity :=
        cfg.gravity * ((cfg.bar_height : ℚ) / 2160) * E.pow (60 / (cfg.fps : ℚ)) (5 / 2) }
    (cfg.detail + 1) n (Nat.lt_succ_of_lt hn) hn
  dsimp only at hw
  rw [hclamp, List.getD_eq_getElem?_getD, List.getElem?_eq_getElem hidx] at hw
  exact hw

theorem update_smooth_index_in_table_witness :
    1 < (example_config false).detail ∧
    UTIL_CLAMP 0 ⌊((1 : ℕ) : ℚ) * (update example_collab (example_config false)
      (example_state 1 (impulse 0) (impulse 0))).m_eq_dist⌋ 64 = 32 := by
  have h := update_smooth_index_in_table example_collab (example_config false)
    (example_state 1 (impulse 0) (impulse 0)) 1 (by decide)
  refine ⟨by decide, ?_⟩
  rw [h.1]
  decide!

end audio

namespace audio

/-! ## The statistics of the auto-scale window -/

theorem sum_squared_deviations (l : List ℚ) (m : ℚ) :
    (l.map fun x => (x - m) ^ 2).sum
      = (List.zipWith (· * ·) l l).sum - 2 * m * l.sum + (l.length : ℚ) * m ^ 2 := by
  induction l with
  | nil => simp
  | cons x t ih =>
    rw [List.map_cons, List.sum_cons, ih, List.zipWith_cons_cons, List.sum_cons, List.sum_cons,
      List.length_cons]
    push_cast
    ring

/-- The radicand `sum of squares / n - mean ^ 2` is the population variance of a non-empty
window. -/
theorem radicand_eq_variance (l : List ℚ) (hl : l ≠ []) :
    (List.zipWith (· * ·) l l).sum / (l.length : ℚ) - (l.sum / (l.length : ℚ)) ^ 2
      = population_variance l := by
  have hn : (l.length : ℚ) ≠ 0 := by
    have : l.length ≠ 0 := fun h => hl (List.length_eq_zero.mp h)
    exact_mod_cast this
  unfold population_variance arithmetic_mean
  rw [sum_squared_deviations]
  field_simp
  ring

theorem population_variance_nonneg (l : List ℚ) : 0 ≤ population_variance l := by
  unfold population_variance
  apply div_nonneg
  · apply List.sum_nonneg
    intro y hy
    rw [List.mem_map] at hy
    obtain ⟨x, -, rfl⟩ := hy
    exact sq_nonneg _
  · exact Nat.cast_nonneg _

/-- The window `calculate_moving_average_and_std_dev` leaves: the oldest entry is dropped when
the window was longer than the target, and the new value is appended. -/
theorem calculate_window (E : Collab) (v : ℚ) (n : ℕ) (w : List ℚ) :
    (calculate_moving_average_and_std_dev E v n w).1
      = (if n < w.length then w.drop 1 else w) ++ [v] := by
  unfold calculate_moving_average_and_std_dev
  dsimp only
  rw [List.drop_one]

theorem calculate_window_ne_nil (E : Collab) (v : ℚ) (n : ℕ) (w : List ℚ) :
    (calculate_moving_average_and_std_dev E v n w).1 ≠ [] := by
  rw [calculate_window]
  simp

/-- The statistics `calculate_moving_average_and_std_dev` returns are the mean of the window it
leaves and the square root of that window's population variance. -/
theorem calculate_statistics (E : Collab) (v : ℚ) (n : ℕ) (w : List ℚ) :
    (calculate_moving_average_and_std_dev E v n w).2.1
      = arithmetic_mean (calculate_moving_average_and_std_dev E v n w).1 ∧
    (calculate_moving_average_and_std_dev E v n w).2.2
      = E.sqrt (population_variance (calculate_moving_average_and_std_dev E v n w).1) := by
  have hne := calculate_window_ne_nil E v n w
  rw [← radicand_eq_variance _ hne]
  exact ⟨rfl, rfl⟩

/-- C23. For every window and new value, `calculate_moving_average_and_std_dev` leaves a
non-empty window, returns as moving average the arithmetic mean of the window after the push and
as standard deviation the square root of `sum of squares / n - moving_average ^ 2`; over exact
arithmetic that radicand equals the population variance of the window and is non-negative. -/
theorem calculate_mean_and_std_dev (E : Collab) (new_value : ℚ) (max_number_of_elements : ℕ)
    (old_values : List ℚ) :
    (calculate_moving_average_and_std_dev E new_value max_number_of_elements old_values).1 ≠ [] ∧
    (calculate_moving_average_and_std_dev E new_value max_number_of_elements old_values).2.1
      = arithmetic_mean
          (calculate_moving_average_and_std_dev E new_value max_number_of_elements old_values).1 ∧
    (calculate_moving_average_and_std_dev E new_value max_number_of_elements old_values).2.2
      = E.sqrt
        ((List.zipWith (· * ·)
            (calculate_moving_average_and_std_dev E new_value max_number_of_elements old_values).1
            (calculate_moving_average_and_std_dev E new_value max_number_of_elements old_values).1).sum
          / ((calculate_moving_average_and_std_dev E new_value max_number_of_elements
              old_values).1.length : ℚ)
          - (calculate_moving_average_and_std_dev E new_value max_number_of_elements
              old_values).2.1 ^ 2) ∧
    (List.zipWith (· * ·)
        (calculate_moving_average_and_std_dev E new_value max_number_of_elements old_values).1
        (calculate_moving_average_and_std_dev E new_value max_number_of_elements old_values).1).sum
      / ((calculate_moving_average_and_std_dev E new_value max_number_of_elements
          old_values).1.length : ℚ)
      - (calculate_moving_average_and_std_dev E new_value max_number_of_elements
          old_values).2.1 ^ 2
      = population_variance
          (calculate_moving_average_and_std_dev E new_value max_number_of_elements old_values).1 ∧
    0 ≤ population_variance
      (calculate_moving_average_and_std_dev E new_value max_number_of_elements old_values).1 := by
  have hne := calculate_window_ne_nil E new_value max_number_of_elements old_values
  exact ⟨hne, rfl, rfl, radicand_eq_variance _ hne, population_variance_nonneg _⟩

end audio

namespace audio

/-! ## The length of the auto-scale window -/

theorem calculate_length_le (E : Collab) (v : ℚ) (n : ℕ) (w : List ℚ)
    (h : w.length ≤ n + 1) :
    (calculate_moving_average_and_std_dev E v n w).1.length ≤ n + 1 := by
  rw [calculate_window, List.length_append, List.length_singleton]
  split_ifs with hlt
  · rw [List.length_drop]
    omega
  · omega

theorem maybe_reset_length_le (E : Collab) (C : constants) (v : ℚ) (n : ℕ) (w : List ℚ)
    (ma sd : ℚ) (h : w.length ≤ n + 1) :
    (maybe_reset_scaling_window E C v n w ma sd).1.length ≤ n + 1 := by
  unfold maybe_reset_scaling_window
  dsimp only
  split_ifs
  · apply calculate_length_le
    rw [List.length_drop]
    omega
  · exact h
  · exact h

theorem auto_scale_statistics_length_le (E : Collab) (C : constants) (sv : spectrum_visualizer)
    (bars : List ℚ) (h : sv.m_previous_max_heights.length ≤ auto_scale_target C sv + 1) :
    (auto_scale_statistics E C sv bars).1.length ≤ auto_scale_target C sv + 1 := by
  unfold auto_scale_statistics
  dsimp only
  exact maybe_reset_length_le E C _ _ _ _ _ (calculate_length_le E _ _ _ h)

/-- A call of `scale_bars` keeps the target size and the bound on the window. -/
theorem scale_bars_window_le (E : Collab) (C : constants) (sv : spectrum_visualizer)
    (height : ℤ) (bars : List ℚ)
    (h : sv.m_previous_max_heights.length ≤ auto_scale_target C sv + 1) :
    auto_scale_target C (scale_bars E C sv height bars).2 = auto_scale_target C sv ∧
    (scale_bars E C sv height bars).2.m_previous_max_heights.length
      ≤ auto_scale_target C sv + 1 := by
  unfold scale_bars
  split_ifs
  · exact ⟨rfl, h⟩
  · exact ⟨rfl, auto_scale_statistics_length_le E C sv bars h⟩
  · exact ⟨rfl, h⟩

theorem scale_run_window_le (E : Collab) (C : constants) (height : ℤ)
    (frames : List (List ℚ)) (sv : spectrum_visualizer)
    (h : sv.m_previous_max_heights.length ≤ auto_scale_target C sv + 1) :
    (scale_run E C height frames sv).m_previous_max_heights.length
      ≤ auto_scale_target C sv + 1 := by
  induction frames generalizing sv with
  | nil => exact h
  | cons bars rest ih =>
    obtain ⟨ht, hl⟩ := scale_bars_window_le E C sv height bars h
    have h2 := ih (scale_bars E C sv height bars).2 (by rw [ht]; exact hl)
    rw [ht] at h2
    exact h2

/-- C24. `calculate_moving_average_and_std_dev` appends the new value at the end of the window
and drops exactly the first entry when, and only when, the window was longer than the target
size before the push, the other entries keeping their order; and starting from an empty window,
after any number of calls of `scale_bars` the window holds at most `N + 1` entries, `N` the
target size. -/
theorem auto_scale_window_bounded (E : Collab) (C : constants) (height : ℤ)
    (frames : List (List ℚ)) (sv : spectrum_visualizer) (h : sv.m_previous_max_heights = []) :
    (∀ (v : ℚ) (n : ℕ) (w : List ℚ), (calculate_moving_average_and_std_dev E v n w).1
      = (if n < w.length then w.drop 1 else w) ++ [v]) ∧
    (scale_run E C height frames sv).m_previous_max_heights.length
      ≤ auto_scale_target C sv + 1 := by
  refine ⟨fun v n w => calculate_window E v n w, scale_run_window_le E C height frames sv ?_⟩
  rw [h]
  exact Nat.zero_le _

theorem auto_scale_window_bounded_witness :
    example_visualizer.m_previous_max_heights = [] ∧
    auto_scale_target example_constants example_visualizer = 120 ∧
    (scale_run example_collab example_constants 10 [[3], [5, 7]]
      example_visualizer).m_previous_max_heights.length ≤ 121 :=
  ⟨rfl, by decide!,
    le_of_le_of_eq (auto_scale_window_bounded example_collab example_constants 10 [[3], [5, 7]]
      example_visualizer rfl).2 (by decide!)⟩

/-! ## The reset of the auto-scale window -/

/-- On a detected regime shift `maybe_reset_scaling_window` returns what
`calculate_moving_average_and_std_dev` returns on the window without its oldest entries. -/
theorem maybe_reset_on_shift (E : Collab) (C : constants) (v : ℚ) (n : ℕ) (w : List ℚ)
    (ma sd : ℚ) (hlong : (w.length : ℚ) > C.auto_scaling_reset_window * (n : ℚ))
    (hshift : |(w.take (to_int (C.auto_scaling_reset_window * (n : ℚ))).toNat).sum
        / (C.auto_scaling_reset_window * (n : ℚ)) - ma| > C.deviation_amount_to_reset * sd) :
    maybe_reset_scaling_window E C v n w ma sd
      = calculate_moving_average_and_std_dev E v n (w.drop (erase_count C w)) := by
  unfold maybe_reset_scaling_window
  dsimp only
  rw [if_pos hlong, if_pos hshift]
  rfl

/-- C22 (the sentence as written fails). Target size 10, reset window 1, window `0, 10, 10, 10,
12` with its statistics `42/5` and `21/5`, current maximum 12: the regime shift is detected, 3
entries are erased, and the resulting window is `10, 12, 12`, not the remaining window `10, 12`;
the returned moving average is `34/3`, not the mean 11 of the remaining window. -/
theorem maybe_reset_pushes_current_maximum_again :
    (calculate_moving_average_and_std_dev example_collab 12 10 [0, 10, 10, 10]).1
      = [0, 10, 10, 10, 12] ∧
    (calculate_moving_average_and_std_dev example_collab 12 10 [0, 10, 10, 10]).2.1 = 42 / 5 ∧
    (calculate_moving_average_and_std_dev example_collab 12 10 [0, 10, 10, 10]).2.2 = 21 / 5 ∧
    erase_count example_constants [0, 10, 10, 10, 12] = 3 ∧
    ([0, 10, 10, 10, 12] : List ℚ).drop 3 = [10, 12] ∧
    (maybe_reset_scaling_window example_collab example_constants 12 10 [0, 10, 10, 10, 12]
      (42 / 5) (21 / 5)).1 = [10, 12, 12] ∧
    (maybe_reset_scaling_window example_collab example_constants 12 10 [0, 10, 10, 10, 12]
      (42 / 5) (21 / 5)).2.1 = 34 / 3 ∧
    arithmetic_mean [10, 12] = 11 := by
  decide!

/-- C22 (amended). When `maybe_reset_scaling_window` detects a regime shift, the resulting window
is the previous window with its oldest `erase_count` entries removed, then without its first
entry if it is still longer than the target size, and with the current maximum height appended;
the returned moving average and standard deviation are the arithmetic mean and the square root of
the population variance of that resulting window. -/
theorem maybe_reset_window_and_statistics (E : Collab) (C : constants)
    (current_max_height : ℚ) (max_number_of_elements : ℕ) (values : List ℚ)
    (moving_average std_dev : ℚ)
    (hlong : (values.length : ℚ)
      > C.auto_scaling_reset_window * (max_number_of_elements : ℚ))
    (hshift : |(values.take
          (to_int (C.auto_scaling_reset_window * (max_number_of_elements : ℚ))).toNat).sum
        / (C.auto_scaling_reset_window * (max_number_of_elements : ℚ)) - moving_average|
      > C.deviation_amount_to_reset * std_dev) :
    (maybe_reset_scaling_window E C current_max_height max_number_of_elements values
        moving_average std_dev).1
      = (if max_number_of_elements < (values.drop (erase_count C values)).length
          then (values.drop (erase_count C values)).drop 1
          else values.drop (erase_count C values)) ++ [current_max_height] ∧
    (maybe_reset_scaling_window E C current_max_height max_number_of_elements values
        moving_average std_dev).2.1
      = arithmetic_mean (maybe_reset_scaling_window E C current_max_height
          max_number_of_elements values moving_average std_dev).1 ∧
    (maybe_reset_scaling_window E C current_max_height max_number_of_elements values
        moving_average std_dev).2.2
      = E.sqrt (population_variance (maybe_reset_scaling_window E C current_max_height
          max_number_of_elements values moving_average std_dev).1) := by
  rw [maybe_reset_on_shift E C current_max_height max_number_of_elements values moving_average
    std_dev hlong hshift]
  exact ⟨calculate_window E _ _ _, calculate_statistics E _ _ _⟩

theorem maybe_reset_window_and_statistics_witness :
    (([0, 10, 10, 10, 12] : List ℚ).length : ℚ)
      > example_constants.auto_scaling_reset_window * ((10 : ℕ) : ℚ) ∧
    (maybe_reset_scaling_window example_collab example_constants 12 10 [0, 10, 10, 10, 12]
        (42 / 5) (21 / 5)).1
      = (if 10 < (([0, 10, 10, 10, 12] : List ℚ).drop
            (erase_count example_constants [0, 10, 10, 10, 12])).length
          then (([0, 10, 10, 10, 12] : List ℚ).drop
            (erase_count example_constants [0, 10, 10, 10, 12])).drop 1
          else ([0, 10, 10, 10, 12] : List ℚ).drop
            (erase_count example_constants [0, 10, 10, 10, 12])) ++ [12] :=
  ⟨by decide!,
    (maybe_reset_window_and_statistics example_collab example_constants 12 10
      [0, 10, 10, 10, 12] (42 / 5) (21 / 5) (by decide!) (by decide!)).1⟩

end audio

namespace audio

/-! ## SGS smoothing on arrays with an interior -/

theorem getD_of_getElem? (l : List ℚ) (i : ℕ) (x : ℚ) (h : l[i]? = some x) : l.getD i 0 = x := by
  rw [List.getD_eq_getElem?_getD, h]
  rfl

/-- The inner loop of `sgs_smoothing` after `m` iterations. -/
theorem sgs_sum_loop (pivot : ℕ) (original_bars : List ℚ) (i m : ℕ) (hi : pivot ≤ i)
    (hm : i + m ≤ original_bars.length + pivot) :
    for_loop m
      (fun j sum => sum.bind fun sum =>
        (original_bars[i + j - pivot]?).map fun x =>
          sum + (((1 / (2 * (pivot : ℚ) + 1)) * x + (j : ℚ)) - (pivot : ℚ)))
      (some 0)
    = some ((List.range m).map fun j =>
        original_bars.getD (i + j - pivot) 0 / (2 * (pivot : ℚ) + 1)
          + ((j : ℚ) - (pivot : ℚ))).sum := by
  induction m with
  | zero => rfl
  | succ k ih =>
    have hlt : i + k - pivot < original_bars.length := by omega
    rw [for_loop_succ, ih (by omega), Option.some_bind, List.getElem?_eq_getElem hlt,
      Option.map_some', List.range_succ, List.map_append, List.sum_append, List.map_singleton,
      List.sum_singleton,
      getD_of_getElem? original_bars _ _ (List.getElem?_eq_getElem hlt)]
    congr 1
    ring

theorem sgs_sum_interior (pivot : ℕ) (original_bars : List ℚ) (i : ℕ) (hi : pivot ≤ i)
    (h : i + pivot < original_bars.length) :
    sgs_sum pivot (1 / (2 * (pivot : ℚ) + 1)) original_bars i
      = some (sgs_interior_spec pivot original_bars i) := by
  unfold sgs_sum sgs_interior_spec
  exact sgs_sum_loop pivot original_bars i (2 * pivot + 1) hi (by omega)

/-- The interior loop of a pass after `m` iterations: the bands `pivot … pivot + m - 1` hold
their sums, the others are as before. -/
theorem sgs_interior_loop (pivot : ℕ) (original_bars bars : List ℚ) (m : ℕ)
    (hlen : bars.length = original_bars.length)
    (hm : m + 2 * pivot ≤ original_bars.length) :
    ∃ l : List ℚ,
      for_loop m
        (fun k bars => bars.bind fun bars =>
          (sgs_sum pivot (1 / (2 * (pivot : ℚ) + 1)) original_bars (pivot + k)).bind fun sum =>
            vec_write bars (pivot + k) sum)
        (some bars) = some l ∧
      l.length = original_bars.length ∧
      ∀ i, l.getD i 0 = if pivot ≤ i ∧ i < pivot + m
        then sgs_interior_spec pivot original_bars i else bars.getD i 0 := by
  induction m with
  | zero =>
    refine ⟨bars, rfl, hlen, fun i => ?_⟩
    rw [if_neg (by omega)]
  | succ k ih =>
    obtain ⟨l, hl, hlen2, hget⟩ := ih (by omega)
    have hw : pivot + k < l.length := by omega
    refine ⟨l.set (pivot + k) (sgs_interior_spec pivot original_bars (pivot + k)), ?_, ?_, ?_⟩
    · rw [for_loop_succ, hl, Option.some_bind,
        sgs_sum_interior pivot original_bars (pivot + k) (by omega) (by omega), Option.some_bind]
      unfold vec_write
      rw [if_pos hw]
    · rw [List.length_set, hlen2]
    · intro i
      rw [getD_set, hget i]
      by_cases hik : pivot + k = i
      · subst hik
        rw [if_pos ⟨rfl, hw⟩, if_pos ⟨by omega, by omega⟩]
      · rw [if_neg (fun h => hik h.1)]
        by_cases hin : pivot ≤ i ∧ i < pivot + k
        · rw [if_pos hin, if_pos ⟨hin.1, by omega⟩]
        · rw [if_neg hin, if_neg (by omega)]

theorem sgs_edge_loop_unchanged (bars : List ℚ) (k : ℕ) (hk : k ≤ bars.length)
    (h64 : bars.length < 2 ^ 64) : for_loop k (sgs_edge bars) (some bars) = some bars := by
  induction k with
  | zero => rfl
  | succ k ih =>
    rw [for_loop_succ, ih (by omega)]
    exact sgs_edge_unchanged bars k (by omega) h64

theorem sgs_pass_spec_length (pivot : ℕ) (input : List ℚ) :
    (sgs_pass_spec pivot input).length = input.length := by
  unfold sgs_pass_spec
  rw [List.length_map, List.length_range]

theorem sgs_pass_spec_getD (pivot : ℕ) (input : List ℚ) (i : ℕ) (hi : i < input.length) :
    (sgs_pass_spec pivot input).getD i 0
      = if i < pivot ∨ input.length - pivot ≤ i then input.getD i 0
        else sgs_interior_spec pivot input i := by
  have h : i < (sgs_pass_spec pivot input).length := by rw [sgs_pass_spec_length]; exact hi
  rw [List.getD_eq_getElem _ _ h]
  unfold sgs_pass_spec
  rw [List.getElem_map, List.getElem_range]

/-- One pass of `sgs_smoothing`, started with the working array equal to the array it reads, is
the one-pass map of the specification when the array has at least `2 * pivot + 1` elements. -/
theorem sgs_pass_eq_spec (pivot : ℕ) (bars : List ℚ) (h1 : 2 * pivot + 1 ≤ bars.length)
    (h64 : bars.length < 2 ^ 64) :
    sgs_pass pivot bars bars = some (sgs_pass_spec pivot bars) := by
  have hcount : size_sub bars.length pivot - pivot = bars.length - 2 * pivot := by
    rw [size_sub_of_le _ _ (by omega) h64]
    omega
  obtain ⟨l, hl, hlen, hget⟩ := sgs_interior_loop pivot bars bars (bars.length - 2 * pivot) rfl
    (by omega)
  unfold sgs_pass
  rw [sgs_edge_loop_unchanged bars pivot (by omega) h64, Option.some_bind]
  dsimp only
  rw [hcount, hl]
  congr 1
  apply List.ext_getElem
  · rw [hlen, sgs_pass_spec_length]
  · intro i hi1 hi2
    rw [← List.getD_eq_getElem l 0 hi1, ← List.getD_eq_getElem _ 0 hi2, hget i,
      sgs_pass_spec_getD pivot bars i (by omega)]
    by_cases hin : pivot ≤ i ∧ i < pivot + (bars.length - 2 * pivot)
    · rw [if_pos hin, if_neg (by omega)]
    · rw [if_neg hin, if_pos (by omega)]

theorem iterate_sgs_pass_spec_length (pivot : ℕ) (n : ℕ) (bars : List ℚ) :
    ((sgs_pass_spec pivot)^[n] bars).length = bars.length := by
  induction n generalizing bars with
  | zero => rfl
  | succ k ih => rw [Function.iterate_succ_apply, ih, sgs_pass_spec_length]

/-- The pass loop of `sgs_smoothing` after `n` of its `passes` iterations: the working array is
the `n`-fold one-pass map, and while passes remain the array read from is a copy of it. -/
theorem sgs_pass_loop (pivot : ℕ) (passes : ℤ) (bars : List ℚ) (n : ℕ)
    (hn : n ≤ passes.toNat) (h1 : 2 * pivot + 1 ≤ bars.length) (h64 : bars.length < 2 ^ 64) :
    ∃ o : List ℚ,
      for_loop n
        (fun pass st => st.bind fun (st : List ℚ × List ℚ) =>
          (sgs_pass pivot st.1 st.2).map fun bars =>
            (if (pass : ℤ) < passes - 1 then bars else st.1, bars))
        (some (bars, bars)) = some (o, (sgs_pass_spec pivot)^[n] bars) ∧
      ((n : ℤ) < passes → o = (sgs_pass_spec pivot)^[n] bars) := by
  induction n with
  | zero => exact ⟨bars, rfl, fun _ => rfl⟩
  | succ k ih =>
    have hk : (k : ℤ) < passes := by omega
    obtain ⟨o, hloop, ho⟩ := ih (by omega)
    have ho2 := ho hk
    subst ho2
    have hpass := sgs_pass_eq_spec pivot ((sgs_pass_spec pivot)^[k] bars)
      (by rw [iterate_sgs_pass_spec_length]; exact h1)
      (by rw [iterate_sgs_pass_spec_length]; exact h64)
    refine ⟨if (k : ℤ) < passes - 1 then (sgs_pass_spec pivot)^[k + 1] bars
      else (sgs_pass_spec pivot)^[k] bars, ?_, ?_⟩
    · rw [for_loop_succ, hloop, Option.some_bind]
      dsimp only
      rw [hpass, Option.map_some', Function.iterate_succ_apply']
    · intro hlt
      push_cast at hlt
      rw [if_pos (by omega)]

theorem sum_range_offsets (f : ℕ → ℚ) (c p : ℚ) (m : ℕ) :
    ((List.range m).map fun j => f j / c + ((j : ℚ) - p)).sum
      = ((List.range m).map f).sum / c + ((m : ℚ) * ((m : ℚ) - 1) / 2 - (m : ℚ) * p) := by
  induction m with
  | zero => simp
  | succ k ih =>
    rw [List.range_succ, List.map_append, List.sum_append, ih, List.map_append, List.sum_append]
    simp only [List.map_singleton, List.sum_singleton]
    push_cast
    ring

/-- The positional terms `j - pivot` cancel: the interior sum is the mean of the window. -/
theorem sgs_interior_spec_eq_mean (pivot : ℕ) (input : List ℚ) (i : ℕ) :
    sgs_interior_spec pivot input i = window_mean pivot input i := by
  unfold sgs_interior_spec window_mean
  rw [sum_range_offsets (fun j => input.getD (i + j - pivot) 0)]
  push_cast
  ring

/-- C21. For every band array of length at least `2 * pivot + 1` (`pivot` the half of the point
count, rounded down; the length below `2 ^ 32`, the range of the band counters),
`sgs_smoothing` with `k` passes returns the `k`-fold application of the one-pass map of the
specification, which keeps the first and the last `pivot` bands and sets every interior band to
the sum of `in[i + j - pivot] / (2 * pivot + 1) + (j - pivot)` over `j = 0 … 2 * pivot`; that
sum is the arithmetic mean of the `2 * pivot + 1` values centred on the band. -/
theorem sgs_smoothing_eq_iterated_pass (sv : spectrum_visualizer) (bars : List ℚ)
    (h1 : 2 * (sv.m_sgs_points / 2) + 1 ≤ bars.length) (h32 : bars.length < 2 ^ 32) :
    sgs_smoothing sv bars
      = some ((sgs_pass_spec (sv.m_sgs_points / 2))^[sv.m_sgs_passes.toNat] bars) ∧
    ∀ (input : List ℚ) (i : ℕ),
      sgs_interior_spec (sv.m_sgs_points / 2) input i
        = window_mean (sv.m_sgs_points / 2) input i := by
  refine ⟨?_, fun input i => sgs_interior_spec_eq_mean _ input i⟩
  obtain ⟨o, hloop, -⟩ := sgs_pass_loop (sv.m_sgs_points / 2) sv.m_sgs_passes bars
    sv.m_sgs_passes.toNat (le_refl _) h1 (lt_trans h32 (by norm_num))
  unfold sgs_smoothing
  dsimp only
  rw [hloop]
  rfl

theorem sgs_smoothing_eq_iterated_pass_witness :
    2 * ({ example_visualizer with m_sgs_passes := 2 }.m_sgs_points / 2) + 1
      ≤ ([3, 6, 9, 6] : List ℚ).length ∧
    sgs_smoothing { example_visualizer with m_sgs_passes := 2 } [3, 6, 9, 6]
      = some [3, 16 / 3, 19 / 3, 6] := by
  have h := (sgs_smoothing_eq_iterated_pass { example_visualizer with m_sgs_passes := 2 }
    [3, 6, 9, 6] (by decide) (by decide)).1
  refine ⟨by decide, ?_⟩
  rw [h]
  decide!

end audio

namespace audio

/-! ## The cut-off frequencies over the real numbers -/

/-- Over `ℚ` with the collaborator's `pow`, `cut_off_frequency_in` is `cut_off_frequency`. -/
theorem cut_off_frequency_in_rat (E : Collab) (cfg : source.config) (fconst : ℚ) (n : ℕ) :
    cut_off_frequency_in E.pow cfg fconst n = cut_off_frequency E cfg fconst n := by
  unfold cut_off_frequency_in cut_off_frequency
  simp only [Rat.cast_id, Nat.cast_id]

/-- Over `ℚ` with the collaborator's `log10`, `frequency_constant_in` is the value `update`
computes. -/
theorem frequency_constant_in_rat (E : Collab) (cfg : source.config) :
    frequency_constant_in E.log10 cfg
      = E.log10 (cfg.freq_cutoff_low / cfg.freq_cutoff_high)
        / (1 / ((cfg.detail : ℚ) + 1) - 1) := by
  unfold frequency_constant_in
  simp only [Rat.cast_id]

/-- Over the reals, with `0 < detail` and `0 < low < high`, the cut-off frequency of iteration
`n` is `high * 10 ^ (log10 (low / high) * (detail - n) / detail)`. -/
theorem cut_off_frequency_real (cfg : source.config) (hd : 0 < cfg.detail) (n : ℕ) :
    cut_off_frequency_in (fun b e : ℝ => b ^ e) cfg
        (frequency_constant_in (Real.logb 10) cfg) n
      = (cfg.freq_cutoff_high : ℝ)
        * (10 : ℝ) ^ (Real.logb 10 ((cfg.freq_cutoff_low : ℝ) / (cfg.freq_cutoff_high : ℝ))
            * (((cfg.detail : ℝ) - (n : ℝ)) / (cfg.detail : ℝ))) := by
  have hd0 : (0 : ℝ) < (cfg.detail : ℝ) := by exact_mod_cast hd
  have hd1 : (cfg.detail : ℝ) + 1 ≠ 0 := by positivity
  have hden : 1 / ((cfg.detail : ℝ) + 1) - 1 = -(cfg.detail : ℝ) / ((cfg.detail : ℝ) + 1) := by
    field_simp
  unfold cut_off_frequency_in frequency_constant_in
  dsimp only
  congr 2
  rw [hden]
  field_simp
  ring

/-- The store to `m_low_freq_cut[n]` in iteration `n`: the raw bin, or, for `n > 0`, one more
than the entry below when the raw bin does not exceed it. -/
theorem cut_off_step_low_self (raw : ℤ) (n : ℕ) (low high : ℕ → ℤ) :
    (cut_off_step raw n low high).1 n
      = if n = 0 then raw else max raw (low (n - 1) + 1) := by
  unfold cut_off_step
  dsimp only
  by_cases hn : 0 < n
  · have hne : n - 1 ≠ n := by omega
    have hn0 : n ≠ 0 := by omega
    simp only [hn, hn0, if_true, if_false, Function.update_same, Function.update_noteq hne]
    split_ifs with hc
    · rw [Function.update_same, max_eq_right (by omega)]
    · rw [Function.update_same, max_eq_left (by omega)]
  · have hn0 : n = 0 := by omega
    subst hn0
    simp only [lt_irrefl, if_true, if_false, Function.update_same]

/-- After `k` iterations of the loop of `update`, every low bin written so far is the raw bin
computed from the cut-off frequency of its iteration, raised to one more than the low bin below
it. -/
theorem update_loop_low (E : Collab) (cfg : source.config) (fconst : ℚ)
    (s0 : audio_processor) (k n : ℕ) (hn : n < k) :
    (for_loop k (update_band E cfg fconst) s0).m_low_freq_cut n
      = if n = 0 then
          to_int (cut_off_frequency E cfg fconst n / ((cfg.sample_rate / 2 : ℕ) : ℚ)
            * ((s0.m_buf_size / 2 : ℕ) : ℚ) + 1)
        else
          max (to_int (cut_off_frequency E cfg fconst n / ((cfg.sample_rate / 2 : ℕ) : ℚ)
              * ((s0.m_buf_size / 2 : ℕ) : ℚ) + 1))
            ((for_loop k (update_band E cfg fconst) s0).m_low_freq_cut (n - 1) + 1) := by
  induction k with
  | zero => exact absurd hn (Nat.not_lt_zero n)
  | succ k ih =>
    rw [for_loop_succ]
    obtain ⟨low, high, w, hs⟩ := update_loop_shape E cfg fconst s0 k
    have hbuf : (for_loop k (update_band E cfg fconst) s0).m_buf_size = s0.m_buf_size := by
      rw [hs]
    generalize for_loop k (update_band E cfg fconst) s0 = t at ih hbuf
    show (cut_off_step _ k t.m_low_freq_cut t.m_high_freq_cut).1 n
      = if n = 0 then _ else max _ ((cut_off_step _ k t.m_low_freq_cut t.m_high_freq_cut).1 (n - 1) + 1)
    rcases Nat.lt_succ_iff_lt_or_eq.mp hn with hlt | heq
    · rw [cut_off_step_low_of_ne _ _ _ _ _ (Nat.ne_of_lt hlt)]
      by_cases hn0 : n = 0
      · rw [if_pos hn0, ih hlt, if_pos hn0]
      · rw [if_neg hn0, cut_off_step_low_of_ne _ _ _ _ _ (by omega : n - 1 ≠ k), ih hlt,
          if_neg hn0]
    · subst heq
      rw [cut_off_step_low_self, hbuf]
      by_cases hn0 : n = 0
      · rw [if_pos hn0, if_pos hn0]
      · rw [if_neg hn0, if_neg hn0, cut_off_step_low_of_ne _ _ _ _ _ (by omega : n - 1 ≠ n)]

/-- The function `update` is its loop, run with the frequency constant of lines 73–74, on a
state with the new window size and the new `m_eq_dist`. -/
theorem update_as_loop (E : Collab) (cfg : source.config) (s : audio_processor) :
    ∃ s0 : audio_processor,
      update E cfg s
        = for_loop (cfg.detail + 1)
            (update_band E cfg (frequency_constant_in E.log10 cfg)) s0 ∧
      s0.m_buf_size = cfg.buffer_size * cfg.buffer_size ∧
      s0.m_eq_dist = 64 / (cfg.detail : ℚ) := by
  rw [frequency_constant_in_rat]
  exact ⟨_, rfl, rfl, rfl⟩

/-- C27. The cut-off frequency `fc` of iteration `n` of `update` is the expression
`cut_off_frequency_in` with the constant `frequency_constant_in`: with the program's library
routines, `update` stores for every band `n < detail` the weight computed from it and for every
`n ≤ detail` the low bin computed from it (raised to one more than the low bin below).  Over the
real numbers (`pow` the real power, `log10` the real logarithm to base 10), for every
configuration with `detail > 0` and `0 < low_cutoff < high_cutoff`, that expression is
`low_cutoff` at `n = 0` and `high_cutoff` at `n = detail`, is strictly increasing in `n`, and
consecutive values have one constant ratio greater than 1 (geometric spacing). -/
theorem cut_off_frequency_spans_range (cfg : source.config) (hd : 0 < cfg.detail)
    (hl : 0 < cfg.freq_cutoff_low) (hh : cfg.freq_cutoff_low < cfg.freq_cutoff_high) :
    cut_off_frequency_in (fun b e : ℝ => b ^ e) cfg
      (frequency_constant_in (Real.logb 10) cfg) 0 = (cfg.freq_cutoff_low : ℝ) ∧
    cut_off_frequency_in (fun b e : ℝ => b ^ e) cfg
      (frequency_constant_in (Real.logb 10) cfg) cfg.detail = (cfg.freq_cutoff_high : ℝ) ∧
    (∀ m n : ℕ, m < n →
      cut_off_frequency_in (fun b e : ℝ => b ^ e) cfg
          (frequency_constant_in (Real.logb 10) cfg) m
        < cut_off_frequency_in (fun b e : ℝ => b ^ e) cfg
          (frequency_constant_in (Real.logb 10) cfg) n) ∧
    (∃ r : ℝ, 1 < r ∧ ∀ n : ℕ,
      cut_off_frequency_in (fun b e : ℝ => b ^ e) cfg
          (frequency_constant_in (Real.logb 10) cfg) (n + 1)
        = r * cut_off_frequency_in (fun b e : ℝ => b ^ e) cfg
          (frequency_constant_in (Real.logb 10) cfg) n) ∧
    ∀ (E : Collab) (s : audio_processor),
      (∀ n : ℕ, n < cfg.detail →
        (update E cfg s).m_freq_weight n
          = E.pow (cut_off_frequency_in E.pow cfg (frequency_constant_in E.log10 cfg) n)
              (85 / 100)
            * ((cfg.bar_height : ℚ) / 2 ^ 28)
            * smoothing_values.getD
                (UTIL_CLAMP 0 ⌊(n : ℚ) * (64 / (cfg.detail : ℚ))⌋ 64).toNat 0) ∧
      (∀ n : ℕ, n ≤ cfg.detail →
        (update E cfg s).m_low_freq_cut n
          = if n = 0 then
              to_int (cut_off_frequency_in E.pow cfg (frequency_constant_in E.log10 cfg) n
                / ((cfg.sample_rate / 2 : ℕ) : ℚ)
                * ((cfg.buffer_size * cfg.buffer_size / 2 : ℕ) : ℚ) + 1)
            else
              max (to_int (cut_off_frequency_in E.pow cfg (frequency_constant_in E.log10 cfg) n
                  / ((cfg.sample_rate / 2 : ℕ) : ℚ)
                  * ((cfg.buffer_size * cfg.buffer_size / 2 : ℕ) : ℚ) + 1))
                ((update E cfg s).m_low_freq_cut (n - 1) + 1)) := by
  have hd0 : (0 : ℝ) < (cfg.detail : ℝ) := by exact_mod_cast hd
  have hlo : (0 : ℝ) < (cfg.freq_cutoff_low : ℝ) := by exact_mod_cast hl
  have hlh : (cfg.freq_cutoff_low : ℝ) < (cfg.freq_cutoff_high : ℝ) := by exact_mod_cast hh
  have hhi : (0 : ℝ) < (cfg.freq_cutoff_high : ℝ) := lt_trans hlo hlh
  have hq0 : (0 : ℝ) < (cfg.freq_cutoff_low : ℝ) / (cfg.freq_cutoff_high : ℝ) :=
    div_pos hlo hhi
  have hq1 : (cfg.freq_cutoff_low : ℝ) / (cfg.freq_cutoff_high : ℝ) < 1 :=
    (div_lt_one hhi).mpr hlh
  have hL : Real.logb 10 ((cfg.freq_cutoff_low : ℝ) / (cfg.freq_cutoff_high : ℝ)) < 0 :=
    Real.logb_neg (by norm_num) hq0 hq1
  refine ⟨?_, ?_, ?_, ?_, fun E s => ?_⟩
  rotate_right
  · obtain ⟨s0, hu, hbuf, heq⟩ := update_as_loop E cfg s
    rw [hu]
    constructor
    · intro n hn
      rw [update_loop_weight E cfg _ s0 (cfg.detail + 1) n (Nat.lt_succ_of_lt hn) hn, heq,
        cut_off_frequency_in_rat]
    · intro n hn
      rw [update_loop_low E cfg _ s0 (cfg.detail + 1) n (Nat.lt_succ_of_le hn), hbuf,
        cut_off_frequency_in_rat]
  · rw [cut_off_frequency_real cfg hd]
    have h1 : ((cfg.detail : ℝ) - ((0 : ℕ) : ℝ)) / (cfg.detail : ℝ) = 1 := by
      rw [Nat.cast_zero, sub_zero, div_self (ne_of_gt hd0)]
    rw [h1, mul_one, Real.rpow_logb (by norm_num) (by norm_num) hq0]
    field_simp
  · rw [cut_off_frequency_real cfg hd, sub_self, zero_div, mul_zero, Real.rpow_zero, mul_one]
  · intro m n hmn
    rw [cut_off_frequency_real cfg hd, cut_off_frequency_real cfg hd]
    apply mul_lt_mul_of_pos_left _ hhi
    rw [Real.rpow_lt_rpow_left_iff (by norm_num)]
    apply mul_lt_mul_of_neg_left _ hL
    apply div_lt_div_of_pos_right _ hd0
    have : (m : ℝ) < (n : ℝ) := by exact_mod_cast hmn
    linarith
  · refine ⟨(10 : ℝ) ^ (-Real.logb 10
        ((cfg.freq_cutoff_low : ℝ) / (cfg.freq_cutoff_high : ℝ)) / (cfg.detail : ℝ)),
      Real.one_lt_rpow (by norm_num) (div_pos (neg_pos.mpr hL) hd0), fun n => ?_⟩
    rw [cut_off_frequency_real cfg hd, cut_off_frequency_real cfg hd, mul_left_comm,
      ← Real.rpow_add (by norm_num)]
    congr 2
    push_cast
    field_simp
    ring

theorem cut_off_frequency_spans_range_witness :
    (0 < (example_config false).detail ∧ 0 < (example_config false).freq_cutoff_low ∧
      (example_config false).freq_cutoff_low < (example_config false).freq_cutoff_high) ∧
    cut_off_frequency_in (fun b e : ℝ => b ^ e) (example_config false)
      (frequency_constant_in (Real.logb 10) (example_config false)) 0
        = ((example_config false).freq_cutoff_low : ℝ) :=
  ⟨⟨by decide, by decide!, by decide!⟩,
    (cut_off_frequency_spans_range (example_config false) (by decide) (by decide!)
      (by decide!)).1⟩

end audio

namespace audio

/-! ## Indices and allocated sizes of the per-band arrays -/

/-- Iteration `n` of the loop of `update` stores to `m_low_freq_cut[n]`: whatever the table held
before, afterwards the entry is the raw bin, or one more than the entry below it. -/
theorem update_band_stores_low (E : Collab) (cfg : source.config) (fconst : ℚ) (n : ℕ)
    (s t : audio_processor) (h : ∀ j, j ≠ n → s.m_low_freq_cut j = t.m_low_freq_cut j)
    (hb : s.m_buf_size = t.m_buf_size) :
    (update_band E cfg fconst n s).m_low_freq_cut n
      = (update_band E cfg fconst n t).m_low_freq_cut n := by
  unfold update_band cut_off_step
  dsimp only
  rw [hb]
  by_cases hn : 0 < n
  · have hne : n - 1 ≠ n := by omega
    simp only [hn, if_true, Function.update_same, Function.update_noteq hne, h (n - 1) hne]
    split_ifs <;> simp only [Function.update_same]
  · simp only [hn, if_false, Function.update_same]

/-- C25 (the code at the failing input). Mono, two bands: `update` requests 2 elements for
`m_low_freq_cut`, and its loop, which runs for `n = 0, 1, 2`, stores the value 3 at index 2; the
entry at index 3 is untouched.  Stereo, two bands, falloff active: `update` requests 2 elements
for `m_freq_peak`, and the processing loop of `tick`, which runs for `o = 0, 1, 2, 3`, stores the
peak 180 at index 2. -/
theorem update_and_tick_index_past_allocation :
    (update_allocation (example_config false)).m_low_freq_cut = 2 ∧
    (update example_collab (example_config false)
      (example_state 1 (impulse 10) (impulse 0))).m_low_freq_cut 2 = 3 ∧
    (update example_collab (example_config false)
      (example_state 1 (impulse 10) (impulse 0))).m_low_freq_cut 3 = 0 ∧
    (update_allocation (example_config true)).m_freq_peak = 2 ∧
    (example_state 2 (impulse 10) (impulse 30)).m_freq_peak 2 = 0 ∧
    (tick example_collab 1 (example_config true)
      { example_state 2 (impulse 10) (impulse 30) with m_current_gravity := 1 }).m_freq_peak 2
        = 180 := by
  decide!

end audio

namespace audio

/-! ## The stereo output and the previous combined array -/

end audio

namespace audio

/-! ## The rounding of `double` -/

/-- With enough fuel, `bit_length` is the number of binary digits:
`2 ^ (bit_length - 1) ≤ n < 2 ^ bit_length` for `n > 0`. -/
theorem bit_length_spec (fuel n : ℕ) (hf : n ≤ fuel) (hn : 0 < n) :
    0 < bit_length fuel n ∧ 2 ^ (bit_length fuel n - 1) ≤ n ∧ n < 2 ^ bit_length fuel n := by
  induction fuel generalizing n with
  | zero => omega
  | succ f ih =>
    unfold bit_length
    rw [if_neg (by omega)]
    by_cases h2 : n / 2 = 0
    · have h1 : n = 1 := by omega
      subst h1
      have hz : bit_length f (1 / 2) = 0 := by
        cases f with
        | zero => rfl
        | succ g => unfold bit_length; simp
      rw [hz]
      simp
    · obtain ⟨hp, hlo, hhi⟩ := ih (n / 2) (by omega) (by omega)
      refine ⟨by omega, ?_, ?_⟩
      · have h : bit_length f (n / 2) + 1 - 1 = (bit_length f (n / 2) - 1) + 1 := by omega
        rw [h, pow_succ]
        omega
      · rw [pow_succ]
        omega

/-- The exponent `binary_exponent q` of a nonzero `q` satisfies
`2 ^ e ≤ |q| < 2 ^ (e + 1)`. -/
theorem binary_exponent_spec (q : ℚ) (hq : q ≠ 0) :
    (2 : ℚ) ^ binary_exponent q ≤ |q| ∧ |q| < (2 : ℚ) ^ (binary_exponent q + 1) := by
  have hnum : 0 < q.num.natAbs := Int.natAbs_pos.mpr (Rat.num_ne_zero.mpr hq)
  have hden : 0 < q.den := q.den_pos
  obtain ⟨ha0, _, hahi⟩ := bit_length_spec q.num.natAbs q.num.natAbs (le_refl _) hnum
  obtain ⟨hb0, hblo, _⟩ := bit_length_spec q.den q.den (le_refl _) hden
  have habs : |q| = (q.num.natAbs : ℚ) / (q.den : ℚ) := by
    conv_lhs => rw [← Rat.num_div_den q]
    rw [abs_div, Nat.abs_cast, Nat.cast_natAbs, Int.cast_abs]
  have hd : (0 : ℚ) < (q.den : ℚ) := by exact_mod_cast hden
  have h2 : (0 : ℚ) < 2 := by norm_num
  unfold binary_exponent
  dsimp only
  split_ifs with hle
  · refine ⟨hle, ?_⟩
    rw [habs, div_lt_iff₀ hd]
    have hA : (q.num.natAbs : ℚ) < (2 : ℚ) ^ (bit_length q.num.natAbs q.num.natAbs) := by
      exact_mod_cast hahi
    have hB : (2 : ℚ) ^ (bit_length q.den q.den - 1) ≤ (q.den : ℚ) := by
      exact_mod_cast hblo
    have hsplit : (2 : ℚ) ^ ((bit_length q.num.natAbs q.num.natAbs : ℤ)
        - (bit_length q.den q.den : ℤ) + 1) * (2 : ℚ) ^ (bit_length q.den q.den - 1)
        = (2 : ℚ) ^ (bit_length q.num.natAbs q.num.natAbs) := by
      rw [← zpow_natCast (2 : ℚ) (bit_length q.den q.den - 1), ← zpow_add₀ (ne_of_gt h2),
        ← zpow_natCast]
      congr 1
      omega
    calc (q.num.natAbs : ℚ) < (2 : ℚ) ^ (bit_length q.num.natAbs q.num.natAbs) := hA
      _ = (2 : ℚ) ^ ((bit_length q.num.natAbs q.num.natAbs : ℤ)
            - (bit_length q.den q.den : ℤ) + 1) * (2 : ℚ) ^ (bit_length q.den q.den - 1) :=
          hsplit.symm
      _ ≤ _ := mul_le_mul_of_nonneg_left hB (le_of_lt (zpow_pos h2 _))
  · refine ⟨?_, ?_⟩
    · obtain ⟨_, halo, _⟩ := bit_length_spec q.num.natAbs q.num.natAbs (le_refl _) hnum
      obtain ⟨_, _, hbhi⟩ := bit_length_spec q.den q.den (le_refl _) hden
      rw [habs, le_div_iff₀ hd]
      have hA : (2 : ℚ) ^ (bit_length q.num.natAbs q.num.natAbs - 1)
          ≤ (q.num.natAbs : ℚ) := by exact_mod_cast halo
      have hB : (q.den : ℚ) ≤ (2 : ℚ) ^ (bit_length q.den q.den) := by
        exact_mod_cast le_of_lt hbhi
      have hsplit : (2 : ℚ) ^ ((bit_length q.num.natAbs q.num.natAbs : ℤ)
          - (bit_length q.den q.den : ℤ) - 1) * (2 : ℚ) ^ (bit_length q.den q.den)
          = (2 : ℚ) ^ (bit_length q.num.natAbs q.num.natAbs - 1) := by
        rw [← zpow_natCast (2 : ℚ) (bit_length q.den q.den), ← zpow_add₀ (ne_of_gt h2),
          ← zpow_natCast]
        congr 1
        omega
      calc _ ≤ (2 : ℚ) ^ ((bit_length q.num.natAbs q.num.natAbs : ℤ)
            - (bit_length q.den q.den : ℤ) - 1) * (2 : ℚ) ^ (bit_length q.den q.den) :=
          mul_le_mul_of_nonneg_left hB (le_of_lt (zpow_pos h2 _))
        _ = (2 : ℚ) ^ (bit_length q.num.natAbs q.num.natAbs - 1) := hsplit
        _ ≤ _ := hA
    · rw [sub_add_cancel]
      exact lt_of_not_le hle

/-- The function `round_to_even` moves a number by at most half the spacing `2 ^ e`. -/
theorem round_to_even_near (q : ℚ) (e : ℤ) : |round_to_even q e - q| ≤ (2 : ℚ) ^ e / 2 := by
  have hp : (0 : ℚ) < (2 : ℚ) ^ e := zpow_pos (by norm_num) e
  have hfl := Int.floor_le (q / (2 : ℚ) ^ e)
  have hlt := Int.lt_floor_add_one (q / (2 : ℚ) ^ e)
  have key : ∀ m : ℤ, |(m : ℚ) - q / (2 : ℚ) ^ e| ≤ 1 / 2 →
      |(m : ℚ) * (2 : ℚ) ^ e - q| ≤ (2 : ℚ) ^ e / 2 := by
    intro m hm
    have h : (m : ℚ) * (2 : ℚ) ^ e - q = ((m : ℚ) - q / (2 : ℚ) ^ e) * (2 : ℚ) ^ e := by
      field_simp
    rw [h, abs_mul, abs_of_pos hp]
    calc |(m : ℚ) - q / (2 : ℚ) ^ e| * (2 : ℚ) ^ e ≤ 1 / 2 * (2 : ℚ) ^ e :=
          mul_le_mul_of_nonneg_right hm (le_of_lt hp)
      _ = (2 : ℚ) ^ e / 2 := by ring
  unfold round_to_even
  dsimp only
  apply key
  split_ifs with h1 h2 h3
  · rw [abs_le]; constructor <;> linarith
  · push_cast; rw [abs_le]; constructor <;> linarith
  · rw [abs_le]; constructor <;> linarith
  · push_cast; rw [abs_le]; constructor <;> linarith

/-- The value `binary64 q` is an integer multiple of the spacing `2 ^ (e - 52)` of the doubles
with the exponent `e` of `q`, and it is within half that spacing of `q`. -/
theorem binary64_near (q : ℚ) (hq : q ≠ 0) :
    (∃ m : ℤ, binary64 q = (m : ℚ) * (2 : ℚ) ^ (binary_exponent q - 52)) ∧
    |binary64 q - q| ≤ (2 : ℚ) ^ (binary_exponent q - 52) / 2 := by
  unfold binary64
  rw [if_neg hq]
  exact ⟨⟨_, rfl⟩, round_to_even_near q _⟩

end audio

namespace audio

/-! ## The scale ceiling in `double` arithmetic -/

/-- C10 (the code at the failing input). In `double` arithmetic, with a target window size of
120, three consecutive calls of `scale_bars` at height 100 from an empty window, each on the
bars `3.7` and `1`: the first call returns 99 and about 26.03; before the third call the window
holds the `double` 3.7 twice; in the third call the radicand of line 388 rounds to `-2^-49`, the
standard deviation is NaN, the ceiling `std::max(NaN, 1.0)` is NaN and not a number `≥ 1`, and
both bars come out as 99.  In exact arithmetic the same call has the ceiling `3.7` and returns
99 and `963/37`. -/
theorem scale_bars_ceiling_is_nan_on_constant_window :
    binary64 (37 / 10) = 4165829655317709 / 2 ^ 50 ∧
    (scale_bars_binary64 example_collab example_constants example_visualizer 100
      [binary64 (37 / 10), 1]).1 = [some 99, some (3662978413140023 / 2 ^ 47)] ∧
    (scale_run_binary64 example_collab example_constants 100
        [[binary64 (37 / 10), 1], [binary64 (37 / 10), 1]]
        example_visualizer).m_previous_max_heights
      = [binary64 (37 / 10), binary64 (37 / 10)] ∧
    binary64 (binary64 (inner_product_binary64
          [binary64 (37 / 10), binary64 (37 / 10), binary64 (37 / 10)] / 3)
        - binary64 (binary64 (accumulate_binary64
          [binary64 (37 / 10), binary64 (37 / 10), binary64 (37 / 10)] / 3) ^ 2))
      = -(1 / 2 ^ 49) ∧
    (calculate_moving_average_and_std_dev_binary64 example_collab (binary64 (37 / 10)) 120
      [binary64 (37 / 10), binary64 (37 / 10)]).2.2 = none ∧
    scale_ceiling_binary64 example_collab example_constants
      (scale_run_binary64 example_collab example_constants 100
        [[binary64 (37 / 10), 1], [binary64 (37 / 10), 1]] example_visualizer)
      [binary64 (37 / 10), 1] = none ∧
    (scale_bars_binary64 example_collab example_constants
      (scale_run_binary64 example_collab example_constants 100
        [[binary64 (37 / 10), 1], [binary64 (37 / 10), 1]] example_visualizer)
      100 [binary64 (37 / 10), 1]).1 = [some 99, some 99] ∧
    scale_ceiling example_collab example_constants
      (scale_run example_collab example_constants 100 [[37 / 10, 1], [37 / 10, 1]]
        example_visualizer) [37 / 10, 1] = 37 / 10 ∧
    (scale_bars example_collab example_constants
      (scale_run example_collab example_constants 100 [[37 / 10, 1], [37 / 10, 1]]
        example_visualizer) 100 [37 / 10, 1]).1 = [99, 963 / 37] := by
  decide!

end audio
